import Mathlib

/-!
A shallow embedding of the core kernels of this repository:

* `Rlasyf` (src/external/MPACK/mlapack/library/Rlasyf.cpp) — one blocked step
  of the Bunch-Kaufman symmetric-indefinite factorization, in both the upper
  (backward) and lower (forward) traversal directions; and
* `Rdot` (src/external/MPACK/mblas/optimized/mpfr/Rdot.cpp) — the strided dot
  product.

The arbitrary-precision scalar type is modelled by an arbitrary linear ordered
field `F`; the pivot threshold `alpha = (1+sqrt 17)/8`, which the C code
computes from the scalar type's square root, is taken as a parameter so that
the algorithm stays expressible over any such field (the theorems about the
actual program instantiate `F := ℝ` and `alpha := (1 + Real.sqrt 17) / 8`).

Buffers (`REAL *`, `INTEGER *`) are modelled as total maps from flat
(column-major) integer indices to values; a C pointer `&A[off]` becomes the
explicit offset `off` into such a buffer.  Loops of the C code become folds
over `List.range`, or fuel-indexed recursion for the `while` loops whose trip
count is data dependent (the fuel supplied by the top-level entry point is
large enough for every terminating execution of the C code).
-/

namespace MPACK

/-- A flat buffer: a total map from flat indices to values. -/
structure Buf (F : Type) : Type where
  get : ℤ → F

/-- Write value `v` at flat index `i` of buffer `b`. -/
def store {α : Type} (b : Buf α) (i : ℤ) (v : α) : Buf α :=
  ⟨fun j => if j = i then v else b.get j⟩

variable {F : Type} [LinearOrderedField F]

/-- Modelled from the spec: the vector primitive `Copy` (spec 4.1), whose
source file is not part of this repository — "element-wise copy preserving
each side's stride pattern", written here for the nonnegative strides that
`Rlasyf` uses: element `t` of the destination view receives element `t` of
the source view, for `t = 0, …, n-1`. -/
def Rcopy (n : ℤ) (x : Buf F) (xoff incx : ℤ) (y : Buf F) (yoff incy : ℤ) : Buf F :=
  (List.range n.toNat).foldl
    (fun b (t : ℕ) => store b (yoff + (t : ℤ) * incy) (x.get (xoff + (t : ℤ) * incx))) y

/-- Modelled from the spec: the vector primitive `Swap` (spec 4.1), whose
source file is not part of this repository — "pairwise exchange of
corresponding strided elements".  `Rlasyf` only ever swaps two views of one
and the same buffer, so the model takes a single buffer and two view
descriptors. -/
def Rswap (n : ℤ) (b : Buf F) (off1 inc1 off2 inc2 : ℤ) : Buf F :=
  (List.range n.toNat).foldl
    (fun c (t : ℕ) =>
      store (store c (off1 + (t : ℤ) * inc1) (c.get (off2 + (t : ℤ) * inc2)))
        (off2 + (t : ℤ) * inc2) (c.get (off1 + (t : ℤ) * inc1))) b

/-- Modelled from the spec: the vector primitive `Scal` (spec 4.1), whose
source file is not part of this repository — "in-place multiply of n strided
elements by α". -/
def Rscal (n : ℤ) (a : F) (b : Buf F) (off inc : ℤ) : Buf F :=
  (List.range n.toNat).foldl
    (fun c (t : ℕ) => store c (off + (t : ℤ) * inc) (a * c.get (off + (t : ℤ) * inc))) b

/-- Modelled from the spec: `IndexOfMaxAbs` (spec 4.1), whose source file is
not part of this repository — "index of the element of greatest absolute
value; the first occurrence wins ties", 1-based, returning 0 when `n < 1`
(the reference BLAS convention). -/
def iRamax (n : ℤ) (x : Buf F) (off inc : ℤ) : ℤ :=
  if n < 1 then 0
  else
    ((List.range (n.toNat - 1)).foldl
      (fun acc (t : ℕ) =>
        if |x.get (off + ((t : ℤ) + 1) * inc)| > acc.2 then
          (((t : ℤ) + 2), |x.get (off + ((t : ℤ) + 1) * inc)|)
        else acc)
      ((1 : ℤ), |x.get off|)).1

/-- The inner product `Σ_{j < ncols} A[aoff + i + j*lda] * x[xoff + j*incx]`
accumulated left to right, as `Gemv` computes row `i` of `op(A)·x`. -/
def gemvDot (A : Buf F) (aoff lda : ℤ) (x : Buf F) (xoff incx : ℤ) (i : ℤ)
    (ncols : ℕ) : F :=
  (List.range ncols).foldl
    (fun acc (j : ℕ) => acc + A.get (aoff + i + (j : ℤ) * lda) * x.get (xoff + (j : ℤ) * incx)) 0

/-- Modelled from the spec: the matrix primitive `Gemv` (spec 4.2), whose
source file is not part of this repository — `y := α·op(A)·x + β·y` on views
given by pointer offset plus leading dimension, written for the
"No transpose" mode, the only mode `Rlasyf` uses. -/
def Rgemv (m n : ℤ) (alpha : F) (A : Buf F) (aoff lda : ℤ) (x : Buf F)
    (xoff incx : ℤ) (beta : F) (y : Buf F) (yoff incy : ℤ) : Buf F :=
  (List.range m.toNat).foldl
    (fun b (i : ℕ) => store b (yoff + (i : ℤ) * incy)
      (beta * b.get (yoff + (i : ℤ) * incy) +
        alpha * gemvDot A aoff lda x xoff incx (i : ℤ) n.toNat)) y

/-- The inner product `Σ_{l < kk} A[aoff + i + l*lda] * B[boff + jc + l*ldb]`,
as `Gemm` in the "No transpose"/"Transpose" mode computes entry `(i, jc)` of
`A·Bᵗ`. -/
def gemmDot (A : Buf F) (aoff lda : ℤ) (B : Buf F) (boff ldb : ℤ) (i jc : ℤ)
    (kk : ℕ) : F :=
  (List.range kk).foldl
    (fun acc (l : ℕ) => acc + A.get (aoff + i + (l : ℤ) * lda) * B.get (boff + jc + (l : ℤ) * ldb)) 0

/-- Modelled from the spec: the matrix primitive `Gemm` (spec 4.2), whose
source file is not part of this repository — `C := α·op(A)·op(B) + β·C`,
written for the "No transpose"/"Transpose" mode, the only mode `Rlasyf`
uses.  The `A`/`B` arguments are read as snapshots, which agrees with the C
routine because `Rlasyf` only ever passes source and destination regions
that are disjoint. -/
def Rgemm (m ncol kk : ℤ) (alpha : F) (A : Buf F) (aoff lda : ℤ) (B : Buf F)
    (boff ldb : ℤ) (beta : F) (C : Buf F) (coff ldc : ℤ) : Buf F :=
  (List.range ncol.toNat).foldl
    (fun Cb (jc : ℕ) =>
      (List.range m.toNat).foldl
        (fun Cb2 (i : ℕ) => store Cb2 (coff + (i : ℤ) + (jc : ℤ) * ldc)
          (beta * Cb2.get (coff + (i : ℤ) + (jc : ℤ) * ldc) +
            alpha * gemmDot A aoff lda B boff ldb (i : ℤ) (jc : ℤ) kk.toNat)) Cb)
    C

/-- The strictly sequential left-to-right accumulation
`Σ_{i < m} dx[ix + i*incx] * dy[iy + i*incy]` of `Rdot`'s loop
(Rdot.cpp lines 108-114), starting from `temp = 0`. -/
def rdotSum (dx : Buf F) (incx : ℤ) (dy : Buf F) (incy : ℤ) (ix iy : ℤ)
    (m : ℕ) : F :=
  (List.range m).foldl
    (fun acc (i : ℕ) => acc + dx.get (ix + (i : ℤ) * incx) * dy.get (iy + (i : ℤ) * incy)) 0

/-- `Rdot` (Rdot.cpp): returns 0 for `n ≤ 0`; negative strides start from
`(-n+1)*inc` (the last-accessed element) and walk backward.  The unit-stride
branch of the C code computes the same index range with an OpenMP partition
whose partial sums are merged in unspecified order; over the exact field `F`
(where addition is associative and commutative) every merge order has the
value of the sequential sum, which is what this model assigns to that
branch. -/
def Rdot (n : ℤ) (dx : Buf F) (incx : ℤ) (dy : Buf F) (incy : ℤ) : F :=
  if n ≤ 0 then 0
  else
    let ix : ℤ := if incx < 0 then (-n + 1) * incx else 0
    let iy : ℤ := if incy < 0 then (-n + 1) * incy else 0
    if incx = 1 ∧ incy = 1 then rdotSum dx 1 dy 1 0 0 n.toNat
    else rdotSum dx incx dy incy ix iy n.toNat

/-! ### The `Rlasyf` kernel -/

/-- The mutable state of one `Rlasyf` call: the matrix buffer `A`, the
workspace buffer `w`, the pivot buffer `ipiv` and the running `info`. -/
structure LasyfState (F : Type) where
  A : Buf F
  w : Buf F
  ipiv : Buf ℤ
  info : ℤ

/-- What an `Rlasyf` call produces: the final buffers together with the
computed column count `kb` and diagnostic `info`.  (The C signature writes
`info` through a pointer; the value it assigns to `kb` is recorded here as
well — see the discussion of the by-value `kb` parameter at the theorems
about it.) -/
structure LasyfResult (F : Type) where
  A : Buf F
  w : Buf F
  ipiv : Buf ℤ
  kb : ℤ
  info : ℤ

/-- The inline 2×2 solve of the commit step (Rlasyf.cpp lines 182-189 upper,
332-339 lower): normalize by the off-diagonal entry `D12` of the pivot block,
form `d11` and `d22` as the diagonal entries divided by it, form the
determinant-like term `t = 1/(d11*d22 - 1)`, rescale `d21`, and apply the
resulting coefficients to one row `(w1, w2)` of the two staged workspace
columns, yielding the pair of committed factor entries for that row. -/
def lasyf2x2Solve (D11 D12 D22 w1 w2 : F) : F × F :=
  let d21 := D12
  let d11 := D22 / d21
  let d22 := D11 / d21
  let t := 1 / (d11 * d22 - 1)
  let d21t := t / d21
  (d21t * (d11 * w1 - w2), d21t * (d22 * w2 - w1))

/-- Upper mode: the column of `w` corresponding to frontier column `k`
(`kw = nb + k - n`, Rlasyf.cpp line 91). -/
def upperKw (n nb k : ℤ) : ℤ := nb + k - n

/-- Upper mode, Rlasyf.cpp lines 96-99: copy column `k` of `A` into column
`kw` of `w` and update it against the already-staged factor columns. -/
def upperStageW (n nb lda ldw k : ℤ) (A w : Buf F) : Buf F :=
  let kw := upperKw n nb k
  let w1 := Rcopy k A ((k - 1) * lda) 1 w ((kw - 1) * ldw) 1
  if k < n then
    Rgemv k (n - k) (-1) A (k * lda) lda w1 ((k - 1) + kw * ldw) ldw 1
      w1 ((kw - 1) * ldw) 1
  else w1

/-- Upper mode, Rlasyf.cpp line 103: `absakk`, the absolute value of the
staged diagonal element at the frontier. -/
def upperAbsakk (n nb ldw k : ℤ) (w2 : Buf F) : F :=
  |w2.get ((k - 1) + (upperKw n nb k - 1) * ldw)|

/-- Upper mode, Rlasyf.cpp lines 106-111: `imax`, the row index of the
largest off-diagonal element of the staged column (0 when `k = 1`, matching
the C initialisation). -/
def upperImax (n nb ldw k : ℤ) (w2 : Buf F) : ℤ :=
  if k > 1 then iRamax (k - 1) w2 ((upperKw n nb k - 1) * ldw) 1 else 0

/-- Upper mode, Rlasyf.cpp lines 106-111: `colmax`, the largest off-diagonal
magnitude of the staged column (0 when `k = 1`). -/
def upperColmax (n nb ldw k : ℤ) (w2 : Buf F) : F :=
  if k > 1 then
    |w2.get ((upperImax n nb ldw k w2 - 1) + (upperKw n nb k - 1) * ldw)|
  else 0

/-- Upper mode, Rlasyf.cpp lines 124-128: copy column `imax` of `A` (split
as the upper part of column `imax` plus the row segment right of the
diagonal) into column `kw-1` of `w` and update it. -/
def upperStageImaxW (n nb lda ldw k imax : ℤ) (A w2 : Buf F) : Buf F :=
  let kw := upperKw n nb k
  let wa := Rcopy imax A ((imax - 1) * lda) 1 w2 ((kw - 2) * ldw) 1
  let wb := Rcopy (k - imax) A ((imax - 1) + imax * lda) lda wa (imax + (kw - 2) * ldw) 1
  if k < n then
    Rgemv k (n - k) (-1) A (k * lda) lda wb ((imax - 1) + kw * ldw) ldw 1
      wb ((kw - 2) * ldw) 1
  else wb

/-- Upper mode, Rlasyf.cpp lines 131-137: `rowmax`, the largest off-diagonal
magnitude in the staged row `imax` (both sides of the diagonal). -/
def upperRowmax (n nb ldw k imax : ℤ) (wc : Buf F) : F :=
  let kw := upperKw n nb k
  let jmax1 := imax + iRamax (k - imax) wc (imax + (kw - 2) * ldw) 1
  let r1 := |wc.get ((jmax1 - 1) + (kw - 2) * ldw)|
  if imax > 1 then
    let jmax2 := iRamax (imax - 1) wc ((kw - 2) * ldw) 1
    max r1 |wc.get ((jmax2 - 1) + (kw - 2) * ldw)|
  else r1

/-- Upper mode, Rlasyf.cpp lines 119-152: the Bunch-Kaufman pivot decision
for a nonzero staged column.  Returns `(kp, kstep, w')` where `w'` is the
workspace after any additional staging and the copy-back of column `kw-1`
onto `kw` in the 1×1-with-interchange case. -/
def upperPivot (alpha : F) (n nb lda ldw k : ℤ) (A w2 : Buf F) : ℤ × ℤ × Buf F :=
  let kw := upperKw n nb k
  let absakk := upperAbsakk n nb ldw k w2
  let imax := upperImax n nb ldw k w2
  let colmax := upperColmax n nb ldw k w2
  if absakk ≥ alpha * colmax then (k, 1, w2)
  else
    let wc := upperStageImaxW n nb lda ldw k imax A w2
    let rowmax := upperRowmax n nb ldw k imax wc
    if absakk ≥ alpha * colmax * (colmax / rowmax) then (k, 1, wc)
    else if |wc.get ((imax - 1) + (kw - 2) * ldw)| ≥ alpha * rowmax then
      (imax, 1, Rcopy k wc ((kw - 2) * ldw) 1 wc ((kw - 1) * ldw) 1)
    else (imax, 2, wc)

/-- Upper mode, Rlasyf.cpp lines 154-165: when `kp ≠ kk`, copy the
non-updated column `kk` to column/row `kp` and interchange rows `kk` and
`kp` in the trailing columns of `A` and `w`. -/
def upperInterchange (n nb lda ldw k kp kstep : ℤ) (A w3 : Buf F) :
    Buf F × Buf F :=
  let kk := k - kstep + 1
  let kkw := nb + kk - n
  if kp ≠ kk then
    let A1 := store A ((kp - 1) + (k - 1) * lda) (A.get ((kk - 1) + (k - 1) * lda))
    let A2 := Rcopy (k - 1 - kp) A1 (kp + (kk - 1) * lda) 1 A1 ((kp - 1) + kp * lda) lda
    let A3 := Rcopy kp A2 ((kk - 1) * lda) 1 A2 ((kp - 1) * lda) 1
    let A4 := Rswap (n - kk + 1) A3 ((kk - 1) + (kk - 1) * lda) lda
      ((kp - 1) + (kk - 1) * lda) lda
    let w4 := Rswap (n - kk + 1) w3 ((kk - 1) + (kkw - 1) * ldw) ldw
      ((kp - 1) + (kkw - 1) * ldw) ldw
    (A4, w4)
  else (A, w3)

/-- Upper mode, Rlasyf.cpp lines 166-196: commit the staged column(s) into
`A` — copy and rescale for a 1×1 pivot, or the inline 2×2 solve plus the
copy of the pivot block `D(k)` for a 2×2 pivot. -/
def upperCommit (n nb lda ldw k kstep : ℤ) (Ab w4 : Buf F) : Buf F :=
  let kw := upperKw n nb k
  if kstep = 1 then
    let A5 := Rcopy k w4 ((kw - 1) * ldw) 1 Ab ((k - 1) * lda) 1
    let r1 := 1 / A5.get ((k - 1) + (k - 1) * lda)
    Rscal (k - 1) r1 A5 ((k - 1) * lda) 1
  else
    let A5 :=
      if k > 2 then
        let D12 := w4.get ((k - 2) + (kw - 1) * ldw)
        let D22 := w4.get ((k - 1) + (kw - 1) * ldw)
        let D11 := w4.get ((k - 2) + (kw - 2) * ldw)
        (List.range (k - 2).toNat).foldl
          (fun b (t : ℕ) =>
            let pr := lasyf2x2Solve D11 D12 D22
              (w4.get ((t : ℤ) + (kw - 2) * ldw)) (w4.get ((t : ℤ) + (kw - 1) * ldw))
            store (store b ((t : ℤ) + (k - 2) * lda) pr.1)
              ((t : ℤ) + (k - 1) * lda) pr.2)
          Ab
      else Ab
    let A6 := store A5 ((k - 2) + (k - 2) * lda) (w4.get ((k - 2) + (kw - 2) * ldw))
    let A7 := store A6 ((k - 2) + (k - 1) * lda) (w4.get ((k - 2) + (kw - 1) * ldw))
    store A7 ((k - 1) + (k - 1) * lda) (w4.get ((k - 1) + (kw - 1) * ldw))

/-- Upper mode, one iteration of the main loop (Rlasyf.cpp lines 91-206):
stage column `k`, decide the pivot, interchange, commit, and record `ipiv`;
returns the new state and the `kstep` by which the frontier advances.  A
staged column that is exactly zero records `info` (first occurrence only)
and skips the entire interchange-and-commit block. -/
def upperIter (alpha : F) (n nb lda ldw k : ℤ) (s : LasyfState F) :
    LasyfState F × ℤ :=
  let w2 := upperStageW n nb lda ldw k s.A s.w
  if max (upperAbsakk n nb ldw k w2) (upperColmax n nb ldw k w2) = 0 then
    (⟨s.A, w2, store s.ipiv (k - 1) k, if s.info = 0 then k else s.info⟩, 1)
  else
    let p := upperPivot alpha n nb lda ldw k s.A w2
    let kp := p.1
    let kstep := p.2.1
    let aw := upperInterchange n nb lda ldw k kp kstep s.A p.2.2
    let A6 := upperCommit n nb lda ldw k kstep aw.1 aw.2
    let ipiv2 := if kstep = 1 then store s.ipiv (k - 1) kp
      else store (store s.ipiv (k - 1) (-kp)) (k - 2) (-kp)
    (⟨A6, aw.2, ipiv2, s.info⟩, kstep)

/-- Upper mode: the main `while` loop (Rlasyf.cpp lines 90-207), running the
frontier `k` down until `(k ≤ n - nb + 1 ∧ nb < n) ∨ k < 1`.  Fuel-indexed;
the caller passes enough fuel for every terminating C execution.  Returns
the final state together with the exit value of `k`. -/
def upperLoop (alpha : F) (n nb lda ldw : ℤ) :
    ℕ → ℤ → LasyfState F → LasyfState F × ℤ
  | 0, k, s => (s, k)
  | fuel + 1, k, s =>
    if (k ≤ n - nb + 1 ∧ nb < n) ∨ k < 1 then (s, k)
    else
      let r := upperIter alpha n nb lda ldw k s
      upperLoop alpha n nb lda ldw fuel (k - r.2) r.1

/-- Upper mode: the per-iteration event trace of the main loop — for each
iteration, the frontier `k`, the `kstep` consumed, the interchange partner
`kp`, and whether the staged column was exactly zero.  It runs the same exit
test and the same `upperIter` as `upperLoop`, only additionally recording
what each iteration did. -/
def upperTrace (alpha : F) (n nb lda ldw : ℤ) :
    ℕ → ℤ → LasyfState F → List (ℤ × ℤ × ℤ × Bool)
  | 0, _, _ => []
  | fuel + 1, k, s =>
    if (k ≤ n - nb + 1 ∧ nb < n) ∨ k < 1 then []
    else
      let w2 := upperStageW n nb lda ldw k s.A s.w
      let sing : Bool :=
        if max (upperAbsakk n nb ldw k w2) (upperColmax n nb ldw k w2) = 0
        then true else false
      let kp : ℤ :=
        if sing then k else (upperPivot alpha n nb lda ldw k s.A w2).1
      let r := upperIter alpha n nb lda ldw k s
      (k, r.2, kp, sing) :: upperTrace alpha n nb lda ldw fuel (k - r.2) r.1

/-- Upper mode, Rlasyf.cpp lines 214-216: the inner `jj` loop of the
trailing update, one `Rgemv` per column of the diagonal block. -/
def upperUpdInner (n lda ldw kf kwf j : ℤ) (wf : Buf F) (jb : ℕ) (Ab : Buf F) :
    Buf F :=
  (List.range jb).foldl
    (fun b (t : ℕ) =>
      let jj := j + (t : ℤ)
      Rgemv (jj - j + 1) (n - kf) (-1) b ((j - 1) + kf * lda) lda wf
        ((jj - 1) + kwf * ldw) ldw 1 b ((j - 1) + (jj - 1) * lda) 1)
    Ab

/-- Upper mode, Rlasyf.cpp lines 211-219: the panel loop updating
`A11 := A11 - U12·Wᵗ` in chunks of `nb` columns, `j` decreasing by `nb`.
Fuel-indexed; for `nb ≤ 0` the C loop does not terminate (`j = j - nb`
never decreases), which the model renders as fuel exhaustion. -/
def upperUpdLoop (n nb lda ldw kf kwf : ℤ) (wf : Buf F) :
    ℕ → ℤ → Buf F → Buf F
  | 0, _, Ab => Ab
  | fuel + 1, j, Ab =>
    if j ≥ 1 then
      let jb := min nb (kf - j + 1)
      let A1 := upperUpdInner n lda ldw kf kwf j wf jb.toNat Ab
      let A2 := Rgemm (j - 1) jb (n - kf) (-1) A1 (kf * lda) lda wf
        ((j - 1) + kwf * ldw) ldw 1 A1 ((j - 1) * lda) lda
      upperUpdLoop n nb lda ldw kf kwf wf fuel (j - nb) A2
    else Ab

/-- Upper mode, Rlasyf.cpp lines 222-236: put `U12` in standard form by
partially undoing the interchanges in columns `k+1 : n`. -/
def upperUndoLoop (n lda : ℤ) (piv : Buf ℤ) : ℕ → ℤ → Buf F → Buf F
  | 0, _, Ab => Ab
  | fuel + 1, j, Ab =>
    let jj := j
    let jp0 := piv.get (j - 1)
    let jp : ℤ := if jp0 < 0 then -jp0 else jp0
    let j2 : ℤ := if jp0 < 0 then j + 2 else j + 1
    let A2 := if jp ≠ jj ∧ j2 ≤ n then
        Rswap (n - j2 + 1) Ab ((jp - 1) + (j2 - 1) * lda) lda
          ((jj - 1) + (j2 - 1) * lda) lda
      else Ab
    if j2 > n then A2 else upperUndoLoop n lda piv fuel j2 A2

/-- The fuel supplied to each of `Rlasyf`'s fuel-indexed loops: every
terminating execution of the C code finishes within this many iterations. -/
def lasyfFuel (n : ℤ) : ℕ := n.toNat + 2

/-- `Rlasyf`, upper (backward) mode: main loop from `k = n`, then the
trailing-panel update, then the partial un-interchange, then
`kb = n - k` (Rlasyf.cpp lines 83-238). -/
def RlasyfUpper (alpha : F) (n nb lda ldw : ℤ) (A : Buf F) (ipiv : Buf ℤ)
    (w : Buf F) : LasyfResult F :=
  let r := upperLoop alpha n nb lda ldw (lasyfFuel n) n ⟨A, w, ipiv, 0⟩
  let s := r.1
  let kf := r.2
  let kwf := nb + kf - n
  let j0 := Int.tdiv (kf - 1) nb * nb + 1
  let A1 := upperUpdLoop n nb lda ldw kf kwf s.w (lasyfFuel n) j0 s.A
  let A2 := upperUndoLoop n lda s.ipiv (lasyfFuel n) (kf + 1) A1
  ⟨A2, s.w, s.ipiv, n - kf, s.info⟩

/-- Lower mode, Rlasyf.cpp lines 250-251: copy column `k` of `A` (from the
diagonal down) into column `k` of `w` and update it against the
already-staged factor columns. -/
def lowerStageW (n lda ldw k : ℤ) (A w : Buf F) : Buf F :=
  let w1 := Rcopy (n - k + 1) A ((k - 1) + (k - 1) * lda) 1 w ((k - 1) + (k - 1) * ldw) 1
  Rgemv (n - k + 1) (k - 1) (-1) A (k - 1) lda w1 (k - 1) ldw 1
    w1 ((k - 1) + (k - 1) * ldw) 1

/-- Lower mode, Rlasyf.cpp line 255: `absakk`. -/
def lowerAbsakk (ldw k : ℤ) (w2 : Buf F) : F :=
  |w2.get ((k - 1) + (k - 1) * ldw)|

/-- Lower mode, Rlasyf.cpp lines 258-263: `imax` (0 when `k = n`, matching
the C initialisation). -/
def lowerImax (n ldw k : ℤ) (w2 : Buf F) : ℤ :=
  if k < n then k + iRamax (n - k) w2 (k + (k - 1) * ldw) 1 else 0

/-- Lower mode, Rlasyf.cpp lines 258-263: `colmax` (0 when `k = n`). -/
def lowerColmax (n ldw k : ℤ) (w2 : Buf F) : F :=
  if k < n then |w2.get ((lowerImax n ldw k w2 - 1) + (k - 1) * ldw)| else 0

/-- Lower mode, Rlasyf.cpp lines 276-278: copy column `imax` of `A` (split
as the row segment left of the diagonal plus the lower part of column
`imax`) into column `k+1` of `w` and update it. -/
def lowerStageImaxW (n lda ldw k imax : ℤ) (A w2 : Buf F) : Buf F :=
  let wa := Rcopy (imax - k) A ((imax - 1) + (k - 1) * lda) lda w2 ((k - 1) + k * ldw) 1
  let wb := Rcopy (n - imax + 1) A ((imax - 1) + (imax - 1) * lda) 1 wa ((imax - 1) + k * ldw) 1
  Rgemv (n - k + 1) (k - 1) (-1) A (k - 1) lda wb (imax - 1) ldw 1
    wb ((k - 1) + k * ldw) 1

/-- Lower mode, Rlasyf.cpp lines 281-287: `rowmax`. -/
def lowerRowmax (n ldw k imax : ℤ) (wc : Buf F) : F :=
  let jmax1 := k - 1 + iRamax (imax - k) wc ((k - 1) + k * ldw) 1
  let r1 := |wc.get ((jmax1 - 1) + k * ldw)|
  if imax < n then
    let jmax2 := imax + iRamax (n - imax) wc (imax + k * ldw) 1
    max r1 |wc.get ((jmax2 - 1) + k * ldw)|
  else r1

/-- Lower mode, Rlasyf.cpp lines 271-302: the Bunch-Kaufman pivot decision
for a nonzero staged column.  Returns `(kp, kstep, w')`. -/
def lowerPivot (alpha : F) (n lda ldw k : ℤ) (A w2 : Buf F) : ℤ × ℤ × Buf F :=
  let absakk := lowerAbsakk ldw k w2
  let imax := lowerImax n ldw k w2
  let colmax := lowerColmax n ldw k w2
  if absakk ≥ alpha * colmax then (k, 1, w2)
  else
    let wc := lowerStageImaxW n lda ldw k imax A w2
    let rowmax := lowerRowmax n ldw k imax wc
    if absakk ≥ alpha * colmax * (colmax / rowmax) then (k, 1, wc)
    else if |wc.get ((imax - 1) + k * ldw)| ≥ alpha * rowmax then
      (imax, 1, Rcopy (n - k + 1) wc ((k - 1) + k * ldw) 1 wc ((k - 1) + (k - 1) * ldw) 1)
    else (imax, 2, wc)

/-- Lower mode, Rlasyf.cpp lines 304-314: when `kp ≠ kk`, copy the
non-updated column `kk` to column/row `kp` and interchange rows `kk` and
`kp` in the first `kk` columns of `A` and `w`. -/
def lowerInterchange (n lda ldw k kp kstep : ℤ) (A w3 : Buf F) :
    Buf F × Buf F :=
  let kk := k + kstep - 1
  if kp ≠ kk then
    let A1 := store A ((kp - 1) + (k - 1) * lda) (A.get ((kk - 1) + (k - 1) * lda))
    let A2 := Rcopy (kp - k - 1) A1 (k + (kk - 1) * lda) 1 A1 ((kp - 1) + k * lda) lda
    let A3 := Rcopy (n - kp + 1) A2 ((kp - 1) + (kk - 1) * lda) 1 A2 ((kp - 1) + (kp - 1) * lda) 1
    let A4 := Rswap kk A3 (kk - 1) lda (kp - 1) lda
    let w4 := Rswap kk w3 (kk - 1) ldw (kp - 1) ldw
    (A4, w4)
  else (A, w3)

/-- Lower mode, Rlasyf.cpp lines 315-346: commit the staged column(s) into
`A`. -/
def lowerCommit (n lda ldw k kstep : ℤ) (Ab w4 : Buf F) : Buf F :=
  if kstep = 1 then
    let A5 := Rcopy (n - k + 1) w4 ((k - 1) + (k - 1) * ldw) 1 Ab ((k - 1) + (k - 1) * lda) 1
    if k < n then
      let r1 := 1 / A5.get ((k - 1) + (k - 1) * lda)
      Rscal (n - k) r1 A5 (k + (k - 1) * lda) 1
    else A5
  else
    let A5 :=
      if k < n - 1 then
        let D12 := w4.get (k + (k - 1) * ldw)
        let D22 := w4.get (k + k * ldw)
        let D11 := w4.get ((k - 1) + (k - 1) * ldw)
        (List.range (n - k - 1).toNat).foldl
          (fun b (t : ℕ) =>
            let j1 := k + 1 + (t : ℤ)
            let pr := lasyf2x2Solve D11 D12 D22
              (w4.get (j1 + (k - 1) * ldw)) (w4.get (j1 + k * ldw))
            store (store b (j1 + (k - 1) * lda) pr.1) (j1 + k * lda) pr.2)
          Ab
      else Ab
    let A6 := store A5 ((k - 1) + (k - 1) * lda) (w4.get ((k - 1) + (k - 1) * ldw))
    let A7 := store A6 (k + (k - 1) * lda) (w4.get (k + (k - 1) * ldw))
    store A7 (k + k * lda) (w4.get (k + k * ldw))

/-- Lower mode, one iteration of the main loop (Rlasyf.cpp lines 245-357). -/
def lowerIter (alpha : F) (n lda ldw k : ℤ) (s : LasyfState F) :
    LasyfState F × ℤ :=
  let w2 := lowerStageW n lda ldw k s.A s.w
  if max (lowerAbsakk ldw k w2) (lowerColmax n ldw k w2) = 0 then
    (⟨s.A, w2, store s.ipiv (k - 1) k, if s.info = 0 then k else s.info⟩, 1)
  else
    let p := lowerPivot alpha n lda ldw k s.A w2
    let kp := p.1
    let kstep := p.2.1
    let aw := lowerInterchange n lda ldw k kp kstep s.A p.2.2
    let A6 := lowerCommit n lda ldw k kstep aw.1 aw.2
    let ipiv2 := if kstep = 1 then store s.ipiv (k - 1) kp
      else store (store s.ipiv (k - 1) (-kp)) k (-kp)
    (⟨A6, aw.2, ipiv2, s.info⟩, kstep)

/-- Lower mode: the main `while` loop (Rlasyf.cpp lines 245-357), running
the frontier `k` up until `(k ≥ nb ∧ nb < n) ∨ k > n`. -/
def lowerLoop (alpha : F) (n nb lda ldw : ℤ) :
    ℕ → ℤ → LasyfState F → LasyfState F × ℤ
  | 0, k, s => (s, k)
  | fuel + 1, k, s =>
    if (k ≥ nb ∧ nb < n) ∨ k > n then (s, k)
    else
      let r := lowerIter alpha n lda ldw k s
      lowerLoop alpha n nb lda ldw fuel (k + r.2) r.1

/-- Lower mode: the per-iteration event trace of the main loop, mirroring
`upperTrace`. -/
def lowerTrace (alpha : F) (n nb lda ldw : ℤ) :
    ℕ → ℤ → LasyfState F → List (ℤ × ℤ × ℤ × Bool)
  | 0, _, _ => []
  | fuel + 1, k, s =>
    if (k ≥ nb ∧ nb < n) ∨ k > n then []
    else
      let w2 := lowerStageW n lda ldw k s.A s.w
      let sing : Bool :=
        if max (lowerAbsakk ldw k w2) (lowerColmax n ldw k w2) = 0
        then true else false
      let kp : ℤ :=
        if sing then k else (lowerPivot alpha n lda ldw k s.A w2).1
      let r := lowerIter alpha n lda ldw k s
      (k, r.2, kp, sing) :: lowerTrace alpha n nb lda ldw fuel (k + r.2) r.1

/-- Lower mode, Rlasyf.cpp lines 364-366: the inner `jj` loop of the
trailing update. -/
def lowerUpdInner (lda ldw kf j jb : ℤ) (wf : Buf F) (m : ℕ) (Ab : Buf F) :
    Buf F :=
  (List.range m).foldl
    (fun b (t : ℕ) =>
      let jj := j + (t : ℤ)
      Rgemv (j + jb - jj) (kf - 1) (-1) b (jj - 1) lda wf (jj - 1) ldw 1
        b ((jj - 1) + (jj - 1) * lda) 1)
    Ab

/-- Lower mode, Rlasyf.cpp lines 361-371: the panel loop updating
`A22 := A22 - L21·Wᵗ` in chunks of `nb` columns, `j` increasing by `nb`.
Fuel-indexed; for `nb ≤ 0` the C loop does not terminate. -/
def lowerUpdLoop (n nb lda ldw kf : ℤ) (wf : Buf F) : ℕ → ℤ → Buf F → Buf F
  | 0, _, Ab => Ab
  | fuel + 1, j, Ab =>
    if j ≤ n then
      let jb := min nb (n - j + 1)
      let A1 := lowerUpdInner lda ldw kf j jb wf jb.toNat Ab
      let A2 := if j + jb ≤ n then
          Rgemm (n - j - jb + 1) jb (kf - 1) (-1) A1 (j + jb - 1) lda wf
            (j - 1) ldw 1 A1 ((j + jb - 1) + (j - 1) * lda) lda
        else A1
      lowerUpdLoop n nb lda ldw kf wf fuel (j + nb) A2
    else Ab

/-- Lower mode, Rlasyf.cpp lines 374-388: put `L21` in standard form by
partially undoing the interchanges in columns `1 : k-1`. -/
def lowerUndoLoop (lda : ℤ) (piv : Buf ℤ) : ℕ → ℤ → Buf F → Buf F
  | 0, _, Ab => Ab
  | fuel + 1, j, Ab =>
    let jj := j
    let jp0 := piv.get (j - 1)
    let jp : ℤ := if jp0 < 0 then -jp0 else jp0
    let j2 : ℤ := if jp0 < 0 then j - 2 else j - 1
    let A2 := if jp ≠ jj ∧ j2 ≥ 1 then
        Rswap j2 Ab (jp - 1) lda (jj - 1) lda
      else Ab
    if j2 < 1 then A2 else lowerUndoLoop lda piv fuel j2 A2

/-- `Rlasyf`, lower (forward) mode: main loop from `k = 1`, then the
trailing-panel update, then the partial un-interchange, then
`kb = k - 1` (Rlasyf.cpp lines 239-391). -/
def RlasyfLower (alpha : F) (n nb lda ldw : ℤ) (A : Buf F) (ipiv : Buf ℤ)
    (w : Buf F) : LasyfResult F :=
  let r := lowerLoop alpha n nb lda ldw (lasyfFuel n) 1 ⟨A, w, ipiv, 0⟩
  let s := r.1
  let kf := r.2
  let A1 := lowerUpdLoop n nb lda ldw kf s.w (lasyfFuel n) kf s.A
  let A2 := lowerUndoLoop lda s.ipiv (lasyfFuel n) (kf - 1) A1
  ⟨A2, s.w, s.ipiv, kf - 1, s.info⟩

/-- `Rlasyf` (Rlasyf.cpp line 71): `uplo = true` selects the upper
(backward) traversal, `uplo = false` the lower (forward) one; `info` starts
at 0 (line 80).  `alpha` stands for the constant `(1 + sqrt 17)/8` the C
code computes at entry (line 82). -/
def Rlasyf (alpha : F) (uplo : Bool) (n nb : ℤ) (A : Buf F) (lda : ℤ)
    (ipiv : Buf ℤ) (w : Buf F) (ldw : ℤ) : LasyfResult F :=
  if uplo then RlasyfUpper alpha n nb lda ldw A ipiv w
  else RlasyfLower alpha n nb lda ldw A ipiv w

/-- Following the spec's words, for the refinement comparison of the 2×2
commit: the committed factor entries obtained "by directly multiplying the
two staged workspace columns by the inverse of the 2×2 pivot block D":
for the symmetric block `D = [[D11, D12], [D12, D22]]`, the row vector
`(w1, w2) · D⁻¹` computed with the explicit inverse
`D⁻¹ = (1/det) · [[D22, -D12], [-D12, D11]]`, `det = D11·D22 - D12²`. -/
def spec2x2InverseApply (D11 D12 D22 w1 w2 : F) : F × F :=
  let det := D11 * D22 - D12 * D12
  ((w1 * D22 - w2 * D12) / det, (w2 * D11 - w1 * D12) / det)

/-! ### Concrete example data used by witnesses -/

/-- The all-zero rational buffer. -/
def zeroBufQ : Buf ℚ := ⟨fun _ => 0⟩

/-- The all-zero pivot buffer. -/
def zeroPivQ : Buf ℤ := ⟨fun _ => 0⟩

/-- The 2×2 matrix `[[0, 1], [1, 0]]` in column-major order with `lda = 2`. -/
def exSwapQ : Buf ℚ := ⟨fun i => if i = 1 ∨ i = 2 then 1 else 0⟩

/-- The 4×4 matrix `diag(5, 5, 5, 5)` in column-major order with `lda = 4`. -/
def diag5Q : Buf ℚ := ⟨fun i => if i = 0 ∨ i = 5 ∨ i = 10 ∨ i = 15 then 5 else 0⟩

/-- An all-zero starting state. -/
def stZeroQ : LasyfState ℚ := ⟨zeroBufQ, zeroBufQ, zeroPivQ, 0⟩

/-- A starting state holding `exSwapQ`. -/
def stSwapQ : LasyfState ℚ := ⟨exSwapQ, zeroBufQ, zeroPivQ, 0⟩

/-- Lower mode, `n = 2`, `k = 1`: the staged frontier column of `exSwapQ`. -/
def v2ExQ : Buf ℚ := lowerStageW 2 2 2 1 exSwapQ zeroBufQ

/-- Lower mode, `n = 2`, `k = 1`, `imax = 2`: the staged `imax` column. -/
def wcLExQ : Buf ℚ := lowerStageImaxW 2 2 2 1 2 exSwapQ v2ExQ

/-- Upper mode, `n = 2`, `k = 2`: the staged frontier column of `exSwapQ`. -/
def w2ExQ : Buf ℚ := upperStageW 2 2 2 2 2 exSwapQ zeroBufQ

/-- Upper mode, `n = 2`, `k = 2`, `imax = 1`: the staged `imax` column. -/
def wcUExQ : Buf ℚ := upperStageImaxW 2 2 2 2 2 1 exSwapQ w2ExQ


variable (F) in
/-- The 4×4 matrix `diag(5, 5, 5, 5)` of the C7 scenario, column-major with
`lda = 4`, over any linear ordered field. -/
def diag5B : Buf F := ⟨fun i => if i = 0 ∨ i = 5 ∨ i = 10 ∨ i = 15 then 5 else 0⟩

variable (F) in
/-- The all-zero buffer over `F`. -/
def zeroBF : Buf F := ⟨fun _ => 0⟩

/-- The all-zero pivot buffer (integer-valued). -/
def zeroP : Buf ℤ := ⟨fun _ => 0⟩

variable (F) in
/-- C7 scenario, iteration `k = 1`: the staged workspace. -/
def c7W1 : Buf F := lowerStageW 4 4 4 1 (diag5B F) (zeroBF F)

variable (F) in
/-- C7 scenario, iteration `k = 1`: the matrix after the commit. -/
def c7A1 : Buf F := lowerCommit 4 4 4 1 1 (diag5B F) (c7W1 F)

variable (F) in
/-- C7 scenario, iteration `k = 2`: the staged workspace. -/
def c7W2 : Buf F := lowerStageW 4 4 4 2 (c7A1 F) (c7W1 F)

variable (F) in
/-- C7 scenario, iteration `k = 2`: the matrix after the commit. -/
def c7A2 : Buf F := lowerCommit 4 4 4 2 1 (c7A1 F) (c7W2 F)

variable (F) in
/-- C7 scenario, iteration `k = 3`: the staged workspace. -/
def c7W3 : Buf F := lowerStageW 4 4 4 3 (c7A2 F) (c7W2 F)

variable (F) in
/-- C7 scenario, iteration `k = 3`: the matrix after the commit. -/
def c7A3 : Buf F := lowerCommit 4 4 4 3 1 (c7A2 F) (c7W3 F)

variable (F) in
/-- C7 scenario, iteration `k = 4`: the staged workspace. -/
def c7W4 : Buf F := lowerStageW 4 4 4 4 (c7A3 F) (c7W3 F)

variable (F) in
/-- C7 scenario, iteration `k = 4`: the matrix after the commit. -/
def c7A4 : Buf F := lowerCommit 4 4 4 4 1 (c7A3 F) (c7W4 F)

/-- C7 scenario: the final pivot buffer, `ipiv = [1, 2, 3, 4]`. -/
def c7P : Buf ℤ := store (store (store (store zeroP 0 1) 1 2) 2 3) 3 4

/-- Following the spec's words, for the `info` characterization: the frontier
index of the first trace event flagged singular (an exactly-zero staged
column), or 0 when there is none. -/
def firstSingular (tr : List (ℤ × ℤ × ℤ × Bool)) : ℤ :=
  ((tr.filter (fun e => e.2.2.2)).head?.map (fun e => e.1)).getD 0

/-! ## Theorems -/

@[simp] theorem store_get {α : Type} (b : Buf α) (i : ℤ) (v : α) (j : ℤ) :
    (store b i v).get j = if j = i then v else b.get j := rfl

/-- A fold over write steps leaves index `i` unchanged when no step of the
fold changes it. -/
theorem foldl_get_of_not_written {α : Type} (f : Buf α → ℕ → Buf α) (i : ℤ) :
    ∀ (l : List ℕ) (y : Buf α), (∀ b t, t ∈ l → (f b t).get i = b.get i) →
      (l.foldl f y).get i = y.get i
  | [], _, _ => rfl
  | a :: l, y, h => by
    rw [List.foldl_cons,
      foldl_get_of_not_written f i l (f y a)
        (fun b t ht => h b t (List.mem_cons_of_mem a ht)),
      h y a (List.mem_cons_self a l)]

/-- A fold preserves an invariant preserved by every step. -/
theorem foldl_invariant {α β : Type} (f : α → β → α) (P : α → Prop) :
    ∀ (l : List β) (a : α), P a → (∀ acc b, b ∈ l → P acc → P (f acc b)) →
      P (l.foldl f a)
  | [], _, ha, _ => ha
  | x :: l, a, ha, h =>
    foldl_invariant f P l (f a x) (h a x (List.mem_cons_self x l) ha)
      (fun acc b hb hacc => h acc b (List.mem_cons_of_mem x hb) hacc)

/-- `Rcopy` does not change indices outside its destination view. -/
theorem Rcopy_get_ne (n : ℤ) (x : Buf F) (xoff incx : ℤ) (y : Buf F)
    (yoff incy i : ℤ) (h : ∀ t : ℤ, 0 ≤ t → t < n → i ≠ yoff + t * incy) :
    (Rcopy n x xoff incx y yoff incy).get i = y.get i := by
  refine foldl_get_of_not_written _ i _ y ?_
  intro b t ht
  have h1 : (t : ℤ) < n := by have := List.mem_range.mp ht; omega
  simp [store, h (t : ℤ) (by omega) h1]

/-- `Rswap` does not change indices outside its two views. -/
theorem Rswap_get_ne (n : ℤ) (b : Buf F) (off1 inc1 off2 inc2 i : ℤ)
    (h : ∀ t : ℤ, 0 ≤ t → t < n → i ≠ off1 + t * inc1 ∧ i ≠ off2 + t * inc2) :
    (Rswap n b off1 inc1 off2 inc2).get i = b.get i := by
  refine foldl_get_of_not_written _ i _ b ?_
  intro c t ht
  have h1 : (t : ℤ) < n := by have := List.mem_range.mp ht; omega
  have h2 := h (t : ℤ) (by omega) h1
  simp [store, h2.1, h2.2]

/-- `Rscal` does not change indices outside its view. -/
theorem Rscal_get_ne (n : ℤ) (a : F) (b : Buf F) (off inc i : ℤ)
    (h : ∀ t : ℤ, 0 ≤ t → t < n → i ≠ off + t * inc) :
    (Rscal n a b off inc).get i = b.get i := by
  refine foldl_get_of_not_written _ i _ b ?_
  intro c t ht
  have h1 : (t : ℤ) < n := by have := List.mem_range.mp ht; omega
  simp [store, h (t : ℤ) (by omega) h1]

/-- `Rgemv` does not change indices outside its destination vector view. -/
theorem Rgemv_get_ne (m n : ℤ) (alpha : F) (A : Buf F) (aoff lda : ℤ)
    (x : Buf F) (xoff incx : ℤ) (beta : F) (y : Buf F) (yoff incy i : ℤ)
    (h : ∀ t : ℤ, 0 ≤ t → t < m → i ≠ yoff + t * incy) :
    (Rgemv m n alpha A aoff lda x xoff incx beta y yoff incy).get i = y.get i := by
  refine foldl_get_of_not_written _ i _ y ?_
  intro b t ht
  have h1 : (t : ℤ) < m := by have := List.mem_range.mp ht; omega
  simp [store, h (t : ℤ) (by omega) h1]

/-- `Rgemm` does not change indices outside its destination rectangle. -/
theorem Rgemm_get_ne (m ncol kk : ℤ) (alpha : F) (A : Buf F) (aoff lda : ℤ)
    (B : Buf F) (boff ldb : ℤ) (beta : F) (C : Buf F) (coff ldc i : ℤ)
    (h : ∀ r c : ℤ, 0 ≤ r → r < m → 0 ≤ c → c < ncol → i ≠ coff + r + c * ldc) :
    (Rgemm m ncol kk alpha A aoff lda B boff ldb beta C coff ldc).get i = C.get i := by
  refine foldl_get_of_not_written _ i _ C ?_
  intro Cb jc hjc
  have h1 : (jc : ℤ) < ncol := by have := List.mem_range.mp hjc; omega
  refine foldl_get_of_not_written _ i _ Cb ?_
  intro Cb2 r hr
  have h2 : (r : ℤ) < m := by have := List.mem_range.mp hr; omega
  simp [store, h (r : ℤ) (jc : ℤ) (by omega) h2 (by omega) h1]

/-- `iRamax` returns a 1-based index within range when `n ≥ 1`. -/
theorem iRamax_bounds (n : ℤ) (x : Buf F) (off inc : ℤ) (h : 1 ≤ n) :
    1 ≤ iRamax n x off inc ∧ iRamax n x off inc ≤ n := by
  unfold iRamax
  rw [if_neg (by omega)]
  refine foldl_invariant
    (fun (acc : ℤ × F) (t : ℕ) =>
      if |x.get (off + ((t : ℤ) + 1) * inc)| > acc.2 then
        (((t : ℤ) + 2), |x.get (off + ((t : ℤ) + 1) * inc)|)
      else acc)
    (fun acc => 1 ≤ acc.1 ∧ acc.1 ≤ n) _ _ (by constructor <;> omega) ?_
  intro acc t ht hacc
  have h1 : (t : ℤ) < n - 1 := by have := List.mem_range.mp ht; omega
  by_cases hc : |x.get (off + ((t : ℤ) + 1) * inc)| > acc.2
  · simp only [if_pos hc]
    constructor <;> [omega; omega]
  · simpa only [if_neg hc] using hacc

@[simp] theorem Buf_get_mk {α : Type} (f : ℤ → α) (i : ℤ) :
    (Buf.mk f).get i = f i := rfl

/-! Small evaluation lemmas used to run the embedding on concrete inputs
inside `simp`/`norm_num` proofs. -/

theorem range_zero : List.range 0 = [] := rfl

theorem range_one : List.range 1 = [0] := rfl

theorem range_two : List.range 2 = [0, 1] := rfl

theorem range_three : List.range 3 = [0, 1, 2] := rfl

theorem range_four : List.range 4 = [0, 1, 2, 3] := rfl

theorem toNat_zero : Int.toNat 0 = 0 := rfl

theorem toNat_one : Int.toNat 1 = 1 := rfl

theorem toNat_two : Int.toNat 2 = 2 := rfl

theorem toNat_three : Int.toNat 3 = 3 := rfl

theorem toNat_four : Int.toNat 4 = 4 := rfl

theorem fst_pair {α β : Type} (a : α) (b : β) : (a, b).1 = a := rfl

theorem snd_pair {α β : Type} (a : α) (b : β) : (a, b).2 = b := rfl

/-! Unfolding equations for the fuel-indexed loops. -/

theorem upperLoop_zero (alpha : F) (n nb lda ldw k : ℤ) (s : LasyfState F) :
    upperLoop alpha n nb lda ldw 0 k s = (s, k) := rfl

theorem upperLoop_succ (alpha : F) (n nb lda ldw : ℤ) (fuel : ℕ) (k : ℤ)
    (s : LasyfState F) :
    upperLoop alpha n nb lda ldw (fuel + 1) k s =
      if (k ≤ n - nb + 1 ∧ nb < n) ∨ k < 1 then (s, k)
      else upperLoop alpha n nb lda ldw fuel
        (k - (upperIter alpha n nb lda ldw k s).2)
        (upperIter alpha n nb lda ldw k s).1 := rfl

theorem lowerLoop_zero (alpha : F) (n nb lda ldw k : ℤ) (s : LasyfState F) :
    lowerLoop alpha n nb lda ldw 0 k s = (s, k) := rfl

theorem lowerLoop_succ (alpha : F) (n nb lda ldw : ℤ) (fuel : ℕ) (k : ℤ)
    (s : LasyfState F) :
    lowerLoop alpha n nb lda ldw (fuel + 1) k s =
      if (k ≥ nb ∧ nb < n) ∨ k > n then (s, k)
      else lowerLoop alpha n nb lda ldw fuel
        (k + (lowerIter alpha n lda ldw k s).2)
        (lowerIter alpha n lda ldw k s).1 := rfl

theorem upperTrace_zero (alpha : F) (n nb lda ldw k : ℤ) (s : LasyfState F) :
    upperTrace alpha n nb lda ldw 0 k s = [] := rfl

theorem upperTrace_succ (alpha : F) (n nb lda ldw : ℤ) (fuel : ℕ) (k : ℤ)
    (s : LasyfState F) :
    upperTrace alpha n nb lda ldw (fuel + 1) k s =
      if (k ≤ n - nb + 1 ∧ nb < n) ∨ k < 1 then []
      else
        (k, (upperIter alpha n nb lda ldw k s).2,
          if (if max (upperAbsakk n nb ldw k (upperStageW n nb lda ldw k s.A s.w))
                (upperColmax n nb ldw k (upperStageW n nb lda ldw k s.A s.w)) = 0
              then true else false) = true
          then k
          else (upperPivot alpha n nb lda ldw k s.A
            (upperStageW n nb lda ldw k s.A s.w)).1,
          if max (upperAbsakk n nb ldw k (upperStageW n nb lda ldw k s.A s.w))
              (upperColmax n nb ldw k (upperStageW n nb lda ldw k s.A s.w)) = 0
          then true else false) ::
        upperTrace alpha n nb lda ldw fuel
          (k - (upperIter alpha n nb lda ldw k s).2)
          (upperIter alpha n nb lda ldw k s).1 := rfl

theorem lowerTrace_zero (alpha : F) (n nb lda ldw k : ℤ) (s : LasyfState F) :
    lowerTrace alpha n nb lda ldw 0 k s = [] := rfl

theorem lowerTrace_succ (alpha : F) (n nb lda ldw : ℤ) (fuel : ℕ) (k : ℤ)
    (s : LasyfState F) :
    lowerTrace alpha n nb lda ldw (fuel + 1) k s =
      if (k ≥ nb ∧ nb < n) ∨ k > n then []
      else
        (k, (lowerIter alpha n lda ldw k s).2,
          if (if max (lowerAbsakk ldw k (lowerStageW n lda ldw k s.A s.w))
                (lowerColmax n ldw k (lowerStageW n lda ldw k s.A s.w)) = 0
              then true else false) = true
          then k
          else (lowerPivot alpha n lda ldw k s.A
            (lowerStageW n lda ldw k s.A s.w)).1,
          if max (lowerAbsakk ldw k (lowerStageW n lda ldw k s.A s.w))
              (lowerColmax n ldw k (lowerStageW n lda ldw k s.A s.w)) = 0
          then true else false) ::
        lowerTrace alpha n nb lda ldw fuel
          (k + (lowerIter alpha n lda ldw k s).2)
          (lowerIter alpha n lda ldw k s).1 := rfl

theorem upperUpdLoop_zero (n nb lda ldw kf kwf : ℤ) (wf : Buf F) (j : ℤ)
    (Ab : Buf F) : upperUpdLoop n nb lda ldw kf kwf wf 0 j Ab = Ab := rfl

theorem upperUpdLoop_succ (n nb lda ldw kf kwf : ℤ) (wf : Buf F) (fuel : ℕ)
    (j : ℤ) (Ab : Buf F) :
    upperUpdLoop n nb lda ldw kf kwf wf (fuel + 1) j Ab =
      if j ≥ 1 then
        upperUpdLoop n nb lda ldw kf kwf wf fuel (j - nb)
          (Rgemm (j - 1) (min nb (kf - j + 1)) (n - kf) (-1)
            (upperUpdInner n lda ldw kf kwf j wf (min nb (kf - j + 1)).toNat Ab)
            (kf * lda) lda wf ((j - 1) + kwf * ldw) ldw 1
            (upperUpdInner n lda ldw kf kwf j wf (min nb (kf - j + 1)).toNat Ab)
            ((j - 1) * lda) lda)
      else Ab := rfl

theorem lowerUpdLoop_zero (n nb lda ldw kf : ℤ) (wf : Buf F) (j : ℤ)
    (Ab : Buf F) : lowerUpdLoop n nb lda ldw kf wf 0 j Ab = Ab := rfl

theorem lowerUpdLoop_succ (n nb lda ldw kf : ℤ) (wf : Buf F) (fuel : ℕ)
    (j : ℤ) (Ab : Buf F) :
    lowerUpdLoop n nb lda ldw kf wf (fuel + 1) j Ab =
      if j ≤ n then
        lowerUpdLoop n nb lda ldw kf wf fuel (j + nb)
          (if j + min nb (n - j + 1) ≤ n then
            Rgemm (n - j - min nb (n - j + 1) + 1) (min nb (n - j + 1)) (kf - 1)
              (-1)
              (lowerUpdInner lda ldw kf j (min nb (n - j + 1)) wf
                (min nb (n - j + 1)).toNat Ab)
              (j + min nb (n - j + 1) - 1) lda wf (j - 1) ldw 1
              (lowerUpdInner lda ldw kf j (min nb (n - j + 1)) wf
                (min nb (n - j + 1)).toNat Ab)
              ((j + min nb (n - j + 1) - 1) + (j - 1) * lda) lda
          else
            lowerUpdInner lda ldw kf j (min nb (n - j + 1)) wf
              (min nb (n - j + 1)).toNat Ab)
      else Ab := rfl

theorem upperUndoLoop_zero (n lda : ℤ) (piv : Buf ℤ) (j : ℤ) (Ab : Buf F) :
    upperUndoLoop n lda piv 0 j Ab = Ab := rfl

theorem upperUndoLoop_succ (n lda : ℤ) (piv : Buf ℤ) (fuel : ℕ) (j : ℤ)
    (Ab : Buf F) :
    upperUndoLoop n lda piv (fuel + 1) j Ab =
      (if (if piv.get (j - 1) < 0 then j + 2 else j + 1) > n then
        (if (if piv.get (j - 1) < 0 then -piv.get (j - 1) else piv.get (j - 1)) ≠ j ∧
            (if piv.get (j - 1) < 0 then j + 2 else j + 1) ≤ n then
          Rswap (n - (if piv.get (j - 1) < 0 then j + 2 else j + 1) + 1) Ab
            (((if piv.get (j - 1) < 0 then -piv.get (j - 1) else piv.get (j - 1)) - 1) +
              ((if piv.get (j - 1) < 0 then j + 2 else j + 1) - 1) * lda) lda
            ((j - 1) + ((if piv.get (j - 1) < 0 then j + 2 else j + 1) - 1) * lda) lda
        else Ab)
      else upperUndoLoop n lda piv fuel (if piv.get (j - 1) < 0 then j + 2 else j + 1)
        (if (if piv.get (j - 1) < 0 then -piv.get (j - 1) else piv.get (j - 1)) ≠ j ∧
            (if piv.get (j - 1) < 0 then j + 2 else j + 1) ≤ n then
          Rswap (n - (if piv.get (j - 1) < 0 then j + 2 else j + 1) + 1) Ab
            (((if piv.get (j - 1) < 0 then -piv.get (j - 1) else piv.get (j - 1)) - 1) +
              ((if piv.get (j - 1) < 0 then j + 2 else j + 1) - 1) * lda) lda
            ((j - 1) + ((if piv.get (j - 1) < 0 then j + 2 else j + 1) - 1) * lda) lda
        else Ab)) := rfl

theorem lowerUndoLoop_zero (lda : ℤ) (piv : Buf ℤ) (j : ℤ) (Ab : Buf F) :
    lowerUndoLoop lda piv 0 j Ab = Ab := rfl

theorem lowerUndoLoop_succ (lda : ℤ) (piv : Buf ℤ) (fuel : ℕ) (j : ℤ)
    (Ab : Buf F) :
    lowerUndoLoop lda piv (fuel + 1) j Ab =
      (if (if piv.get (j - 1) < 0 then j - 2 else j - 1) < 1 then
        (if (if piv.get (j - 1) < 0 then -piv.get (j - 1) else piv.get (j - 1)) ≠ j ∧
            (if piv.get (j - 1) < 0 then j - 2 else j - 1) ≥ 1 then
          Rswap (if piv.get (j - 1) < 0 then j - 2 else j - 1) Ab
            ((if piv.get (j - 1) < 0 then -piv.get (j - 1) else piv.get (j - 1)) - 1) lda
            (j - 1) lda
        else Ab)
      else lowerUndoLoop lda piv fuel (if piv.get (j - 1) < 0 then j - 2 else j - 1)
        (if (if piv.get (j - 1) < 0 then -piv.get (j - 1) else piv.get (j - 1)) ≠ j ∧
            (if piv.get (j - 1) < 0 then j - 2 else j - 1) ≥ 1 then
          Rswap (if piv.get (j - 1) < 0 then j - 2 else j - 1) Ab
            ((if piv.get (j - 1) < 0 then -piv.get (j - 1) else piv.get (j - 1)) - 1) lda
            (j - 1) lda
        else Ab)) := rfl

/-- The upper un-interchange loop is the identity when every `ipiv` entry it
can read records "no interchange" (`ipiv[x] = x`). -/
theorem upperUndoLoop_id (n lda : ℤ) (piv : Buf ℤ) :
    ∀ (fuel : ℕ) (j : ℤ) (Ab : Buf F), 1 ≤ j →
      (∀ x : ℤ, j ≤ x → x ≤ n → piv.get (x - 1) = x) →
      upperUndoLoop n lda piv fuel j Ab = Ab
  | 0, _, _, _, _ => rfl
  | fuel + 1, j, Ab, hj, h => by
    by_cases hjn : j ≤ n
    · have hpj : piv.get (j - 1) = j := h j le_rfl hjn
      have hneg : ¬ j < 0 := by omega
      rw [upperUndoLoop_succ, hpj]
      simp only [if_neg hneg]
      by_cases hstop : j + 1 > n
      · rw [if_pos hstop, if_neg (by simp)]
      · rw [if_neg hstop, if_neg (by simp)]
        exact upperUndoLoop_id n lda piv fuel (j + 1) Ab (by omega)
          (fun x hx1 hx2 => h x (by omega) hx2)
    · rw [upperUndoLoop_succ]
      by_cases hsgn : piv.get (j - 1) < 0
      · simp only [if_pos hsgn]
        rw [if_pos (by omega), if_neg (fun hc => absurd hc.2 (by omega))]
      · simp only [if_neg hsgn]
        rw [if_pos (by omega), if_neg (fun hc => absurd hc.2 (by omega))]

/-- The lower un-interchange loop is the identity when every `ipiv` entry it
can read records "no interchange" (`ipiv[x] = x`). -/
theorem lowerUndoLoop_id (lda : ℤ) (piv : Buf ℤ) :
    ∀ (fuel : ℕ) (j : ℤ) (Ab : Buf F),
      (∀ x : ℤ, 1 ≤ x → x ≤ j → piv.get (x - 1) = x) →
      lowerUndoLoop lda piv fuel j Ab = Ab
  | 0, _, _, _ => rfl
  | fuel + 1, j, Ab, h => by
    by_cases hj : 1 ≤ j
    · have hpj : piv.get (j - 1) = j := h j hj le_rfl
      have hneg : ¬ j < 0 := by omega
      rw [lowerUndoLoop_succ, hpj]
      simp only [if_neg hneg]
      by_cases hstop : j - 1 < 1
      · rw [if_pos hstop, if_neg (by simp)]
      · rw [if_neg hstop, if_neg (by simp)]
        exact lowerUndoLoop_id lda piv fuel (j - 1) Ab
          (fun x hx1 hx2 => h x hx1 (by omega))
    · rw [lowerUndoLoop_succ]
      by_cases hsgn : piv.get (j - 1) < 0
      · simp only [if_pos hsgn]
        rw [if_pos (by omega), if_neg (fun hc => absurd hc.2 (by omega))]
      · simp only [if_neg hsgn]
        rw [if_pos (by omega), if_neg (fun hc => absurd hc.2 (by omega))]

/-- An iteration whose staged column is exactly zero only stages, records
`ipiv` and possibly `info`, and advances by one (upper mode). -/
theorem upperIter_singular (alpha : F) (n nb lda ldw k : ℤ) (s : LasyfState F)
    (h : max (upperAbsakk n nb ldw k (upperStageW n nb lda ldw k s.A s.w))
        (upperColmax n nb ldw k (upperStageW n nb lda ldw k s.A s.w)) = 0) :
    upperIter alpha n nb lda ldw k s =
      (⟨s.A, upperStageW n nb lda ldw k s.A s.w, store s.ipiv (k - 1) k,
        if s.info = 0 then k else s.info⟩, 1) := by
  simp only [upperIter, if_pos h]

/-- An iteration whose staged column is exactly zero only stages, records
`ipiv` and possibly `info`, and advances by one (lower mode). -/
theorem lowerIter_singular (alpha : F) (n lda ldw k : ℤ) (s : LasyfState F)
    (h : max (lowerAbsakk ldw k (lowerStageW n lda ldw k s.A s.w))
        (lowerColmax n ldw k (lowerStageW n lda ldw k s.A s.w)) = 0) :
    lowerIter alpha n lda ldw k s =
      (⟨s.A, lowerStageW n lda ldw k s.A s.w, store s.ipiv (k - 1) k,
        if s.info = 0 then k else s.info⟩, 1) := by
  simp only [lowerIter, if_pos h]

/-- Peeling the last term off the sequential accumulation of `Rdot`. -/
theorem rdotSum_succ (dx : Buf F) (incx : ℤ) (dy : Buf F) (incy ix iy : ℤ)
    (m : ℕ) :
    rdotSum dx incx dy incy ix iy (m + 1) =
      rdotSum dx incx dy incy ix iy m +
        dx.get (ix + (m : ℤ) * incx) * dy.get (iy + (m : ℤ) * incy) := by
  unfold rdotSum
  rw [List.range_succ, List.foldl_append, List.foldl_cons, List.foldl_nil]

/-- The mixed-stride accumulation of `Rdot(n, x, 1, y, -1)` and the
unit-stride accumulation against the reversed vector produce the same terms
in the same order. -/
theorem rdotSum_reverse (n : ℤ) (dx dy : Buf F) (m : ℕ) :
    rdotSum dx 1 dy (-1) 0 (n - 1) m =
      rdotSum dx 1 ⟨fun i => dy.get (n - 1 - i)⟩ 1 0 0 m := by
  induction m with
  | zero => rfl
  | succ m ih =>
    rw [rdotSum_succ, rdotSum_succ, ih, Buf_get_mk]
    have h1 : n - 1 + (m : ℤ) * (-1) = n - 1 - (0 + (m : ℤ) * 1) := by ring
    rw [h1]

/-- Claim C8: `Dot(n, x, 1, y, -1)` equals `Dot(n, x, 1, reverse(y), 1)`
for every `n`, `x`, `y` — the negative stride walks `y` from its
last-accessed element backward, so the mixed-stride sequential accumulation
sums `x[i]*y[n-1-i]` in the same term order as the reversed-vector
unit-stride evaluation — and `Dot` returns the additive identity for every
`n ≤ 0`. -/
theorem c8_rdot_neg_stride {F : Type} [LinearOrderedField F] :
    (∀ (n : ℤ) (x y : Buf F),
        Rdot n x 1 y (-1) = Rdot n x 1 ⟨fun i => y.get (n - 1 - i)⟩ 1) ∧
    (∀ (n : ℤ) (x : Buf F) (incx : ℤ) (y : Buf F) (incy : ℤ),
        n ≤ 0 → Rdot n x incx y incy = 0) := by
  constructor
  · intro n x y
    by_cases hn : n ≤ 0
    · rw [Rdot, if_pos hn, Rdot, if_pos hn]
    · rw [Rdot, if_neg hn, Rdot, if_neg hn]
      have hx : ¬ ((1 : ℤ) < 0) := by omega
      have hy : ((-1 : ℤ) < 0) := by omega
      have hmix : ¬ ((1 : ℤ) = 1 ∧ (-1 : ℤ) = 1) := by omega
      have huni : ((1 : ℤ) = 1 ∧ (1 : ℤ) = 1) := by omega
      simp only [if_neg hx, if_pos hy, if_neg hmix, if_pos huni]
      have h2 : (-n + 1) * (-1) = n - 1 := by ring
      rw [h2, rdotSum_reverse]
      norm_num
  · intro n x incx y incy h
    rw [Rdot, if_pos h]

/-- Claim C8 witness: the theorem applied at `n = 3` (first part) and at
`n = -2` with strides 1 and 2 (second part, discharging `n ≤ 0` there). -/
theorem c8_rdot_neg_stride_witness :
    (Rdot 3 (⟨fun i => (i : ℚ) + 1⟩ : Buf ℚ) 1 ⟨fun i => 10 * (i : ℚ)⟩ (-1) =
      Rdot 3 ⟨fun i => (i : ℚ) + 1⟩ 1
        ⟨fun i => (⟨fun j => 10 * (j : ℚ)⟩ : Buf ℚ).get (3 - 1 - i)⟩ 1) ∧
    ((-2 : ℤ) ≤ 0 ∧
      Rdot (-2) (⟨fun i => (i : ℚ) + 1⟩ : Buf ℚ) 1 ⟨fun i => 10 * (i : ℚ)⟩ 2 = 0) :=
  ⟨(c8_rdot_neg_stride (F := ℚ)).1 3 ⟨fun i => (i : ℚ) + 1⟩ ⟨fun i => 10 * (i : ℚ)⟩,
    by omega,
    (c8_rdot_neg_stride (F := ℚ)).2 (-2) ⟨fun i => (i : ℚ) + 1⟩ 1
      ⟨fun i => 10 * (i : ℚ)⟩ 2 (by omega)⟩

/-- Claim C5: under exact arithmetic, with the divisors `d21 = D12` and
`d11*d22 - 1` nonzero, the inline 2×2 solve of the commit step produces the
same pair of factor entries as multiplying the row `(w1, w2)` of the two
staged workspace columns by the explicit inverse of the symmetric 2×2 pivot
block `D = [[D11, D12], [D12, D22]]`. -/
theorem c5_2x2_solve_refines_inverse {F : Type} [LinearOrderedField F]
    (D11 D12 D22 w1 w2 : F) (h1 : D12 ≠ 0)
    (h2 : D22 / D12 * (D11 / D12) - 1 ≠ 0) :
    lasyf2x2Solve D11 D12 D22 w1 w2 = spec2x2InverseApply D11 D12 D22 w1 w2 := by
  have hform : D22 / D12 * (D11 / D12) - 1 =
      (D11 * D22 - D12 * D12) / (D12 * D12) := by
    field_simp
    ring
  have hdet : D11 * D22 - D12 * D12 ≠ 0 := by
    intro h0
    rw [hform, h0, zero_div] at h2
    exact h2 rfl
  unfold lasyf2x2Solve spec2x2InverseApply
  rw [Prod.mk.injEq]
  constructor
  · rw [hform, one_div_div]
    field_simp
    ring
  · rw [hform, one_div_div]
    field_simp
    ring

/-- Claim C5 witness: the theorem applied at the concrete pivot block
`D = [[1, 1], [1, 0]]` and staged row `(w1, w2) = (3, 7)` over `ℚ`,
discharging both nonzero-divisor hypotheses there. -/
theorem c5_2x2_solve_refines_inverse_witness :
    ((1 : ℚ) ≠ 0 ∧ (0 : ℚ) / 1 * (1 / 1) - 1 ≠ 0) ∧
    lasyf2x2Solve (1 : ℚ) 1 0 3 7 = spec2x2InverseApply (1 : ℚ) 1 0 3 7 :=
  ⟨⟨by norm_num, by norm_num⟩,
    c5_2x2_solve_refines_inverse (1 : ℚ) 1 0 3 7 (by norm_num) (by norm_num)⟩

/-- Claim C1: for every `Rlasyf` step whose staged column is not exactly
zero, the pivot choice follows the Bunch-Kaufman decision procedure with the
threshold `alpha`: accept a 1×1 pivot at `k` with no interchange when
`absakk ≥ alpha·colmax`; otherwise, after staging column `imax` and
computing `rowmax`, accept a 1×1 pivot at `k` when
`absakk ≥ alpha·colmax·(colmax/rowmax)`; else a 1×1 pivot with interchange
`kp = imax` when the staged `|W(imax, ·)|` entry is `≥ alpha·rowmax`; else a
2×2 pivot with `kp = imax` and `kstep = 2`, consuming two frontier
positions — in both the upper (backward) and lower (forward) directions.
The first conjunct of each half ties the step's consumed `kstep` to the
decision's `kstep`. -/
theorem c1_pivot_cascade {F : Type} [LinearOrderedField F] (alpha : F)
    (n nb lda ldw k imaxU imaxL : ℤ) (A w2 v2 wcU wcL : Buf F)
    (s : LasyfState F)
    (hiu : imaxU = upperImax n nb ldw k w2)
    (hwu : wcU = upperStageImaxW n nb lda ldw k imaxU A w2)
    (hil : imaxL = lowerImax n ldw k v2)
    (hwl : wcL = lowerStageImaxW n lda ldw k imaxL A v2) :
    ((¬ max (upperAbsakk n nb ldw k (upperStageW n nb lda ldw k s.A s.w))
          (upperColmax n nb ldw k (upperStageW n nb lda ldw k s.A s.w)) = 0 →
        (upperIter alpha n nb lda ldw k s).2 =
          (upperPivot alpha n nb lda ldw k s.A
            (upperStageW n nb lda ldw k s.A s.w)).2.1) ∧
      (upperAbsakk n nb ldw k w2 ≥ alpha * upperColmax n nb ldw k w2 →
        upperPivot alpha n nb lda ldw k A w2 = (k, 1, w2)) ∧
      (¬ upperAbsakk n nb ldw k w2 ≥ alpha * upperColmax n nb ldw k w2 →
        (upperAbsakk n nb ldw k w2 ≥
            alpha * upperColmax n nb ldw k w2 *
              (upperColmax n nb ldw k w2 / upperRowmax n nb ldw k imaxU wcU) →
          upperPivot alpha n nb lda ldw k A w2 = (k, 1, wcU)) ∧
        (¬ upperAbsakk n nb ldw k w2 ≥
            alpha * upperColmax n nb ldw k w2 *
              (upperColmax n nb ldw k w2 / upperRowmax n nb ldw k imaxU wcU) →
          (|wcU.get ((imaxU - 1) + (upperKw n nb k - 2) * ldw)| ≥
              alpha * upperRowmax n nb ldw k imaxU wcU →
            upperPivot alpha n nb lda ldw k A w2 =
              (imaxU, 1, Rcopy k wcU ((upperKw n nb k - 2) * ldw) 1 wcU
                ((upperKw n nb k - 1) * ldw) 1)) ∧
          (¬ |wcU.get ((imaxU - 1) + (upperKw n nb k - 2) * ldw)| ≥
              alpha * upperRowmax n nb ldw k imaxU wcU →
            upperPivot alpha n nb lda ldw k A w2 = (imaxU, 2, wcU))))) ∧
    ((¬ max (lowerAbsakk ldw k (lowerStageW n lda ldw k s.A s.w))
          (lowerColmax n ldw k (lowerStageW n lda ldw k s.A s.w)) = 0 →
        (lowerIter alpha n lda ldw k s).2 =
          (lowerPivot alpha n lda ldw k s.A
            (lowerStageW n lda ldw k s.A s.w)).2.1) ∧
      (lowerAbsakk ldw k v2 ≥ alpha * lowerColmax n ldw k v2 →
        lowerPivot alpha n lda ldw k A v2 = (k, 1, v2)) ∧
      (¬ lowerAbsakk ldw k v2 ≥ alpha * lowerColmax n ldw k v2 →
        (lowerAbsakk ldw k v2 ≥
            alpha * lowerColmax n ldw k v2 *
              (lowerColmax n ldw k v2 / lowerRowmax n ldw k imaxL wcL) →
          lowerPivot alpha n lda ldw k A v2 = (k, 1, wcL)) ∧
        (¬ lowerAbsakk ldw k v2 ≥
            alpha * lowerColmax n ldw k v2 *
              (lowerColmax n ldw k v2 / lowerRowmax n ldw k imaxL wcL) →
          (|wcL.get ((imaxL - 1) + k * ldw)| ≥
              alpha * lowerRowmax n ldw k imaxL wcL →
            lowerPivot alpha n lda ldw k A v2 =
              (imaxL, 1, Rcopy (n - k + 1) wcL ((k - 1) + k * ldw) 1 wcL
                ((k - 1) + (k - 1) * ldw) 1)) ∧
          (¬ |wcL.get ((imaxL - 1) + k * ldw)| ≥
              alpha * lowerRowmax n ldw k imaxL wcL →
            lowerPivot alpha n lda ldw k A v2 = (imaxL, 2, wcL))))) := by
  subst hwu hiu hwl hil
  constructor
  · refine ⟨fun hns => ?_, fun h1 => ?_, fun h1 => ⟨fun h2 => ?_, fun h2 => ⟨fun h3 => ?_, fun h3 => ?_⟩⟩⟩
    · simp only [upperIter, if_neg hns]
    · simp only [upperPivot, if_pos h1]
    · simp only [upperPivot, if_neg h1, if_pos h2]
    · simp only [upperPivot, if_neg h1, if_neg h2, if_pos h3]
    · simp only [upperPivot, if_neg h1, if_neg h2, if_neg h3]
  · refine ⟨fun hns => ?_, fun h1 => ?_, fun h1 => ⟨fun h2 => ?_, fun h2 => ⟨fun h3 => ?_, fun h3 => ?_⟩⟩⟩
    · simp only [lowerIter, if_neg hns]
    · simp only [lowerPivot, if_pos h1]
    · simp only [lowerPivot, if_neg h1, if_pos h2]
    · simp only [lowerPivot, if_neg h1, if_neg h2, if_pos h3]
    · simp only [lowerPivot, if_neg h1, if_neg h2, if_neg h3]

/-- Claim C10: an `Rlasyf` iteration whose staged column at frontier `k` is
exactly zero (`max(absakk, colmax) = 0`) writes `ipiv[k] = k`, sets `info`
to `k` only if `info` was 0, advances the frontier by exactly one
(`kstep = 1`), and leaves every element of `A` unchanged — the whole
interchange-and-commit block, and with it the reciprocal of the zero pivot,
is skipped; in both traversal directions. -/
theorem c10_zero_column_iteration {F : Type} [LinearOrderedField F]
    (alpha : F) (n nb lda ldw k : ℤ) (s : LasyfState F) :
    (max (upperAbsakk n nb ldw k (upperStageW n nb lda ldw k s.A s.w))
        (upperColmax n nb ldw k (upperStageW n nb lda ldw k s.A s.w)) = 0 →
      upperIter alpha n nb lda ldw k s =
        (⟨s.A, upperStageW n nb lda ldw k s.A s.w, store s.ipiv (k - 1) k,
          if s.info = 0 then k else s.info⟩, 1)) ∧
    (max (lowerAbsakk ldw k (lowerStageW n lda ldw k s.A s.w))
        (lowerColmax n ldw k (lowerStageW n lda ldw k s.A s.w)) = 0 →
      lowerIter alpha n lda ldw k s =
        (⟨s.A, lowerStageW n lda ldw k s.A s.w, store s.ipiv (k - 1) k,
          if s.info = 0 then k else s.info⟩, 1)) := by
  constructor
  · intro h
    simp only [upperIter, if_pos h]
  · intro h
    simp only [lowerIter, if_pos h]

/-- Claim C1 witness: the theorem applied twice over `ℚ` with
`alpha = 33/16` to the matrix `[[0, 1], [1, 0]]` — once in upper mode at
`k = 2` and once in lower mode at `k = 1`; in both instances the staged
column is nonzero and the cascade falls through all three tests to the 2×2
pivot, every hypothesis being discharged by `decide` or `rfl` on the
concrete data. -/
theorem c1_pivot_cascade_witness :
    ((1 : ℤ) = upperImax 2 2 2 2 w2ExQ) ∧
    (¬ max (upperAbsakk 2 2 2 2 (upperStageW 2 2 2 2 2 stSwapQ.A stSwapQ.w))
        (upperColmax 2 2 2 2 (upperStageW 2 2 2 2 2 stSwapQ.A stSwapQ.w)) = 0) ∧
    (¬ upperAbsakk 2 2 2 2 w2ExQ ≥ (33/16 : ℚ) * upperColmax 2 2 2 2 w2ExQ) ∧
    ((upperIter (33/16 : ℚ) 2 2 2 2 2 stSwapQ).2 =
      (upperPivot (33/16 : ℚ) 2 2 2 2 2 stSwapQ.A
        (upperStageW 2 2 2 2 2 stSwapQ.A stSwapQ.w)).2.1) ∧
    (upperPivot (33/16 : ℚ) 2 2 2 2 2 exSwapQ w2ExQ = (1, 2, wcUExQ)) ∧
    ((2 : ℤ) = lowerImax 2 2 1 v2ExQ) ∧
    (¬ max (lowerAbsakk 2 1 (lowerStageW 2 2 2 1 stSwapQ.A stSwapQ.w))
        (lowerColmax 2 2 1 (lowerStageW 2 2 2 1 stSwapQ.A stSwapQ.w)) = 0) ∧
    (¬ lowerAbsakk 2 1 v2ExQ ≥ (33/16 : ℚ) * lowerColmax 2 2 1 v2ExQ) ∧
    ((lowerIter (33/16 : ℚ) 2 2 2 1 stSwapQ).2 =
      (lowerPivot (33/16 : ℚ) 2 2 2 1 stSwapQ.A
        (lowerStageW 2 2 2 1 stSwapQ.A stSwapQ.w)).2.1) ∧
    (lowerPivot (33/16 : ℚ) 2 2 2 1 exSwapQ v2ExQ = (2, 2, wcLExQ)) := by
  have hup1 : (1 : ℤ) = upperImax 2 2 2 2 w2ExQ := by
    norm_num [upperImax, upperKw, iRamax, w2ExQ, upperStageW, Rcopy, Rgemv,
      gemvDot, store, exSwapQ, zeroBufQ, range_zero, range_one, range_two,
      toNat_zero, toNat_one, toNat_two]
  have hlo0 : (0 : ℤ) = lowerImax 2 2 2 v2ExQ := by
    norm_num [lowerImax]
  have hup0 : (0 : ℤ) = upperImax 2 2 2 1 zeroBufQ := by
    norm_num [upperImax]
  have hlo2 : (2 : ℤ) = lowerImax 2 2 1 v2ExQ := by
    norm_num [lowerImax, iRamax, v2ExQ, lowerStageW, Rcopy, Rgemv, gemvDot,
      store, exSwapQ, zeroBufQ, range_zero, range_one, range_two,
      toNat_zero, toNat_one, toNat_two]
  have hnsU : ¬ max (upperAbsakk 2 2 2 2 (upperStageW 2 2 2 2 2 stSwapQ.A stSwapQ.w))
      (upperColmax 2 2 2 2 (upperStageW 2 2 2 2 2 stSwapQ.A stSwapQ.w)) = 0 := by
    norm_num [upperAbsakk, upperColmax, upperImax, upperKw, iRamax, upperStageW,
      Rcopy, Rgemv, gemvDot, store, stSwapQ, exSwapQ, zeroBufQ, max_def,
      range_zero, range_one, range_two, toNat_zero, toNat_one, toNat_two]
  have hU1 : ¬ upperAbsakk 2 2 2 2 w2ExQ ≥ (33/16 : ℚ) * upperColmax 2 2 2 2 w2ExQ := by
    norm_num [upperAbsakk, upperColmax, upperImax, upperKw, iRamax, w2ExQ,
      upperStageW, Rcopy, Rgemv, gemvDot, store, exSwapQ, zeroBufQ, max_def,
      range_zero, range_one, range_two, toNat_zero, toNat_one, toNat_two]
  have hU2 : ¬ upperAbsakk 2 2 2 2 w2ExQ ≥
      (33/16 : ℚ) * upperColmax 2 2 2 2 w2ExQ *
        (upperColmax 2 2 2 2 w2ExQ / upperRowmax 2 2 2 2 1 wcUExQ) := by
    norm_num [upperAbsakk, upperColmax, upperImax, upperRowmax, upperKw, iRamax,
      w2ExQ, wcUExQ, upperStageW, upperStageImaxW, Rcopy, Rgemv, gemvDot, store,
      exSwapQ, zeroBufQ, max_def, range_zero, range_one, range_two,
      toNat_zero, toNat_one, toNat_two]
  have hU3 : ¬ |wcUExQ.get ((1 - 1) + (upperKw 2 2 2 - 2) * 2)| ≥
      (33/16 : ℚ) * upperRowmax 2 2 2 2 1 wcUExQ := by
    norm_num [upperRowmax, upperKw, iRamax, w2ExQ, wcUExQ, upperStageW,
      upperStageImaxW, Rcopy, Rgemv, gemvDot, store, exSwapQ, zeroBufQ, max_def,
      range_zero, range_one, range_two, toNat_zero, toNat_one, toNat_two]
  have hnsL : ¬ max (lowerAbsakk 2 1 (lowerStageW 2 2 2 1 stSwapQ.A stSwapQ.w))
      (lowerColmax 2 2 1 (lowerStageW 2 2 2 1 stSwapQ.A stSwapQ.w)) = 0 := by
    norm_num [lowerAbsakk, lowerColmax, lowerImax, iRamax, lowerStageW, Rcopy,
      Rgemv, gemvDot, store, stSwapQ, exSwapQ, zeroBufQ, max_def,
      range_zero, range_one, range_two, toNat_zero, toNat_one, toNat_two]
  have hL1 : ¬ lowerAbsakk 2 1 v2ExQ ≥ (33/16 : ℚ) * lowerColmax 2 2 1 v2ExQ := by
    norm_num [lowerAbsakk, lowerColmax, lowerImax, iRamax, v2ExQ, lowerStageW,
      Rcopy, Rgemv, gemvDot, store, exSwapQ, zeroBufQ, max_def,
      range_zero, range_one, range_two, toNat_zero, toNat_one, toNat_two]
  have hL2 : ¬ lowerAbsakk 2 1 v2ExQ ≥
      (33/16 : ℚ) * lowerColmax 2 2 1 v2ExQ *
        (lowerColmax 2 2 1 v2ExQ / lowerRowmax 2 2 1 2 wcLExQ) := by
    norm_num [lowerAbsakk, lowerColmax, lowerImax, lowerRowmax, iRamax, v2ExQ,
      wcLExQ, lowerStageW, lowerStageImaxW, Rcopy, Rgemv, gemvDot, store,
      exSwapQ, zeroBufQ, max_def, range_zero, range_one, range_two,
      toNat_zero, toNat_one, toNat_two]
  have hL3 : ¬ |wcLExQ.get ((2 - 1) + 1 * 2)| ≥
      (33/16 : ℚ) * lowerRowmax 2 2 1 2 wcLExQ := by
    norm_num [lowerRowmax, iRamax, v2ExQ, wcLExQ, lowerStageW, lowerStageImaxW,
      Rcopy, Rgemv, gemvDot, store, exSwapQ, zeroBufQ, max_def,
      range_zero, range_one, range_two, toNat_zero, toNat_one, toNat_two]
  have TU := c1_pivot_cascade (33/16 : ℚ) 2 2 2 2 2 1 0 exSwapQ w2ExQ v2ExQ
    wcUExQ (lowerStageImaxW 2 2 2 2 0 exSwapQ v2ExQ) stSwapQ
    hup1 rfl hlo0 rfl
  have TL := c1_pivot_cascade (33/16 : ℚ) 2 2 2 2 1 0 2 exSwapQ zeroBufQ v2ExQ
    (upperStageImaxW 2 2 2 2 1 0 exSwapQ zeroBufQ) wcLExQ stSwapQ
    hup0 rfl hlo2 rfl
  exact ⟨hup1, hnsU, hU1, TU.1.1 hnsU, ((TU.1.2.2 hU1).2 hU2).2 hU3, hlo2,
    hnsL, hL1, TL.2.1 hnsL, ((TL.2.2.2 hL1).2 hL2).2 hL3⟩

/-- Claim C10 witness: the theorem applied over `ℚ` at `n = 1`, `k = 1` to
the all-zero state, whose staged column is exactly zero in both modes. -/
theorem c10_zero_column_iteration_witness :
    (max (upperAbsakk 1 1 1 1 (upperStageW 1 1 1 1 1 stZeroQ.A stZeroQ.w))
        (upperColmax 1 1 1 1 (upperStageW 1 1 1 1 1 stZeroQ.A stZeroQ.w)) = 0) ∧
    (upperIter (33/16 : ℚ) 1 1 1 1 1 stZeroQ =
      (⟨stZeroQ.A, upperStageW 1 1 1 1 1 stZeroQ.A stZeroQ.w,
        store stZeroQ.ipiv 0 1,
        if stZeroQ.info = 0 then 1 else stZeroQ.info⟩, 1)) ∧
    (max (lowerAbsakk 1 1 (lowerStageW 1 1 1 1 stZeroQ.A stZeroQ.w))
        (lowerColmax 1 1 1 (lowerStageW 1 1 1 1 stZeroQ.A stZeroQ.w)) = 0) ∧
    (lowerIter (33/16 : ℚ) 1 1 1 1 stZeroQ =
      (⟨stZeroQ.A, lowerStageW 1 1 1 1 stZeroQ.A stZeroQ.w,
        store stZeroQ.ipiv 0 1,
        if stZeroQ.info = 0 then 1 else stZeroQ.info⟩, 1)) := by
  have T := c10_zero_column_iteration (33/16 : ℚ) 1 1 1 1 1 stZeroQ
  have hu : max (upperAbsakk 1 1 1 1 (upperStageW 1 1 1 1 1 stZeroQ.A stZeroQ.w))
      (upperColmax 1 1 1 1 (upperStageW 1 1 1 1 1 stZeroQ.A stZeroQ.w)) = 0 := by
    norm_num [upperAbsakk, upperColmax, upperImax, upperKw, iRamax, upperStageW,
      Rcopy, Rgemv, gemvDot, store, stZeroQ, zeroBufQ, max_def,
      range_zero, range_one, toNat_zero, toNat_one]
  have hl : max (lowerAbsakk 1 1 (lowerStageW 1 1 1 1 stZeroQ.A stZeroQ.w))
      (lowerColmax 1 1 1 (lowerStageW 1 1 1 1 stZeroQ.A stZeroQ.w)) = 0 := by
    norm_num [lowerAbsakk, lowerColmax, lowerImax, iRamax, lowerStageW,
      Rcopy, Rgemv, gemvDot, store, stZeroQ, zeroBufQ, max_def,
      range_zero, range_one, toNat_zero, toNat_one]
  exact ⟨hu, T.1 hu, hl, T.2 hl⟩


/-- Helper: the upper-mode run on the all-zero 3×3 matrix with `nb = 3`
(`lda = ldw = 3`): each of the three iterations finds an exactly-zero
staged column, so `info` records the first frontier index in processing
order, which is `k = 3`, and all three columns are consumed. -/
theorem c3_run {F : Type} [LinearOrderedField F] (alpha : F) :
    (Rlasyf alpha true 3 3 ⟨fun _ => 0⟩ 3 ⟨fun _ => 0⟩ ⟨fun _ => 0⟩ 3).info = 3 ∧
    (Rlasyf alpha true 3 3 ⟨fun _ => 0⟩ 3 ⟨fun _ => 0⟩ ⟨fun _ => 0⟩ 3).kb = 3 := by
  have hsing : ∀ (k : ℤ) (w : Buf F), (k = 3 ∨ k = 2 ∨ k = 1) →
      max (upperAbsakk 3 3 3 k (upperStageW 3 3 3 3 k ⟨fun _ => 0⟩ w))
        (upperColmax 3 3 3 k (upperStageW 3 3 3 3 k ⟨fun _ => 0⟩ w)) = 0 := by
    rintro k w (rfl | rfl | rfl) <;>
      norm_num [upperAbsakk, upperColmax, upperImax, upperKw, iRamax, upperStageW,
        Rcopy, Rgemv, gemvDot, store, max_def, range_zero, range_one, range_two,
        range_three, toNat_zero, toNat_one, toNat_two, toNat_three]
  have i3 : ∀ (w : Buf F) (p : Buf ℤ),
      upperIter alpha 3 3 3 3 3 ⟨⟨fun _ => 0⟩, w, p, 0⟩ =
        (⟨⟨fun _ => 0⟩, upperStageW 3 3 3 3 3 ⟨fun _ => 0⟩ w, store p 2 3, 3⟩, 1) := by
    intro w p
    rw [upperIter_singular alpha 3 3 3 3 3 ⟨⟨fun _ => 0⟩, w, p, 0⟩ (hsing 3 w (Or.inl rfl))]
    norm_num
  have i2 : ∀ (w : Buf F) (p : Buf ℤ),
      upperIter alpha 3 3 3 3 2 ⟨⟨fun _ => 0⟩, w, p, 3⟩ =
        (⟨⟨fun _ => 0⟩, upperStageW 3 3 3 3 2 ⟨fun _ => 0⟩ w, store p 1 2, 3⟩, 1) := by
    intro w p
    rw [upperIter_singular alpha 3 3 3 3 2 ⟨⟨fun _ => 0⟩, w, p, 3⟩ (hsing 2 w (by norm_num))]
    norm_num
  have i1 : ∀ (w : Buf F) (p : Buf ℤ),
      upperIter alpha 3 3 3 3 1 ⟨⟨fun _ => 0⟩, w, p, 3⟩ =
        (⟨⟨fun _ => 0⟩, upperStageW 3 3 3 3 1 ⟨fun _ => 0⟩ w, store p 0 1, 3⟩, 1) := by
    intro w p
    rw [upperIter_singular alpha 3 3 3 3 1 ⟨⟨fun _ => 0⟩, w, p, 3⟩ (hsing 1 w (by norm_num))]
    norm_num
  have hloop : upperLoop alpha 3 3 3 3 (lasyfFuel 3) 3
      ⟨⟨fun _ => 0⟩, ⟨fun _ => 0⟩, ⟨fun _ => 0⟩, 0⟩ =
      (⟨⟨fun _ => 0⟩,
        upperStageW 3 3 3 3 1 ⟨fun _ => 0⟩
          (upperStageW 3 3 3 3 2 ⟨fun _ => 0⟩
            (upperStageW 3 3 3 3 3 ⟨fun _ => 0⟩ ⟨fun _ => 0⟩)),
        store (store (store ⟨fun _ => 0⟩ 2 3) 1 2) 0 1, 3⟩, 0) := by
    rw [show lasyfFuel 3 = 4 + 1 from rfl, upperLoop_succ, if_neg (by decide), i3,
      snd_pair, fst_pair, show (3 : ℤ) - 1 = 2 from rfl,
      show (4 : ℕ) = 3 + 1 from rfl, upperLoop_succ, if_neg (by decide), i2,
      snd_pair, fst_pair, show (2 : ℤ) - 1 = 1 from rfl,
      show (3 : ℕ) = 2 + 1 from rfl, upperLoop_succ, if_neg (by decide), i1,
      snd_pair, fst_pair, show (1 : ℤ) - 1 = 0 from rfl,
      show (2 : ℕ) = 1 + 1 from rfl, upperLoop_succ, if_pos (by decide)]
  constructor
  · show (RlasyfUpper alpha 3 3 3 3 ⟨fun _ => 0⟩ ⟨fun _ => 0⟩ ⟨fun _ => 0⟩).info = 3
    simp only [RlasyfUpper, hloop, fst_pair, snd_pair]
  · show (RlasyfUpper alpha 3 3 3 3 ⟨fun _ => 0⟩ ⟨fun _ => 0⟩ ⟨fun _ => 0⟩).kb = 3
    simp only [RlasyfUpper, hloop, fst_pair, snd_pair]
    norm_num


/-- Claim C3 counterexample: for `n = 3`, `blockSize = 3`, upper-triangle
mode and `A` entirely zero, the code does not yield `info = 1`: the first
exactly-zero pivot column in processing order is the one the backward
traversal visits first, `k = 3`, so `info = 3`. -/
theorem c3_zero_matrix_info_counterexample :
    ¬ (Rlasyf ((1 + Real.sqrt 17) / 8) true 3 3 ⟨fun _ => 0⟩ 3 ⟨fun _ => 0⟩
        ⟨fun _ => 0⟩ 3).info = 1 := by
  rw [(c3_run ((1 + Real.sqrt 17) / 8)).1]
  norm_num

/-- Claim C3 (amended): for `n = 3`, `blockSize = 3`, upper-triangle mode
and `A` entirely zero, the call completes, yields `info = 3` (the first
column found singular in the backward processing order) and consumes
`kb = 3` columns. -/
theorem c3_zero_matrix_run :
    (Rlasyf ((1 + Real.sqrt 17) / 8) true 3 3 ⟨fun _ => 0⟩ 3 ⟨fun _ => 0⟩
        ⟨fun _ => 0⟩ 3).info = 3 ∧
    (Rlasyf ((1 + Real.sqrt 17) / 8) true 3 3 ⟨fun _ => 0⟩ 3 ⟨fun _ => 0⟩
        ⟨fun _ => 0⟩ 3).kb = 3 :=
  c3_run ((1 + Real.sqrt 17) / 8)


theorem c7W1_read (i : ℤ) : (c7W1 F).get i = if i = 0 then (5 : F) else 0 := by
  norm_num [c7W1, lowerStageW, Rcopy, Rgemv, Rscal, gemvDot, diag5B, zeroBF, range_zero, range_one,
    range_two, range_three, range_four, toNat_zero, toNat_one, toNat_two,
    toNat_three, toNat_four, store, Buf_get_mk, max_def, min_def]
  split_ifs <;> simp_all

theorem c7A1_read (i : ℤ) : (c7A1 F).get i = (diag5B F).get i := by
  norm_num [c7A1, lowerCommit, Rcopy, Rscal, c7W1_read, range_zero, range_one,
    range_two, range_three, range_four, toNat_zero, toNat_one, toNat_two,
    toNat_three, toNat_four, store, Buf_get_mk, max_def, min_def]
  split_ifs <;> simp_all [diag5B]

theorem c7W2_read (i : ℤ) : (c7W2 F).get i = if i = 0 ∨ i = 5 then (5 : F) else 0 := by
  norm_num [c7W2, lowerStageW, Rcopy, Rgemv, Rscal, gemvDot, c7A1_read, c7W1_read,
    diag5B, range_zero, range_one,
    range_two, range_three, range_four, toNat_zero, toNat_one, toNat_two,
    toNat_three, toNat_four, store, Buf_get_mk, max_def, min_def]
  split_ifs <;> simp_all

theorem c7A2_read (i : ℤ) : (c7A2 F).get i = (diag5B F).get i := by
  norm_num [c7A2, lowerCommit, Rcopy, Rscal, c7W2_read, c7A1_read, range_zero, range_one,
    range_two, range_three, range_four, toNat_zero, toNat_one, toNat_two,
    toNat_three, toNat_four, store, Buf_get_mk, max_def, min_def]
  split_ifs <;> simp_all [diag5B]

theorem c7W3_read (i : ℤ) : (c7W3 F).get i = if i = 0 ∨ i = 5 ∨ i = 10 then (5 : F) else 0 := by
  norm_num [c7W3, lowerStageW, Rcopy, Rgemv, Rscal, gemvDot, c7A2_read, c7W2_read,
    diag5B, range_zero, range_one,
    range_two, range_three, range_four, toNat_zero, toNat_one, toNat_two,
    toNat_three, toNat_four, store, Buf_get_mk, max_def, min_def]
  split_ifs <;> simp_all

theorem c7A3_read (i : ℤ) : (c7A3 F).get i = (diag5B F).get i := by
  norm_num [c7A3, lowerCommit, Rcopy, Rscal, c7W3_read, c7A2_read, range_zero, range_one,
    range_two, range_three, range_four, toNat_zero, toNat_one, toNat_two,
    toNat_three, toNat_four, store, Buf_get_mk, max_def, min_def]
  split_ifs <;> simp_all [diag5B]

theorem c7W4_read (i : ℤ) :
    (c7W4 F).get i = if i = 0 ∨ i = 5 ∨ i = 10 ∨ i = 15 then (5 : F) else 0 := by
  norm_num [c7W4, lowerStageW, Rcopy, Rgemv, Rscal, gemvDot, c7A3_read, c7W3_read,
    diag5B, range_zero, range_one,
    range_two, range_three, range_four, toNat_zero, toNat_one, toNat_two,
    toNat_three, toNat_four, store, Buf_get_mk, max_def, min_def]
  split_ifs <;> simp_all

theorem c7A4_read (i : ℤ) : (c7A4 F).get i = (diag5B F).get i := by
  norm_num [c7A4, lowerCommit, Rcopy, Rscal, c7W4_read, c7A3_read, range_zero, range_one,
    range_two, range_three, range_four, toNat_zero, toNat_one, toNat_two,
    toNat_three, toNat_four, store, Buf_get_mk, max_def, min_def]
  intro h
  subst h
  norm_num [diag5B]

theorem abs_five : |(5 : F)| = 5 := abs_of_nonneg (by norm_num)

/-- A step that accepts a 1×1 pivot at `k` with no interchange
(`absakk ≥ alpha·colmax`, nonzero column) commits the staged column and
records `ipiv[k] = k` (lower mode). -/
theorem lowerIter_1x1_nopiv (alpha : F) (n lda ldw k : ℤ) (s : LasyfState F)
    (hns : ¬ max (lowerAbsakk ldw k (lowerStageW n lda ldw k s.A s.w))
        (lowerColmax n ldw k (lowerStageW n lda ldw k s.A s.w)) = 0)
    (h1 : lowerAbsakk ldw k (lowerStageW n lda ldw k s.A s.w) ≥
        alpha * lowerColmax n ldw k (lowerStageW n lda ldw k s.A s.w)) :
    lowerIter alpha n lda ldw k s =
      (⟨lowerCommit n lda ldw k 1 s.A (lowerStageW n lda ldw k s.A s.w),
        lowerStageW n lda ldw k s.A s.w, store s.ipiv (k - 1) k, s.info⟩, 1) := by
  simp only [lowerIter, if_neg hns, lowerPivot, if_pos h1, lowerInterchange,
    fst_pair, snd_pair]
  norm_num

/-- The trace entry of such a step: frontier `k`, `kstep = 1`, `kp = k`,
not singular (lower mode). -/
theorem lowerTraceStep_1x1_nopiv (alpha : F) (n nb lda ldw : ℤ) (fuel : ℕ)
    (k : ℤ) (s : LasyfState F)
    (hcase : ¬ ((k ≥ nb ∧ nb < n) ∨ k > n))
    (hns : ¬ max (lowerAbsakk ldw k (lowerStageW n lda ldw k s.A s.w))
        (lowerColmax n ldw k (lowerStageW n lda ldw k s.A s.w)) = 0)
    (h1 : lowerAbsakk ldw k (lowerStageW n lda ldw k s.A s.w) ≥
        alpha * lowerColmax n ldw k (lowerStageW n lda ldw k s.A s.w)) :
    lowerTrace alpha n nb lda ldw (fuel + 1) k s =
      (k, 1, k, false) ::
        lowerTrace alpha n nb lda ldw fuel (k + 1)
          (lowerIter alpha n lda ldw k s).1 := by
  rw [lowerTrace_succ, if_neg hcase]
  simp only [if_neg hns, lowerPivot, if_pos h1, lowerIter, lowerInterchange,
    fst_pair, snd_pair]
  norm_num

/-- Helper: the lower-mode run on `diag(5,5,5,5)` with `nb = n = 4`
(`lda = ldw = 4`): four 1×1 pivots, `ipiv = [1,2,3,4]`, `kb = 4`,
`info = 0`, and the final matrix equals `c7A4` pointwise. -/
theorem c7_run {F : Type} [LinearOrderedField F] (alpha : F) :
    Rlasyf alpha false 4 4 (diag5B F) 4 zeroP (zeroBF F) 4 =
      ⟨c7A4 F, c7W4 F, c7P, 4, 0⟩ := by
  have hns1 : ¬ max (lowerAbsakk 4 1 (c7W1 F)) (lowerColmax 4 4 1 (c7W1 F)) = 0 := by
    norm_num [c7W1_read, lowerAbsakk, lowerColmax, lowerImax, iRamax, range_zero, range_one,
      range_two, range_three, range_four, toNat_zero, toNat_one, toNat_two,
      toNat_three, toNat_four, store, Buf_get_mk, max_def, min_def, abs_five]
  have h11 : lowerAbsakk 4 1 (c7W1 F) ≥ alpha * lowerColmax 4 4 1 (c7W1 F) := by
    norm_num [c7W1_read, lowerAbsakk, lowerColmax, lowerImax, iRamax, range_zero, range_one,
      range_two, range_three, range_four, toNat_zero, toNat_one, toNat_two,
      toNat_three, toNat_four, store, Buf_get_mk, max_def, min_def, abs_five]
  have hns2 : ¬ max (lowerAbsakk 4 2 (c7W2 F)) (lowerColmax 4 4 2 (c7W2 F)) = 0 := by
    norm_num [c7W2_read, lowerAbsakk, lowerColmax, lowerImax, iRamax, range_zero, range_one,
      range_two, range_three, range_four, toNat_zero, toNat_one, toNat_two,
      toNat_three, toNat_four, store, Buf_get_mk, max_def, min_def, abs_five]
  have h21 : lowerAbsakk 4 2 (c7W2 F) ≥ alpha * lowerColmax 4 4 2 (c7W2 F) := by
    norm_num [c7W2_read, lowerAbsakk, lowerColmax, lowerImax, iRamax, range_zero, range_one,
      range_two, range_three, range_four, toNat_zero, toNat_one, toNat_two,
      toNat_three, toNat_four, store, Buf_get_mk, max_def, min_def, abs_five]
  have hns3 : ¬ max (lowerAbsakk 4 3 (c7W3 F)) (lowerColmax 4 4 3 (c7W3 F)) = 0 := by
    norm_num [c7W3_read, lowerAbsakk, lowerColmax, lowerImax, iRamax, range_zero, range_one,
      range_two, range_three, range_four, toNat_zero, toNat_one, toNat_two,
      toNat_three, toNat_four, store, Buf_get_mk, max_def, min_def, abs_five]
  have h31 : lowerAbsakk 4 3 (c7W3 F) ≥ alpha * lowerColmax 4 4 3 (c7W3 F) := by
    norm_num [c7W3_read, lowerAbsakk, lowerColmax, lowerImax, iRamax, range_zero, range_one,
      range_two, range_three, range_four, toNat_zero, toNat_one, toNat_two,
      toNat_three, toNat_four, store, Buf_get_mk, max_def, min_def, abs_five]
  have hns4 : ¬ max (lowerAbsakk 4 4 (c7W4 F)) (lowerColmax 4 4 4 (c7W4 F)) = 0 := by
    norm_num [c7W4_read, lowerAbsakk, lowerColmax, lowerImax, iRamax, range_zero, range_one,
      range_two, range_three, range_four, toNat_zero, toNat_one, toNat_two,
      toNat_three, toNat_four, store, Buf_get_mk, max_def, min_def, abs_five]
  have h41 : lowerAbsakk 4 4 (c7W4 F) ≥ alpha * lowerColmax 4 4 4 (c7W4 F) := by
    norm_num [c7W4_read, lowerAbsakk, lowerColmax, lowerImax, iRamax, range_zero, range_one,
      range_two, range_three, range_four, toNat_zero, toNat_one, toNat_two,
      toNat_three, toNat_four, store, Buf_get_mk, max_def, min_def, abs_five]
  have j1 : lowerIter alpha 4 4 4 1 ⟨diag5B F, zeroBF F, zeroP, 0⟩ = (⟨c7A1 F, c7W1 F, store zeroP 0 1, 0⟩, 1) := by
    rw [lowerIter_1x1_nopiv alpha 4 4 4 1 ⟨diag5B F, zeroBF F, zeroP, 0⟩ hns1 h11]
    norm_num [c7A1, c7W1, c7P]
  have j2 : lowerIter alpha 4 4 4 2 ⟨c7A1 F, c7W1 F, store zeroP 0 1, 0⟩ = (⟨c7A2 F, c7W2 F, store (store zeroP 0 1) 1 2, 0⟩, 1) := by
    rw [lowerIter_1x1_nopiv alpha 4 4 4 2 ⟨c7A1 F, c7W1 F, store zeroP 0 1, 0⟩ hns2 h21]
    norm_num [c7A2, c7W2, c7P]
  have j3 : lowerIter alpha 4 4 4 3 ⟨c7A2 F, c7W2 F, store (store zeroP 0 1) 1 2, 0⟩ = (⟨c7A3 F, c7W3 F, store (store (store zeroP 0 1) 1 2) 2 3, 0⟩, 1) := by
    rw [lowerIter_1x1_nopiv alpha 4 4 4 3 ⟨c7A2 F, c7W2 F, store (store zeroP 0 1) 1 2, 0⟩ hns3 h31]
    norm_num [c7A3, c7W3, c7P]
  have j4 : lowerIter alpha 4 4 4 4 ⟨c7A3 F, c7W3 F, store (store (store zeroP 0 1) 1 2) 2 3, 0⟩ = (⟨c7A4 F, c7W4 F, c7P, 0⟩, 1) := by
    rw [lowerIter_1x1_nopiv alpha 4 4 4 4 ⟨c7A3 F, c7W3 F, store (store (store zeroP 0 1) 1 2) 2 3, 0⟩ hns4 h41]
    norm_num [c7A4, c7W4, c7P]
  have hpvals : ∀ x : ℤ, 1 ≤ x → x ≤ 4 → c7P.get (x - 1) = x := by
    intro x hx1 hx2
    interval_cases x <;> norm_num [c7P, zeroP, store]
  have hloop : lowerLoop alpha 4 4 4 4 (lasyfFuel 4) 1 ⟨diag5B F, zeroBF F, zeroP, 0⟩ =
      (⟨c7A4 F, c7W4 F, c7P, 0⟩, 5) := by
    rw [show lasyfFuel 4 = 5 + 1 from rfl, lowerLoop_succ, if_neg (by decide), j1,
      snd_pair, fst_pair, show (1 : ℤ) + 1 = 2 from rfl,
      show (5 : ℕ) = 4 + 1 from rfl, lowerLoop_succ, if_neg (by decide), j2,
      snd_pair, fst_pair, show (2 : ℤ) + 1 = 3 from rfl,
      show (4 : ℕ) = 3 + 1 from rfl, lowerLoop_succ, if_neg (by decide), j3,
      snd_pair, fst_pair, show (3 : ℤ) + 1 = 4 from rfl,
      show (3 : ℕ) = 2 + 1 from rfl, lowerLoop_succ, if_neg (by decide), j4,
      snd_pair, fst_pair, show (4 : ℤ) + 1 = 5 from rfl,
      show (2 : ℕ) = 1 + 1 from rfl, lowerLoop_succ, if_pos (by decide)]
  show RlasyfLower alpha 4 4 4 4 (diag5B F) zeroP (zeroBF F) = _
  simp only [RlasyfLower, hloop, fst_pair, snd_pair]
  rw [show (5 : ℤ) - 1 = 4 from rfl,
    show lasyfFuel 4 = 5 + 1 from rfl, lowerUpdLoop_succ, if_neg (by omega),
    lowerUndoLoop_id 4 c7P (5 + 1) 4 _ hpvals]

/-- Helper: the per-iteration trace of the same run: four non-singular 1×1
steps with `kp = k` (no interchange) at `k = 1, 2, 3, 4`. -/
theorem c7_trace {F : Type} [LinearOrderedField F] (alpha : F) :
    lowerTrace alpha 4 4 4 4 (lasyfFuel 4) 1 ⟨diag5B F, zeroBF F, zeroP, 0⟩ =
      [(1, 1, 1, false), (2, 1, 2, false), (3, 1, 3, false), (4, 1, 4, false)] := by
  have hns1 : ¬ max (lowerAbsakk 4 1 (c7W1 F)) (lowerColmax 4 4 1 (c7W1 F)) = 0 := by
    norm_num [c7W1_read, lowerAbsakk, lowerColmax, lowerImax, iRamax, range_zero, range_one,
      range_two, range_three, range_four, toNat_zero, toNat_one, toNat_two,
      toNat_three, toNat_four, store, Buf_get_mk, max_def, min_def, abs_five]
  have h11 : lowerAbsakk 4 1 (c7W1 F) ≥ alpha * lowerColmax 4 4 1 (c7W1 F) := by
    norm_num [c7W1_read, lowerAbsakk, lowerColmax, lowerImax, iRamax, range_zero, range_one,
      range_two, range_three, range_four, toNat_zero, toNat_one, toNat_two,
      toNat_three, toNat_four, store, Buf_get_mk, max_def, min_def, abs_five]
  have hns2 : ¬ max (lowerAbsakk 4 2 (c7W2 F)) (lowerColmax 4 4 2 (c7W2 F)) = 0 := by
    norm_num [c7W2_read, lowerAbsakk, lowerColmax, lowerImax, iRamax, range_zero, range_one,
      range_two, range_three, range_four, toNat_zero, toNat_one, toNat_two,
      toNat_three, toNat_four, store, Buf_get_mk, max_def, min_def, abs_five]
  have h21 : lowerAbsakk 4 2 (c7W2 F) ≥ alpha * lowerColmax 4 4 2 (c7W2 F) := by
    norm_num [c7W2_read, lowerAbsakk, lowerColmax, lowerImax, iRamax, range_zero, range_one,
      range_two, range_three, range_four, toNat_zero, toNat_one, toNat_two,
      toNat_three, toNat_four, store, Buf_get_mk, max_def, min_def, abs_five]
  have hns3 : ¬ max (lowerAbsakk 4 3 (c7W3 F)) (lowerColmax 4 4 3 (c7W3 F)) = 0 := by
    norm_num [c7W3_read, lowerAbsakk, lowerColmax, lowerImax, iRamax, range_zero, range_one,
      range_two, range_three, range_four, toNat_zero, toNat_one, toNat_two,
      toNat_three, toNat_four, store, Buf_get_mk, max_def, min_def, abs_five]
  have h31 : lowerAbsakk 4 3 (c7W3 F) ≥ alpha * lowerColmax 4 4 3 (c7W3 F) := by
    norm_num [c7W3_read, lowerAbsakk, lowerColmax, lowerImax, iRamax, range_zero, range_one,
      range_two, range_three, range_four, toNat_zero, toNat_one, toNat_two,
      toNat_three, toNat_four, store, Buf_get_mk, max_def, min_def, abs_five]
  have hns4 : ¬ max (lowerAbsakk 4 4 (c7W4 F)) (lowerColmax 4 4 4 (c7W4 F)) = 0 := by
    norm_num [c7W4_read, lowerAbsakk, lowerColmax, lowerImax, iRamax, range_zero, range_one,
      range_two, range_three, range_four, toNat_zero, toNat_one, toNat_two,
      toNat_three, toNat_four, store, Buf_get_mk, max_def, min_def, abs_five]
  have h41 : lowerAbsakk 4 4 (c7W4 F) ≥ alpha * lowerColmax 4 4 4 (c7W4 F) := by
    norm_num [c7W4_read, lowerAbsakk, lowerColmax, lowerImax, iRamax, range_zero, range_one,
      range_two, range_three, range_four, toNat_zero, toNat_one, toNat_two,
      toNat_three, toNat_four, store, Buf_get_mk, max_def, min_def, abs_five]
  have j1 : lowerIter alpha 4 4 4 1 ⟨diag5B F, zeroBF F, zeroP, 0⟩ = (⟨c7A1 F, c7W1 F, store zeroP 0 1, 0⟩, 1) := by
    rw [lowerIter_1x1_nopiv alpha 4 4 4 1 ⟨diag5B F, zeroBF F, zeroP, 0⟩ hns1 h11]
    norm_num [c7A1, c7W1, c7P]
  have j2 : lowerIter alpha 4 4 4 2 ⟨c7A1 F, c7W1 F, store zeroP 0 1, 0⟩ = (⟨c7A2 F, c7W2 F, store (store zeroP 0 1) 1 2, 0⟩, 1) := by
    rw [lowerIter_1x1_nopiv alpha 4 4 4 2 ⟨c7A1 F, c7W1 F, store zeroP 0 1, 0⟩ hns2 h21]
    norm_num [c7A2, c7W2, c7P]
  have j3 : lowerIter alpha 4 4 4 3 ⟨c7A2 F, c7W2 F, store (store zeroP 0 1) 1 2, 0⟩ = (⟨c7A3 F, c7W3 F, store (store (store zeroP 0 1) 1 2) 2 3, 0⟩, 1) := by
    rw [lowerIter_1x1_nopiv alpha 4 4 4 3 ⟨c7A2 F, c7W2 F, store (store zeroP 0 1) 1 2, 0⟩ hns3 h31]
    norm_num [c7A3, c7W3, c7P]
  have j4 : lowerIter alpha 4 4 4 4 ⟨c7A3 F, c7W3 F, store (store (store zeroP 0 1) 1 2) 2 3, 0⟩ = (⟨c7A4 F, c7W4 F, c7P, 0⟩, 1) := by
    rw [lowerIter_1x1_nopiv alpha 4 4 4 4 ⟨c7A3 F, c7W3 F, store (store (store zeroP 0 1) 1 2) 2 3, 0⟩ hns4 h41]
    norm_num [c7A4, c7W4, c7P]
  rw [show lasyfFuel 4 = 5 + 1 from rfl,
    lowerTraceStep_1x1_nopiv alpha 4 4 4 4 5 1 ⟨diag5B F, zeroBF F, zeroP, 0⟩
      (by decide) hns1 h11, j1, fst_pair, show (1 : ℤ) + 1 = 2 from rfl,
    show (5 : ℕ) = 4 + 1 from rfl,
    lowerTraceStep_1x1_nopiv alpha 4 4 4 4 4 2 ⟨c7A1 F, c7W1 F, store zeroP 0 1, 0⟩
      (by decide) hns2 h21, j2, fst_pair, show (2 : ℤ) + 1 = 3 from rfl,
    show (4 : ℕ) = 3 + 1 from rfl,
    lowerTraceStep_1x1_nopiv alpha 4 4 4 4 3 3
      ⟨c7A2 F, c7W2 F, store (store zeroP 0 1) 1 2, 0⟩ (by decide) hns3 h31, j3,
    fst_pair, show (3 : ℤ) + 1 = 4 from rfl,
    show (3 : ℕ) = 2 + 1 from rfl,
    lowerTraceStep_1x1_nopiv alpha 4 4 4 4 2 4
      ⟨c7A3 F, c7W3 F, store (store (store zeroP 0 1) 1 2) 2 3, 0⟩ (by decide) hns4
      h41, j4, fst_pair, show (4 : ℤ) + 1 = 5 from rfl,
    show (2 : ℕ) = 1 + 1 from rfl, lowerTrace_succ, if_pos (by decide)]

/-- Claim C7: For the call `Rlasyf` with `n = 4`, `blockSize = 4`,
lower-triangle mode, and `A = diag(5, 5, 5, 5)` (real arithmetic, the real
Bunch-Kaufman threshold `alpha = (1 + √17)/8`): every iteration is a
non-singular 1×1 pivot with `kp = k` — no interchanges are performed —
`ipiv = [1, 2, 3, 4]`, `kb = 4`, `info = 0`, and the produced factor
satisfies `L = identity` (the strictly-lower stored factor entries are all
0, the unit diagonal being implicit) and `D = diag(5, 5, 5, 5)` (the
diagonal entries of the output are all 5); the off-diagonal of the whole
lower triangle of `A` is 0 and its diagonal 5, i.e. `A` is unchanged. -/
theorem c7_lower_diag5_scenario :
    lowerTrace ((1 + Real.sqrt 17) / 8) 4 4 4 4 (lasyfFuel 4) 1
        ⟨diag5B ℝ, zeroBF ℝ, zeroP, 0⟩ =
      [(1, 1, 1, false), (2, 1, 2, false), (3, 1, 3, false), (4, 1, 4, false)] ∧
    (Rlasyf ((1 + Real.sqrt 17) / 8) false 4 4 (diag5B ℝ) 4 zeroP (zeroBF ℝ) 4).kb = 4 ∧
    (Rlasyf ((1 + Real.sqrt 17) / 8) false 4 4 (diag5B ℝ) 4 zeroP (zeroBF ℝ) 4).info = 0 ∧
    (Rlasyf ((1 + Real.sqrt 17) / 8) false 4 4 (diag5B ℝ) 4 zeroP (zeroBF ℝ) 4).ipiv.get 0 = 1 ∧
    (Rlasyf ((1 + Real.sqrt 17) / 8) false 4 4 (diag5B ℝ) 4 zeroP (zeroBF ℝ) 4).ipiv.get 1 = 2 ∧
    (Rlasyf ((1 + Real.sqrt 17) / 8) false 4 4 (diag5B ℝ) 4 zeroP (zeroBF ℝ) 4).ipiv.get 2 = 3 ∧
    (Rlasyf ((1 + Real.sqrt 17) / 8) false 4 4 (diag5B ℝ) 4 zeroP (zeroBF ℝ) 4).ipiv.get 3 = 4 ∧
    (∀ i j : ℤ, 1 ≤ i → i ≤ 4 → 1 ≤ j → j ≤ 4 → j ≤ i →
      (Rlasyf ((1 + Real.sqrt 17) / 8) false 4 4 (diag5B ℝ) 4 zeroP (zeroBF ℝ) 4).A.get
          ((i - 1) + (j - 1) * 4) = if i = j then 5 else 0) := by
  have hr := c7_run (F := ℝ) ((1 + Real.sqrt 17) / 8)
  have hA : ∀ i j : ℤ, 1 ≤ i → i ≤ 4 → 1 ≤ j → j ≤ 4 → j ≤ i →
      (c7A4 ℝ).get ((i - 1) + (j - 1) * 4) = if i = j then (5 : ℝ) else 0 := by
    intro i j hi1 hi4 hj1 hj4 hji
    rw [c7A4_read]
    interval_cases i <;> interval_cases j <;> norm_num [diag5B]
  refine ⟨c7_trace _, ?_, ?_, ?_, ?_, ?_, ?_, ?_⟩ <;> rw [hr]
  all_goals try exact hA
  all_goals norm_num [c7P, zeroP, store]

theorem firstSingular_nil : firstSingular [] = 0 := rfl

theorem firstSingular_cons_true (k kstep kp : ℤ) (tl : List (ℤ × ℤ × ℤ × Bool)) :
    firstSingular ((k, kstep, kp, true) :: tl) = k := rfl

theorem firstSingular_cons_false (k kstep kp : ℤ)
    (tl : List (ℤ × ℤ × ℤ × Bool)) :
    firstSingular ((k, kstep, kp, false) :: tl) = firstSingular tl := rfl

theorem upperPivot_kstep (alpha : F) (n nb lda ldw k : ℤ) (A w2 : Buf F) :
    (upperPivot alpha n nb lda ldw k A w2).2.1 = 1 ∨
      (upperPivot alpha n nb lda ldw k A w2).2.1 = 2 := by
  simp only [upperPivot]
  split_ifs <;> simp

theorem lowerPivot_kstep (alpha : F) (n lda ldw k : ℤ) (A w2 : Buf F) :
    (lowerPivot alpha n lda ldw k A w2).2.1 = 1 ∨
      (lowerPivot alpha n lda ldw k A w2).2.1 = 2 := by
  simp only [lowerPivot]
  split_ifs <;> simp

/-- Every iteration advances the frontier by 1 or by 2 (upper mode). -/
theorem upperIter_kstep (alpha : F) (n nb lda ldw k : ℤ) (s : LasyfState F) :
    (upperIter alpha n nb lda ldw k s).2 = 1 ∨
      (upperIter alpha n nb lda ldw k s).2 = 2 := by
  rcases upperPivot_kstep alpha n nb lda ldw k s.A
      (upperStageW n nb lda ldw k s.A s.w) with h | h <;>
    simp only [upperIter] <;> split_ifs <;> simp [h]

/-- Every iteration advances the frontier by 1 or by 2 (lower mode). -/
theorem lowerIter_kstep (alpha : F) (n lda ldw k : ℤ) (s : LasyfState F) :
    (lowerIter alpha n lda ldw k s).2 = 1 ∨
      (lowerIter alpha n lda ldw k s).2 = 2 := by
  rcases lowerPivot_kstep alpha n lda ldw k s.A
      (lowerStageW n lda ldw k s.A s.w) with h | h <;>
    simp only [lowerIter] <;> split_ifs <;> simp [h]

/-- A non-singular iteration leaves `info` unchanged (upper mode). -/
theorem upperIter_info_nonsingular (alpha : F) (n nb lda ldw k : ℤ)
    (s : LasyfState F)
    (h : ¬ max (upperAbsakk n nb ldw k (upperStageW n nb lda ldw k s.A s.w))
        (upperColmax n nb ldw k (upperStageW n nb lda ldw k s.A s.w)) = 0) :
    (upperIter alpha n nb lda ldw k s).1.info = s.info := by
  simp only [upperIter, if_neg h]

/-- A non-singular iteration leaves `info` unchanged (lower mode). -/
theorem lowerIter_info_nonsingular (alpha : F) (n lda ldw k : ℤ)
    (s : LasyfState F)
    (h : ¬ max (lowerAbsakk ldw k (lowerStageW n lda ldw k s.A s.w))
        (lowerColmax n ldw k (lowerStageW n lda ldw k s.A s.w)) = 0) :
    (lowerIter alpha n lda ldw k s).1.info = s.info := by
  simp only [lowerIter, if_neg h]

/-- The main loop's `info` output is the initial `info` if nonzero, else the
frontier index of the first singular trace event (upper mode). -/
theorem upperLoop_info (alpha : F) (n nb lda ldw : ℤ) :
    ∀ (fuel : ℕ) (k : ℤ) (s : LasyfState F),
      (upperLoop alpha n nb lda ldw fuel k s).1.info =
        if s.info = 0 then
          firstSingular (upperTrace alpha n nb lda ldw fuel k s)
        else s.info
  | 0, k, s => by
    show s.info = if s.info = 0 then firstSingular [] else s.info
    rw [firstSingular_nil]
    split_ifs with h
    · exact h
    · rfl
  | fuel + 1, k, s => by
    rw [upperLoop_succ, upperTrace_succ]
    by_cases hex : (k ≤ n - nb + 1 ∧ nb < n) ∨ k < 1
    · rw [if_pos hex, if_pos hex, firstSingular_nil, fst_pair]
      split_ifs with h
      · exact h
      · rfl
    · rw [if_neg hex, if_neg hex]
      have hk1 : 1 ≤ k := by
        rcases not_or.mp hex with ⟨-, h2⟩
        omega
      rw [upperLoop_info alpha n nb lda ldw fuel
        (k - (upperIter alpha n nb lda ldw k s).2)
        (upperIter alpha n nb lda ldw k s).1]
      by_cases hsing : max
          (upperAbsakk n nb ldw k (upperStageW n nb lda ldw k s.A s.w))
          (upperColmax n nb ldw k (upperStageW n nb lda ldw k s.A s.w)) = 0
      · rw [if_pos hsing, upperIter_singular alpha n nb lda ldw k s hsing]
        show (if (if s.info = 0 then k else s.info) = 0 then _ else
          (if s.info = 0 then k else s.info)) = _
        rw [firstSingular_cons_true]
        by_cases hs : s.info = 0
        · rw [if_pos hs, if_neg (by omega : ¬ k = 0)]
        · rw [if_neg hs, if_neg hs]
      · rw [if_neg hsing, upperIter_info_nonsingular alpha n nb lda ldw k s hsing,
          firstSingular_cons_false]
  termination_by fuel => fuel

/-- The main loop's `info` output is the initial `info` if nonzero, else the
frontier index of the first singular trace event (lower mode); the frontier
stays positive. -/
theorem lowerLoop_info (alpha : F) (n nb lda ldw : ℤ) :
    ∀ (fuel : ℕ) (k : ℤ) (s : LasyfState F), 1 ≤ k →
      (lowerLoop alpha n nb lda ldw fuel k s).1.info =
        if s.info = 0 then
          firstSingular (lowerTrace alpha n nb lda ldw fuel k s)
        else s.info
  | 0, k, s, _ => by
    show s.info = if s.info = 0 then firstSingular [] else s.info
    rw [firstSingular_nil]
    split_ifs with h
    · exact h
    · rfl
  | fuel + 1, k, s, hk1 => by
    rw [lowerLoop_succ, lowerTrace_succ]
    by_cases hex : (k ≥ nb ∧ nb < n) ∨ k > n
    · rw [if_pos hex, if_pos hex, firstSingular_nil, fst_pair]
      split_ifs with h
      · exact h
      · rfl
    · rw [if_neg hex, if_neg hex]
      have hks := lowerIter_kstep alpha n lda ldw k s
      rw [lowerLoop_info alpha n nb lda ldw fuel
        (k + (lowerIter alpha n lda ldw k s).2)
        (lowerIter alpha n lda ldw k s).1
        (by rcases hks with h | h <;> omega)]
      by_cases hsing : max
          (lowerAbsakk ldw k (lowerStageW n lda ldw k s.A s.w))
          (lowerColmax n ldw k (lowerStageW n lda ldw k s.A s.w)) = 0
      · rw [if_pos hsing, lowerIter_singular alpha n lda ldw k s hsing]
        show (if (if s.info = 0 then k else s.info) = 0 then _ else
          (if s.info = 0 then k else s.info)) = _
        rw [firstSingular_cons_true]
        by_cases hs : s.info = 0
        · rw [if_pos hs, if_neg (by omega : ¬ k = 0)]
        · rw [if_neg hs, if_neg hs]
      · rw [if_neg hsing, lowerIter_info_nonsingular alpha n lda ldw k s hsing,
          firstSingular_cons_false]
  termination_by fuel => fuel

/-- Claim C4: For every call of `Rlasyf` (either mode), the returned `info` is
0 when no exactly-zero staged pivot column is encountered, and otherwise the
frontier index `k` of the first such column in processing order (backward
from `n` in upper mode, forward from 1 in lower mode) — later zero columns
do not overwrite it: `info` equals `firstSingular` of the run's trace. -/
theorem c4_info_first_zero_column (alpha : F) (n nb lda ldw : ℤ) (A : Buf F)
    (ipiv : Buf ℤ) (w : Buf F) :
    (Rlasyf alpha true n nb A lda ipiv w ldw).info =
      firstSingular
        (upperTrace alpha n nb lda ldw (lasyfFuel n) n ⟨A, w, ipiv, 0⟩) ∧
    (Rlasyf alpha false n nb A lda ipiv w ldw).info =
      firstSingular
        (lowerTrace alpha n nb lda ldw (lasyfFuel n) 1 ⟨A, w, ipiv, 0⟩) := by
  constructor
  · show (RlasyfUpper alpha n nb lda ldw A ipiv w).info = _
    simp only [RlasyfUpper]
    rw [upperLoop_info alpha n nb lda ldw (lasyfFuel n) n ⟨A, w, ipiv, 0⟩]
    rfl
  · show (RlasyfLower alpha n nb lda ldw A ipiv w).info = _
    simp only [RlasyfLower]
    rw [lowerLoop_info alpha n nb lda ldw (lasyfFuel n) 1 ⟨A, w, ipiv, 0⟩
      (by norm_num)]
    rfl


/-- Past the first branch of the upper-mode pivot cascade the staged
`colmax` is nonzero, so `k ≥ 2` and `imax` is a genuine index in
`[1, k-1]`. -/
theorem upperImax_bounds_of_cascade (alpha : F) (n nb ldw k : ℤ) (w2 : Buf F)
    (h1 : ¬ upperAbsakk n nb ldw k w2 ≥ alpha * upperColmax n nb ldw k w2) :
    1 ≤ upperImax n nb ldw k w2 ∧ upperImax n nb ldw k w2 ≤ k - 1 := by
  have hc0 : upperColmax n nb ldw k w2 ≠ 0 := by
    intro h0
    rw [h0, mul_zero] at h1
    exact h1 (abs_nonneg _)
  have hk2 : 1 < k := by
    by_contra hle
    exact hc0 (by simp only [upperColmax, if_neg hle])
  have him := iRamax_bounds (k - 1) w2 ((upperKw n nb k - 1) * ldw) 1 (by omega)
  have himeq : upperImax n nb ldw k w2 =
      iRamax (k - 1) w2 ((upperKw n nb k - 1) * ldw) 1 := by
    simp only [upperImax, if_pos hk2]
  omega

/-- Past the first branch of the lower-mode pivot cascade the staged
`colmax` is nonzero, so `k < n` and `imax` is a genuine index in
`[k+1, n]`. -/
theorem lowerImax_bounds_of_cascade (alpha : F) (n ldw k : ℤ) (w2 : Buf F)
    (h1 : ¬ lowerAbsakk ldw k w2 ≥ alpha * lowerColmax n ldw k w2) :
    k + 1 ≤ lowerImax n ldw k w2 ∧ lowerImax n ldw k w2 ≤ n := by
  have hc0 : lowerColmax n ldw k w2 ≠ 0 := by
    intro h0
    rw [h0, mul_zero] at h1
    exact h1 (abs_nonneg _)
  have hk2 : k < n := by
    by_contra hle
    exact hc0 (by simp only [lowerColmax, if_neg hle])
  have him := iRamax_bounds (n - k) w2 (k + (k - 1) * ldw) 1 (by omega)
  have himeq : lowerImax n ldw k w2 =
      k + iRamax (n - k) w2 (k + (k - 1) * ldw) 1 := by
    simp only [lowerImax, if_pos hk2]
  omega

/-- The interchange partner returned by the upper-mode pivot decision lies
in `[1, k]`, and in `[1, k-1]` for a 2×2 pivot. -/
theorem upperPivot_kp_bounds (alpha : F) (n nb lda ldw k : ℤ) (A w2 : Buf F)
    (hk : 1 ≤ k) :
    1 ≤ (upperPivot alpha n nb lda ldw k A w2).1 ∧
      (upperPivot alpha n nb lda ldw k A w2).1 ≤ k ∧
      ((upperPivot alpha n nb lda ldw k A w2).2.1 = 2 →
        (upperPivot alpha n nb lda ldw k A w2).1 ≤ k - 1) := by
  simp only [upperPivot]
  split_ifs with h1 h2 h3 <;> simp only [fst_pair, snd_pair]
  · exact ⟨hk, le_refl k, by intro h; exact absurd h (by decide)⟩
  · exact ⟨hk, le_refl k, by intro h; exact absurd h (by decide)⟩
  · have him := upperImax_bounds_of_cascade alpha n nb ldw k w2 h1
    exact ⟨by omega, by omega, by intro h; exact absurd h (by decide)⟩
  · have him := upperImax_bounds_of_cascade alpha n nb ldw k w2 h1
    exact ⟨by omega, by omega, fun _ => by omega⟩

/-- The interchange partner returned by the lower-mode pivot decision lies
in `[k, n]`, and in `[k+1, n]` for a 2×2 pivot. -/
theorem lowerPivot_kp_bounds (alpha : F) (n lda ldw k : ℤ) (A w2 : Buf F)
    (hkn : k ≤ n) :
    k ≤ (lowerPivot alpha n lda ldw k A w2).1 ∧
      (lowerPivot alpha n lda ldw k A w2).1 ≤ n ∧
      ((lowerPivot alpha n lda ldw k A w2).2.1 = 2 →
        k + 1 ≤ (lowerPivot alpha n lda ldw k A w2).1) := by
  simp only [lowerPivot]
  split_ifs with h1 h2 h3 <;> simp only [fst_pair, snd_pair]
  · exact ⟨le_refl k, hkn, by intro h; exact absurd h (by decide)⟩
  · exact ⟨le_refl k, hkn, by intro h; exact absurd h (by decide)⟩
  · have him := lowerImax_bounds_of_cascade alpha n ldw k w2 h1
    exact ⟨by omega, by omega, by intro h; exact absurd h (by decide)⟩
  · have him := lowerImax_bounds_of_cascade alpha n ldw k w2 h1
    exact ⟨by omega, by omega, fun _ => by omega⟩

/-- At the last frontier column (`n ≤ k`) the lower-mode pivot decision
always accepts a 1×1 pivot at `k` (the off-diagonal `colmax` is 0). -/
theorem lowerPivot_at_n (alpha : F) (n lda ldw k : ℤ) (A w2 : Buf F)
    (hkn : n ≤ k) :
    (lowerPivot alpha n lda ldw k A w2).2.1 = 1 := by
  have hc0 : lowerColmax n ldw k w2 = 0 := by
    simp only [lowerColmax, if_neg (by omega : ¬ k < n)]
  have habs : lowerAbsakk ldw k w2 ≥ 0 := abs_nonneg _
  simp only [lowerPivot, hc0, mul_zero, if_pos habs, snd_pair, fst_pair]

/-- The upper-mode main loop never increases the frontier: its exit value is
at most the entry value. -/
theorem upperLoop_k_le (alpha : F) (n nb lda ldw : ℤ) :
    ∀ (fuel : ℕ) (k : ℤ) (s : LasyfState F),
      (upperLoop alpha n nb lda ldw fuel k s).2 ≤ k
  | 0, k, s => le_refl k
  | fuel + 1, k, s => by
    rw [upperLoop_succ]
    split_ifs with hex
    · exact le_refl k
    · have h1 := upperLoop_k_le alpha n nb lda ldw fuel
        (k - (upperIter alpha n nb lda ldw k s).2)
        (upperIter alpha n nb lda ldw k s).1
      have h2 := upperIter_kstep alpha n nb lda ldw k s
      rcases h2 with h | h <;> omega
  termination_by fuel => fuel

/-- The lower-mode main loop never decreases the frontier: its exit value is
at least the entry value. -/
theorem lowerLoop_k_ge (alpha : F) (n nb lda ldw : ℤ) :
    ∀ (fuel : ℕ) (k : ℤ) (s : LasyfState F),
      k ≤ (lowerLoop alpha n nb lda ldw fuel k s).2
  | 0, k, s => le_refl k
  | fuel + 1, k, s => by
    rw [lowerLoop_succ]
    split_ifs with hex
    · exact le_refl k
    · have h1 := lowerLoop_k_ge alpha n nb lda ldw fuel
        (k + (lowerIter alpha n lda ldw k s).2)
        (lowerIter alpha n lda ldw k s).1
      have h2 := lowerIter_kstep alpha n lda ldw k s
      rcases h2 with h | h <;> omega
  termination_by fuel => fuel

/-- One upper-mode iteration at frontier `k` writes `ipiv` only at the
0-based positions `k-1` (and `k-2` for a 2×2 pivot): every position at or
below `k - kstep - 1` is unchanged. -/
theorem upperIter_ipiv_frame (alpha : F) (n nb lda ldw k : ℤ)
    (s : LasyfState F) (i : ℤ)
    (hi : i ≤ k - (upperIter alpha n nb lda ldw k s).2 - 1) :
    (upperIter alpha n nb lda ldw k s).1.ipiv.get i = s.ipiv.get i := by
  by_cases hsing : max
      (upperAbsakk n nb ldw k (upperStageW n nb lda ldw k s.A s.w))
      (upperColmax n nb ldw k (upperStageW n nb lda ldw k s.A s.w)) = 0
  · rw [upperIter_singular alpha n nb lda ldw k s hsing] at hi ⊢
    simp only [fst_pair, snd_pair] at hi ⊢
    rw [store_get, if_neg (by omega : ¬ i = k - 1)]
  · have hks := upperPivot_kstep alpha n nb lda ldw k s.A
      (upperStageW n nb lda ldw k s.A s.w)
    simp only [upperIter, if_neg hsing, fst_pair, snd_pair] at hi ⊢
    rcases hks with h | h
    · rw [if_pos h]
      rw [h] at hi
      rw [store_get, if_neg (by omega : ¬ i = k - 1)]
    · rw [if_neg (by omega : ¬ (upperPivot alpha n nb lda ldw k s.A
        (upperStageW n nb lda ldw k s.A s.w)).2.1 = 1)]
      rw [h] at hi
      rw [store_get, if_neg (by omega : ¬ i = k - 2), store_get,
        if_neg (by omega : ¬ i = k - 1)]

/-- One lower-mode iteration at frontier `k` writes `ipiv` only at the
0-based positions `k-1` (and `k` for a 2×2 pivot): every position at or
above `k + kstep - 1` is unchanged. -/
theorem lowerIter_ipiv_frame (alpha : F) (n lda ldw k : ℤ)
    (s : LasyfState F) (i : ℤ)
    (hi : k + (lowerIter alpha n lda ldw k s).2 - 1 ≤ i) :
    (lowerIter alpha n lda ldw k s).1.ipiv.get i = s.ipiv.get i := by
  by_cases hsing : max
      (lowerAbsakk ldw k (lowerStageW n lda ldw k s.A s.w))
      (lowerColmax n ldw k (lowerStageW n lda ldw k s.A s.w)) = 0
  · rw [lowerIter_singular alpha n lda ldw k s hsing] at hi ⊢
    simp only [fst_pair, snd_pair] at hi ⊢
    rw [store_get, if_neg (by omega : ¬ i = k - 1)]
  · have hks := lowerPivot_kstep alpha n lda ldw k s.A
      (lowerStageW n lda ldw k s.A s.w)
    simp only [lowerIter, if_neg hsing, fst_pair, snd_pair] at hi ⊢
    rcases hks with h | h
    · rw [if_pos h]
      rw [h] at hi
      rw [store_get, if_neg (by omega : ¬ i = k - 1)]
    · rw [if_neg (by omega : ¬ (lowerPivot alpha n lda ldw k s.A
        (lowerStageW n lda ldw k s.A s.w)).2.1 = 1)]
      rw [h] at hi
      rw [store_get, if_neg (by omega : ¬ i = k), store_get,
        if_neg (by omega : ¬ i = k - 1)]

/-- The upper-mode main loop leaves `ipiv` unchanged at every 0-based
position at or below `kf - 1`, where `kf` is its exit frontier: the `ipiv`
entries of unprocessed columns are never written. -/
theorem upperLoop_ipiv_frame (alpha : F) (n nb lda ldw : ℤ) :
    ∀ (fuel : ℕ) (k : ℤ) (s : LasyfState F) (i : ℤ),
      i ≤ (upperLoop alpha n nb lda ldw fuel k s).2 - 1 →
      (upperLoop alpha n nb lda ldw fuel k s).1.ipiv.get i = s.ipiv.get i
  | 0, k, s, i, _ => rfl
  | fuel + 1, k, s, i, hi => by
    rw [upperLoop_succ] at hi ⊢
    split_ifs with hex
    · rfl
    · rw [if_neg hex] at hi
      have hle := upperLoop_k_le alpha n nb lda ldw fuel
        (k - (upperIter alpha n nb lda ldw k s).2)
        (upperIter alpha n nb lda ldw k s).1
      rw [upperLoop_ipiv_frame alpha n nb lda ldw fuel
        (k - (upperIter alpha n nb lda ldw k s).2)
        (upperIter alpha n nb lda ldw k s).1 i hi]
      exact upperIter_ipiv_frame alpha n nb lda ldw k s i (by omega)
  termination_by fuel => fuel

/-- The lower-mode main loop leaves `ipiv` unchanged at every 0-based
position at or above `kf - 1`, where `kf` is its exit frontier: the `ipiv`
entries of unprocessed columns are never written. -/
theorem lowerLoop_ipiv_frame (alpha : F) (n nb lda ldw : ℤ) :
    ∀ (fuel : ℕ) (k : ℤ) (s : LasyfState F) (i : ℤ),
      (lowerLoop alpha n nb lda ldw fuel k s).2 - 1 ≤ i →
      (lowerLoop alpha n nb lda ldw fuel k s).1.ipiv.get i = s.ipiv.get i
  | 0, k, s, i, _ => rfl
  | fuel + 1, k, s, i, hi => by
    rw [lowerLoop_succ] at hi ⊢
    split_ifs with hex
    · rfl
    · rw [if_neg hex] at hi
      have hge := lowerLoop_k_ge alpha n nb lda ldw fuel
        (k + (lowerIter alpha n lda ldw k s).2)
        (lowerIter alpha n lda ldw k s).1
      rw [lowerLoop_ipiv_frame alpha n nb lda ldw fuel
        (k + (lowerIter alpha n lda ldw k s).2)
        (lowerIter alpha n lda ldw k s).1 i hi]
      exact lowerIter_ipiv_frame alpha n lda ldw k s i (by omega)
  termination_by fuel => fuel

/-- The lower-mode interchange partner is positive whenever `1 ≤ k`
(no trailing-bound hypothesis needed). -/
theorem lowerPivot_kp_pos (alpha : F) (n lda ldw k : ℤ) (A w2 : Buf F)
    (hk : 1 ≤ k) : 1 ≤ (lowerPivot alpha n lda ldw k A w2).1 := by
  simp only [lowerPivot]
  split_ifs with h1 h2 h3 <;> simp only [fst_pair]
  · exact hk
  · exact hk
  · have him := lowerImax_bounds_of_cascade alpha n ldw k w2 h1
    omega
  · have him := lowerImax_bounds_of_cascade alpha n ldw k w2 h1
    omega

/-- Claim C6: `Rlasyf`'s `ipiv` records: at any frontier `k ≥ 1`, a singular
or 1×1 step stores exactly one entry, positive and equal to the interchange
partner `kp` (equal to `k` when there is none); a 2×2 step stores the same
negative value `-kp` in both of its two consecutive positions; and, at the
call level in both modes, the `ipiv` entries of unprocessed columns are
never written. -/
theorem c6_ipiv_entries (alpha : F) (n nb lda ldw k : ℤ) (s : LasyfState F)
    (A : Buf F) (ipiv : Buf ℤ) (w : Buf F) (hk : 1 ≤ k) :
    ((max (upperAbsakk n nb ldw k (upperStageW n nb lda ldw k s.A s.w)) (upperColmax n nb ldw k (upperStageW n nb lda ldw k s.A s.w)) = 0 →
        (upperIter alpha n nb lda ldw k s).1.ipiv = store s.ipiv (k - 1) k) ∧
      (¬ max (upperAbsakk n nb ldw k (upperStageW n nb lda ldw k s.A s.w)) (upperColmax n nb ldw k (upperStageW n nb lda ldw k s.A s.w)) = 0 →
        ((upperPivot alpha n nb lda ldw k s.A (upperStageW n nb lda ldw k s.A s.w)).2.1 = 1 →
          (upperIter alpha n nb lda ldw k s).1.ipiv =
              store s.ipiv (k - 1) (upperPivot alpha n nb lda ldw k s.A (upperStageW n nb lda ldw k s.A s.w)).1 ∧ 1 ≤ (upperPivot alpha n nb lda ldw k s.A (upperStageW n nb lda ldw k s.A s.w)).1) ∧
        ((upperPivot alpha n nb lda ldw k s.A (upperStageW n nb lda ldw k s.A s.w)).2.1 = 2 →
          (upperIter alpha n nb lda ldw k s).1.ipiv =
              store (store s.ipiv (k - 1) (-(upperPivot alpha n nb lda ldw k s.A (upperStageW n nb lda ldw k s.A s.w)).1)) (k - 2) (-(upperPivot alpha n nb lda ldw k s.A (upperStageW n nb lda ldw k s.A s.w)).1) ∧
            1 ≤ (upperPivot alpha n nb lda ldw k s.A (upperStageW n nb lda ldw k s.A s.w)).1))) ∧
    ((max (lowerAbsakk ldw k (lowerStageW n lda ldw k s.A s.w)) (lowerColmax n ldw k (lowerStageW n lda ldw k s.A s.w)) = 0 →
        (lowerIter alpha n lda ldw k s).1.ipiv = store s.ipiv (k - 1) k) ∧
      (¬ max (lowerAbsakk ldw k (lowerStageW n lda ldw k s.A s.w)) (lowerColmax n ldw k (lowerStageW n lda ldw k s.A s.w)) = 0 →
        ((lowerPivot alpha n lda ldw k s.A (lowerStageW n lda ldw k s.A s.w)).2.1 = 1 →
          (lowerIter alpha n lda ldw k s).1.ipiv =
              store s.ipiv (k - 1) (lowerPivot alpha n lda ldw k s.A (lowerStageW n lda ldw k s.A s.w)).1 ∧ 1 ≤ (lowerPivot alpha n lda ldw k s.A (lowerStageW n lda ldw k s.A s.w)).1) ∧
        ((lowerPivot alpha n lda ldw k s.A (lowerStageW n lda ldw k s.A s.w)).2.1 = 2 →
          (lowerIter alpha n lda ldw k s).1.ipiv =
              store (store s.ipiv (k - 1) (-(lowerPivot alpha n lda ldw k s.A (lowerStageW n lda ldw k s.A s.w)).1)) k (-(lowerPivot alpha n lda ldw k s.A (lowerStageW n lda ldw k s.A s.w)).1) ∧
            1 ≤ (lowerPivot alpha n lda ldw k s.A (lowerStageW n lda ldw k s.A s.w)).1))) ∧
    (∀ i : ℤ, i ≤ n - (Rlasyf alpha true n nb A lda ipiv w ldw).kb - 1 →
      (Rlasyf alpha true n nb A lda ipiv w ldw).ipiv.get i = ipiv.get i) ∧
    (∀ i : ℤ, (Rlasyf alpha false n nb A lda ipiv w ldw).kb ≤ i →
      (Rlasyf alpha false n nb A lda ipiv w ldw).ipiv.get i = ipiv.get i) := by
  refine ⟨⟨?_, ?_⟩, ⟨?_, ?_⟩, ?_, ?_⟩
  · intro hs
    rw [upperIter_singular alpha n nb lda ldw k s hs]
  · intro hns
    constructor
    · intro h1
      refine ⟨?_, (upperPivot_kp_bounds alpha n nb lda ldw k s.A _ hk).1⟩
      simp only [upperIter, if_neg hns, fst_pair]
      rw [if_pos h1]
    · intro h2
      refine ⟨?_, (upperPivot_kp_bounds alpha n nb lda ldw k s.A _ hk).1⟩
      simp only [upperIter, if_neg hns, fst_pair]
      rw [if_neg (by omega : ¬ (upperPivot alpha n nb lda ldw k s.A (upperStageW n nb lda ldw k s.A s.w)).2.1 = 1)]
  · intro hs
    rw [lowerIter_singular alpha n lda ldw k s hs]
  · intro hns
    constructor
    · intro h1
      refine ⟨?_, lowerPivot_kp_pos alpha n lda ldw k s.A _ hk⟩
      simp only [lowerIter, if_neg hns, fst_pair]
      rw [if_pos h1]
    · intro h2
      refine ⟨?_, lowerPivot_kp_pos alpha n lda ldw k s.A _ hk⟩
      simp only [lowerIter, if_neg hns, fst_pair]
      rw [if_neg (by omega : ¬ (lowerPivot alpha n lda ldw k s.A (lowerStageW n lda ldw k s.A s.w)).2.1 = 1)]
  · intro i hi
    have hkb : (Rlasyf alpha true n nb A lda ipiv w ldw).kb =
        n - (upperLoop alpha n nb lda ldw (lasyfFuel n) n ⟨A, w, ipiv, 0⟩).2 := rfl
    have hip : (Rlasyf alpha true n nb A lda ipiv w ldw).ipiv =
        (upperLoop alpha n nb lda ldw (lasyfFuel n) n ⟨A, w, ipiv, 0⟩).1.ipiv := rfl
    rw [hip]
    exact upperLoop_ipiv_frame alpha n nb lda ldw (lasyfFuel n) n ⟨A, w, ipiv, 0⟩
      i (by rw [hkb] at hi; omega)
  · intro i hi
    have hkb : (Rlasyf alpha false n nb A lda ipiv w ldw).kb =
        (lowerLoop alpha n nb lda ldw (lasyfFuel n) 1 ⟨A, w, ipiv, 0⟩).2 - 1 := rfl
    have hip : (Rlasyf alpha false n nb A lda ipiv w ldw).ipiv =
        (lowerLoop alpha n nb lda ldw (lasyfFuel n) 1 ⟨A, w, ipiv, 0⟩).1.ipiv := rfl
    rw [hip]
    exact lowerLoop_ipiv_frame alpha n nb lda ldw (lasyfFuel n) 1 ⟨A, w, ipiv, 0⟩
      i (by rw [hkb] at hi; omega)

/-- Witness for C6: on the 1×1 zero matrix (upper mode, `k = 1`) the
singular step stores the single positive entry `ipiv[1] = 1`. -/
theorem c6_ipiv_entries_witness :
    (1 : ℤ) ≤ 1 ∧
    (upperIter (2 : ℚ) 1 1 1 1 1 ⟨zeroBufQ, zeroBufQ, zeroPivQ, 0⟩).1.ipiv =
      store zeroPivQ 0 1 := by
  refine ⟨by decide, ?_⟩
  have h := c6_ipiv_entries (F := ℚ) 2 1 1 1 1 1
    ⟨zeroBufQ, zeroBufQ, zeroPivQ, 0⟩ zeroBufQ zeroPivQ zeroBufQ (by decide)
  have hs : max (upperAbsakk 1 1 1 1 (upperStageW 1 1 1 1 1 zeroBufQ zeroBufQ))
      (upperColmax 1 1 1 1 (upperStageW 1 1 1 1 1 zeroBufQ zeroBufQ)) = 0 := by
    norm_num [upperAbsakk, upperColmax, upperStageW, upperKw, Rcopy, zeroBufQ,
      store, Buf_get_mk, range_zero, range_one, toNat_zero, toNat_one, max_def]
  exact h.1.1 hs

/-- In a column-major buffer with `n ≤ lda`, the flat index of an entry
strictly below the diagonal of the `n`×`n` view (row `i` > column `j`)
differs from the flat index of any entry at or above the diagonal
(row `r` ≤ column `c`). -/
theorem below_ne_flat (lda n i j r c : ℤ) (hnl : n ≤ lda) (hj : 1 ≤ j)
    (hji : j < i) (hin : i ≤ n) (hr : 1 ≤ r) (hrc : r ≤ c) (hcn : c ≤ n) :
    (i - 1) + (j - 1) * lda ≠ (r - 1) + (c - 1) * lda := by
  intro heq
  have hlda1 : 1 ≤ lda := by omega
  have hd : i - r = (c - j) * lda := by linarith
  rcases lt_trichotomy j c with hlt | hEq | hgt
  · have h1 : 1 * lda ≤ (c - j) * lda :=
      mul_le_mul_of_nonneg_right (by omega) (by omega)
    linarith
  · have h0 : i - r = 0 := by
      rw [hEq] at hd
      simpa using hd
    omega
  · have h1 : (c - j) * lda ≤ (-1) * lda :=
      mul_le_mul_of_nonneg_right (by omega) (by omega)
    linarith

/-- In a column-major buffer with `n ≤ lda`, the flat index of an entry
strictly above the diagonal of the `n`×`n` view (row `i` < column `j`)
differs from the flat index of any entry at or below the diagonal
(row `r` ≥ column `c`). -/
theorem above_ne_flat (lda n i j r c : ℤ) (hnl : n ≤ lda) (hi : 1 ≤ i)
    (hij : i < j) (hjn : j ≤ n) (hc : 1 ≤ c) (hcr : c ≤ r) (hrn : r ≤ n) :
    (i - 1) + (j - 1) * lda ≠ (r - 1) + (c - 1) * lda := by
  intro heq
  have hlda1 : 1 ≤ lda := by omega
  have hd : i - r = (c - j) * lda := by linarith
  rcases lt_trichotomy j c with hlt | hEq | hgt
  · have h1 : 1 * lda ≤ (c - j) * lda :=
      mul_le_mul_of_nonneg_right (by omega) (by omega)
    linarith
  · have h0 : i - r = 0 := by
      rw [hEq] at hd
      simpa using hd
    omega
  · have h1 : (c - j) * lda ≤ (-1) * lda :=
      mul_le_mul_of_nonneg_right (by omega) (by omega)
    linarith

/-- The upper-mode interchange writes `A` only at positions with row index
at most the column index: entries strictly below the diagonal of the
`n`×`n` view are unchanged. -/
theorem upperInterchange_get_below (n nb lda ldw k kp kstep : ℤ)
    (A w3 : Buf F) (i j : ℤ) (hnl : n ≤ lda) (hj : 1 ≤ j) (hji : j < i)
    (hin : i ≤ n) (hkp1 : 1 ≤ kp) (hkpkk : kp ≤ k - kstep + 1)
    (hks : kstep = 1 ∨ kstep = 2) (hkn : k ≤ n) :
    (upperInterchange n nb lda ldw k kp kstep A w3).1.get
        ((i - 1) + (j - 1) * lda) =
      A.get ((i - 1) + (j - 1) * lda) := by
  simp only [upperInterchange]
  split_ifs with hne
  · simp only [fst_pair]
    refine (Rswap_get_ne _ _ _ _ _ _ _ ?_).trans
      ((Rcopy_get_ne _ _ _ _ _ _ _ _ ?_).trans
        ((Rcopy_get_ne _ _ _ _ _ _ _ _ ?_).trans ?_))
    · intro t ht0 htn
      constructor
      · have hb := below_ne_flat lda n i j (k - kstep + 1) (k - kstep + 1 + t)
          hnl hj hji hin (by omega) (by omega) (by omega)
        have he : (k - kstep + 1 - 1) + (k - kstep + 1 + t - 1) * lda =
            (k - kstep + 1 - 1) + (k - kstep + 1 - 1) * lda + t * lda := by ring
        exact he ▸ hb
      · have hb := below_ne_flat lda n i j kp (k - kstep + 1 + t)
          hnl hj hji hin (by omega) (by omega) (by omega)
        have he : (kp - 1) + (k - kstep + 1 + t - 1) * lda =
            (kp - 1) + (k - kstep + 1 - 1) * lda + t * lda := by ring
        exact he ▸ hb
    · intro t ht0 htn
      have hb := below_ne_flat lda n i j (t + 1) kp hnl hj hji hin
        (by omega) (by omega) (by omega)
      have he : (t + 1 - 1) + (kp - 1) * lda = (kp - 1) * lda + t * 1 := by ring
      exact he ▸ hb
    · intro t ht0 htn
      have hb := below_ne_flat lda n i j kp (kp + 1 + t) hnl hj hji hin
        (by omega) (by omega) (by omega)
      have he : (kp - 1) + (kp + 1 + t - 1) * lda =
          (kp - 1) + kp * lda + t * lda := by ring
      exact he ▸ hb
    · have hb := below_ne_flat lda n i j kp k hnl hj hji hin
        (by omega) (by omega) (by omega)
      rw [store_get, if_neg hb]
  · rfl


/-- The upper-mode commit writes `A` only in columns `k-1` and `k` at rows
at most the column index: entries strictly below the diagonal of the
`n`×`n` view are unchanged. -/
theorem upperCommit_get_below (n nb lda ldw k kstep : ℤ) (Ab w4 : Buf F)
    (i j : ℤ) (hnl : n ≤ lda) (hj : 1 ≤ j) (hji : j < i) (hin : i ≤ n)
    (hk1 : 1 ≤ k) (hkn : k ≤ n) (hk2 : kstep = 1 ∨ 2 ≤ k) :
    (upperCommit n nb lda ldw k kstep Ab w4).get ((i - 1) + (j - 1) * lda) =
      Ab.get ((i - 1) + (j - 1) * lda) := by
  have hb8 : (i - 1) + (j - 1) * lda ≠ (k - 1) + (k - 1) * lda :=
    below_ne_flat lda n i j k k hnl hj hji hin (by omega) (by omega) (by omega)
  simp only [upperCommit]
  split_ifs with h1 h2
  · refine (Rscal_get_ne _ _ _ _ _ _ ?_).trans
      (Rcopy_get_ne _ _ _ _ _ _ _ _ ?_)
    · intro t ht0 htn
      have hb := below_ne_flat lda n i j (t + 1) k hnl hj hji hin
        (by omega) (by omega) (by omega)
      have he : (t + 1 - 1) + (k - 1) * lda = (k - 1) * lda + t * 1 := by ring
      exact he ▸ hb
    · intro t ht0 htn
      have hb := below_ne_flat lda n i j (t + 1) k hnl hj hji hin
        (by omega) (by omega) (by omega)
      have he : (t + 1 - 1) + (k - 1) * lda = (k - 1) * lda + t * 1 := by ring
      exact he ▸ hb
  · have hkk2 : 2 ≤ k := by
      rcases hk2 with h | h
      · exact absurd h h1
      · exact h
    have hb7 : (i - 1) + (j - 1) * lda ≠ (k - 2) + (k - 1) * lda := by
      have hb := below_ne_flat lda n i j (k - 1) k hnl hj hji hin
        (by omega) (by omega) (by omega)
      have he : (k - 1 - 1) + (k - 1) * lda = (k - 2) + (k - 1) * lda := by ring
      exact he ▸ hb
    have hb6 : (i - 1) + (j - 1) * lda ≠ (k - 2) + (k - 2) * lda := by
      have hb := below_ne_flat lda n i j (k - 1) (k - 1) hnl hj hji hin
        (by omega) (by omega) (by omega)
      have he : (k - 1 - 1) + (k - 1 - 1) * lda = (k - 2) + (k - 2) * lda := by
        ring
      exact he ▸ hb
    rw [store_get, if_neg hb8, store_get, if_neg hb7, store_get, if_neg hb6]
    refine foldl_get_of_not_written _ _ _ _ ?_
    intro b t ht
    have htb : (t : ℤ) < k - 2 := by
      have := List.mem_range.mp ht
      omega
    have hba : (i - 1) + (j - 1) * lda ≠ (t : ℤ) + (k - 1) * lda := by
      have hb := below_ne_flat lda n i j ((t : ℤ) + 1) k hnl hj hji hin
        (by omega) (by omega) (by omega)
      have he : ((t : ℤ) + 1 - 1) + (k - 1) * lda = (t : ℤ) + (k - 1) * lda := by
        ring
      exact he ▸ hb
    have hbb : (i - 1) + (j - 1) * lda ≠ (t : ℤ) + (k - 2) * lda := by
      have hb := below_ne_flat lda n i j ((t : ℤ) + 1) (k - 1) hnl hj hji hin
        (by omega) (by omega) (by omega)
      have he : ((t : ℤ) + 1 - 1) + (k - 1 - 1) * lda =
          (t : ℤ) + (k - 2) * lda := by ring
      exact he ▸ hb
    rw [store_get, if_neg hba, store_get, if_neg hbb]
  · have hkk2 : 2 ≤ k := by
      rcases hk2 with h | h
      · exact absurd h h1
      · exact h
    have hb7 : (i - 1) + (j - 1) * lda ≠ (k - 2) + (k - 1) * lda := by
      have hb := below_ne_flat lda n i j (k - 1) k hnl hj hji hin
        (by omega) (by omega) (by omega)
      have he : (k - 1 - 1) + (k - 1) * lda = (k - 2) + (k - 1) * lda := by ring
      exact he ▸ hb
    have hb6 : (i - 1) + (j - 1) * lda ≠ (k - 2) + (k - 2) * lda := by
      have hb := below_ne_flat lda n i j (k - 1) (k - 1) hnl hj hji hin
        (by omega) (by omega) (by omega)
      have he : (k - 1 - 1) + (k - 1 - 1) * lda = (k - 2) + (k - 2) * lda := by
        ring
      exact he ▸ hb
    rw [store_get, if_neg hb8, store_get, if_neg hb7, store_get, if_neg hb6]

/-- One upper-mode iteration never writes `A` strictly below the diagonal
of the `n`×`n` view. -/
theorem upperIter_A_frame (alpha : F) (n nb lda ldw k : ℤ) (s : LasyfState F)
    (i j : ℤ) (hnl : n ≤ lda) (hj : 1 ≤ j) (hji : j < i) (hin : i ≤ n)
    (hk1 : 1 ≤ k) (hkn : k ≤ n) :
    (upperIter alpha n nb lda ldw k s).1.A.get ((i - 1) + (j - 1) * lda) =
      s.A.get ((i - 1) + (j - 1) * lda) := by
  by_cases hsing : max
      (upperAbsakk n nb ldw k (upperStageW n nb lda ldw k s.A s.w))
      (upperColmax n nb ldw k (upperStageW n nb lda ldw k s.A s.w)) = 0
  · rw [upperIter_singular alpha n nb lda ldw k s hsing]
  · simp only [upperIter, if_neg hsing, fst_pair]
    obtain ⟨hp1, hpk, hp2⟩ := upperPivot_kp_bounds alpha n nb lda ldw k s.A
      (upperStageW n nb lda ldw k s.A s.w) hk1
    have hks := upperPivot_kstep alpha n nb lda ldw k s.A
      (upperStageW n nb lda ldw k s.A s.w)
    refine (upperCommit_get_below n nb lda ldw k _ _ _ i j hnl hj hji hin hk1
        hkn ?_).trans
      (upperInterchange_get_below n nb lda ldw k _ _ _ _ i j hnl hj hji hin
        hp1 ?_ hks hkn)
    · rcases hks with h | h
      · exact Or.inl h
      · have := hp2 h
        exact Or.inr (by omega)
    · rcases hks with h | h
      · rw [h]
        omega
      · have := hp2 h
        rw [h]
        omega

/-- The lower-mode interchange writes `A` only at positions with row index
at least the column index: entries strictly above the diagonal of the
`n`×`n` view are unchanged. -/
theorem lowerInterchange_get_above (n lda ldw k kp kstep : ℤ)
    (A w3 : Buf F) (i j : ℤ) (hnl : n ≤ lda) (hi : 1 ≤ i) (hij : i < j)
    (hjn : j ≤ n) (hk1 : 1 ≤ k) (hkpn : kp ≤ n)
    (hkkkp : k + kstep - 1 ≤ kp) (hks : kstep = 1 ∨ kstep = 2) :
    (lowerInterchange n lda ldw k kp kstep A w3).1.get
        ((i - 1) + (j - 1) * lda) =
      A.get ((i - 1) + (j - 1) * lda) := by
  simp only [lowerInterchange]
  split_ifs with hne
  · simp only [fst_pair]
    refine (Rswap_get_ne _ _ _ _ _ _ _ ?_).trans
      ((Rcopy_get_ne _ _ _ _ _ _ _ _ ?_).trans
        ((Rcopy_get_ne _ _ _ _ _ _ _ _ ?_).trans ?_))
    · intro t ht0 htn
      constructor
      · have hb := above_ne_flat lda n i j (k + kstep - 1) (t + 1)
          hnl hi hij hjn (by omega) (by omega) (by omega)
        have he : (k + kstep - 1 - 1) + (t + 1 - 1) * lda =
            (k + kstep - 1 - 1) + t * lda := by ring
        exact he ▸ hb
      · have hb := above_ne_flat lda n i j kp (t + 1)
          hnl hi hij hjn (by omega) (by omega) (by omega)
        have he : (kp - 1) + (t + 1 - 1) * lda = (kp - 1) + t * lda := by ring
        exact he ▸ hb
    · intro t ht0 htn
      have hb := above_ne_flat lda n i j (kp + t) kp hnl hi hij hjn
        (by omega) (by omega) (by omega)
      have he : (kp + t - 1) + (kp - 1) * lda =
          (kp - 1) + (kp - 1) * lda + t * 1 := by ring
      exact he ▸ hb
    · intro t ht0 htn
      have hb := above_ne_flat lda n i j kp (k + 1 + t) hnl hi hij hjn
        (by omega) (by omega) (by omega)
      have he : (kp - 1) + (k + 1 + t - 1) * lda =
          (kp - 1) + k * lda + t * lda := by ring
      exact he ▸ hb
    · have hb := above_ne_flat lda n i j kp k hnl hi hij hjn
        (by omega) (by omega) (by omega)
      rw [store_get, if_neg hb]
  · rfl

/-- The lower-mode commit writes `A` only in columns `k` and `k+1` at rows
at least the column index: entries strictly above the diagonal of the
`n`×`n` view are unchanged. -/
theorem lowerCommit_get_above (n lda ldw k kstep : ℤ) (Ab w4 : Buf F)
    (i j : ℤ) (hnl : n ≤ lda) (hi : 1 ≤ i) (hij : i < j) (hjn : j ≤ n)
    (hk1 : 1 ≤ k) (hkn : k ≤ n) (hk2 : kstep = 1 ∨ k + 1 ≤ n) :
    (lowerCommit n lda ldw k kstep Ab w4).get ((i - 1) + (j - 1) * lda) =
      Ab.get ((i - 1) + (j - 1) * lda) := by
  have hb8 : (i - 1) + (j - 1) * lda ≠ (k - 1) + (k - 1) * lda :=
    above_ne_flat lda n i j k k hnl hi hij hjn (by omega) (by omega) (by omega)
  simp only [lowerCommit]
  split_ifs with h1 h2 h3
  · refine (Rscal_get_ne _ _ _ _ _ _ ?_).trans
      (Rcopy_get_ne _ _ _ _ _ _ _ _ ?_)
    · intro t ht0 htn
      have hb := above_ne_flat lda n i j (k + 1 + t) k hnl hi hij hjn
        (by omega) (by omega) (by omega)
      have he : (k + 1 + t - 1) + (k - 1) * lda =
          k + (k - 1) * lda + t * 1 := by ring
      exact he ▸ hb
    · intro t ht0 htn
      have hb := above_ne_flat lda n i j (k + t) k hnl hi hij hjn
        (by omega) (by omega) (by omega)
      have he : (k + t - 1) + (k - 1) * lda =
          (k - 1) + (k - 1) * lda + t * 1 := by ring
      exact he ▸ hb
  · refine Rcopy_get_ne _ _ _ _ _ _ _ _ ?_
    intro t ht0 htn
    have hb := above_ne_flat lda n i j (k + t) k hnl hi hij hjn
      (by omega) (by omega) (by omega)
    have he : (k + t - 1) + (k - 1) * lda =
        (k - 1) + (k - 1) * lda + t * 1 := by ring
    exact he ▸ hb
  · -- 2x2 commit with a nontrivial solve loop
    have hkn1 : k + 1 ≤ n := by
      rcases hk2 with h | h
      · exact absurd h h1
      · exact h
    have hb7 : (i - 1) + (j - 1) * lda ≠ k + (k - 1) * lda := by
      have hb := above_ne_flat lda n i j (k + 1) k hnl hi hij hjn
        (by omega) (by omega) (by omega)
      have he : (k + 1 - 1) + (k - 1) * lda = k + (k - 1) * lda := by ring
      exact he ▸ hb
    have hb6 : (i - 1) + (j - 1) * lda ≠ k + k * lda := by
      have hb := above_ne_flat lda n i j (k + 1) (k + 1) hnl hi hij hjn
        (by omega) (by omega) (by omega)
      have he : (k + 1 - 1) + (k + 1 - 1) * lda = k + k * lda := by ring
      exact he ▸ hb
    rw [store_get, if_neg hb6, store_get, if_neg hb7, store_get, if_neg hb8]
    refine foldl_get_of_not_written _ _ _ _ ?_
    intro b t ht
    have htb : (t : ℤ) < n - k - 1 := by
      have := List.mem_range.mp ht
      omega
    have hba : (i - 1) + (j - 1) * lda ≠ (k + 1 + (t : ℤ)) + k * lda := by
      have hb := above_ne_flat lda n i j (k + 2 + (t : ℤ)) (k + 1) hnl hi hij
        hjn (by omega) (by omega) (by omega)
      have he : (k + 2 + (t : ℤ) - 1) + (k + 1 - 1) * lda =
          (k + 1 + (t : ℤ)) + k * lda := by ring
      exact he ▸ hb
    have hbb : (i - 1) + (j - 1) * lda ≠ (k + 1 + (t : ℤ)) + (k - 1) * lda := by
      have hb := above_ne_flat lda n i j (k + 2 + (t : ℤ)) k hnl hi hij hjn
        (by omega) (by omega) (by omega)
      have he : (k + 2 + (t : ℤ) - 1) + (k - 1) * lda =
          (k + 1 + (t : ℤ)) + (k - 1) * lda := by ring
      exact he ▸ hb
    rw [store_get, if_neg hba, store_get, if_neg hbb]
  · -- 2x2 commit with an empty solve loop
    have hkn1 : k + 1 ≤ n := by
      rcases hk2 with h | h
      · exact absurd h h1
      · exact h
    have hb7 : (i - 1) + (j - 1) * lda ≠ k + (k - 1) * lda := by
      have hb := above_ne_flat lda n i j (k + 1) k hnl hi hij hjn
        (by omega) (by omega) (by omega)
      have he : (k + 1 - 1) + (k - 1) * lda = k + (k - 1) * lda := by ring
      exact he ▸ hb
    have hb6 : (i - 1) + (j - 1) * lda ≠ k + k * lda := by
      have hb := above_ne_flat lda n i j (k + 1) (k + 1) hnl hi hij hjn
        (by omega) (by omega) (by omega)
      have he : (k + 1 - 1) + (k + 1 - 1) * lda = k + k * lda := by ring
      exact he ▸ hb
    rw [store_get, if_neg hb6, store_get, if_neg hb7, store_get, if_neg hb8]

/-- One lower-mode iteration never writes `A` strictly above the diagonal
of the `n`×`n` view. -/
theorem lowerIter_A_frame (alpha : F) (n lda ldw k : ℤ) (s : LasyfState F)
    (i j : ℤ) (hnl : n ≤ lda) (hi : 1 ≤ i) (hij : i < j) (hjn : j ≤ n)
    (hk1 : 1 ≤ k) (hkn : k ≤ n) :
    (lowerIter alpha n lda ldw k s).1.A.get ((i - 1) + (j - 1) * lda) =
      s.A.get ((i - 1) + (j - 1) * lda) := by
  by_cases hsing : max
      (lowerAbsakk ldw k (lowerStageW n lda ldw k s.A s.w))
      (lowerColmax n ldw k (lowerStageW n lda ldw k s.A s.w)) = 0
  · rw [lowerIter_singular alpha n lda ldw k s hsing]
  · simp only [lowerIter, if_neg hsing, fst_pair]
    obtain ⟨hpk, hpn, hp2⟩ := lowerPivot_kp_bounds alpha n lda ldw k s.A
      (lowerStageW n lda ldw k s.A s.w) hkn
    have hks := lowerPivot_kstep alpha n lda ldw k s.A
      (lowerStageW n lda ldw k s.A s.w)
    refine (lowerCommit_get_above n lda ldw k _ _ _ i j hnl hi hij hjn hk1
        hkn ?_).trans
      (lowerInterchange_get_above n lda ldw k _ _ _ _ i j hnl hi hij hjn hk1
        hpn ?_ hks)
    · rcases hks with h | h
      · exact Or.inl h
      · have := hp2 h
        exact Or.inr (by omega)
    · rcases hks with h | h
      · rw [h]
        omega
      · have := hp2 h
        rw [h]
        omega

/-- A 2×2 step implies `k ≥ 2` (upper mode): the 2×2 interchange partner
lies in `[1, k-1]`. -/
theorem upperIter_kstep2 (alpha : F) (n nb lda ldw k : ℤ) (s : LasyfState F)
    (h2 : (upperIter alpha n nb lda ldw k s).2 = 2) (hk1 : 1 ≤ k) :
    2 ≤ k := by
  by_cases hsing : max
      (upperAbsakk n nb ldw k (upperStageW n nb lda ldw k s.A s.w))
      (upperColmax n nb ldw k (upperStageW n nb lda ldw k s.A s.w)) = 0
  · rw [upperIter_singular alpha n nb lda ldw k s hsing] at h2
    simp at h2
  · simp only [upperIter, if_neg hsing, snd_pair] at h2
    obtain ⟨hp1, -, hp2⟩ := upperPivot_kp_bounds alpha n nb lda ldw k s.A
      (upperStageW n nb lda ldw k s.A s.w) hk1
    have := hp2 h2
    omega

/-- A 2×2 step implies `k ≤ n - 1` (lower mode): the 2×2 interchange
partner lies in `[k+1, n]`. -/
theorem lowerIter_kstep2 (alpha : F) (n lda ldw k : ℤ) (s : LasyfState F)
    (h2 : (lowerIter alpha n lda ldw k s).2 = 2) (hkn : k ≤ n) :
    k + 1 ≤ n := by
  by_cases hsing : max
      (lowerAbsakk ldw k (lowerStageW n lda ldw k s.A s.w))
      (lowerColmax n ldw k (lowerStageW n lda ldw k s.A s.w)) = 0
  · rw [lowerIter_singular alpha n lda ldw k s hsing] at h2
    simp at h2
  · simp only [lowerIter, if_neg hsing, snd_pair] at h2
    obtain ⟨-, hpn, hp2⟩ := lowerPivot_kp_bounds alpha n lda ldw k s.A
      (lowerStageW n lda ldw k s.A s.w) hkn
    have := hp2 h2
    omega

/-- The upper-mode main loop's exit frontier is nonnegative when the entry
frontier is. -/
theorem upperLoop_k_nonneg (alpha : F) (n nb lda ldw : ℤ) :
    ∀ (fuel : ℕ) (k : ℤ) (s : LasyfState F), 0 ≤ k →
      0 ≤ (upperLoop alpha n nb lda ldw fuel k s).2
  | 0, k, s, hk => hk
  | fuel + 1, k, s, hk => by
    rw [upperLoop_succ]
    split_ifs with hex
    · exact hk
    · have hk1 : 1 ≤ k := by
        rcases not_or.mp hex with ⟨-, h2⟩
        omega
      rcases upperIter_kstep alpha n nb lda ldw k s with h | h
      · exact upperLoop_k_nonneg alpha n nb lda ldw fuel _ _ (by omega)
      · have := upperIter_kstep2 alpha n nb lda ldw k s h hk1
        exact upperLoop_k_nonneg alpha n nb lda ldw fuel _ _ (by omega)
  termination_by fuel => fuel

/-- The lower-mode main loop's exit frontier is at most `n + 1` when the
entry frontier is. -/
theorem lowerLoop_k_le_succ (alpha : F) (n nb lda ldw : ℤ) :
    ∀ (fuel : ℕ) (k : ℤ) (s : LasyfState F), k ≤ n + 1 →
      (lowerLoop alpha n nb lda ldw fuel k s).2 ≤ n + 1
  | 0, k, s, hk => hk
  | fuel + 1, k, s, hk => by
    rw [lowerLoop_succ]
    split_ifs with hex
    · exact hk
    · have hkn : k ≤ n := by
        rcases not_or.mp hex with ⟨-, h2⟩
        omega
      rcases lowerIter_kstep alpha n lda ldw k s with h | h
      · exact lowerLoop_k_le_succ alpha n nb lda ldw fuel _ _ (by omega)
      · have := lowerIter_kstep2 alpha n lda ldw k s h hkn
        exact lowerLoop_k_le_succ alpha n nb lda ldw fuel _ _ (by omega)
  termination_by fuel => fuel

/-- The upper-mode main loop never writes `A` strictly below the diagonal
of the `n`×`n` view. -/
theorem upperLoop_A_frame (alpha : F) (n nb lda ldw : ℤ) (i j : ℤ)
    (hnl : n ≤ lda) (hj : 1 ≤ j) (hji : j < i) (hin : i ≤ n) :
    ∀ (fuel : ℕ) (k : ℤ) (s : LasyfState F), k ≤ n →
      (upperLoop alpha n nb lda ldw fuel k s).1.A.get ((i - 1) + (j - 1) * lda) =
        s.A.get ((i - 1) + (j - 1) * lda)
  | 0, k, s, _ => rfl
  | fuel + 1, k, s, hkn => by
    rw [upperLoop_succ]
    split_ifs with hex
    · rfl
    · have hk1 : 1 ≤ k := by
        rcases not_or.mp hex with ⟨-, h2⟩
        omega
      rw [upperLoop_A_frame alpha n nb lda ldw i j hnl hj hji hin fuel
        (k - (upperIter alpha n nb lda ldw k s).2)
        (upperIter alpha n nb lda ldw k s).1
        (by rcases upperIter_kstep alpha n nb lda ldw k s with h | h <;> omega)]
      exact upperIter_A_frame alpha n nb lda ldw k s i j hnl hj hji hin hk1 hkn
  termination_by fuel => fuel

/-- The lower-mode main loop never writes `A` strictly above the diagonal
of the `n`×`n` view. -/
theorem lowerLoop_A_frame (alpha : F) (n nb lda ldw : ℤ) (i j : ℤ)
    (hnl : n ≤ lda) (hi : 1 ≤ i) (hij : i < j) (hjn : j ≤ n) :
    ∀ (fuel : ℕ) (k : ℤ) (s : LasyfState F), 1 ≤ k →
      (lowerLoop alpha n nb lda ldw fuel k s).1.A.get ((i - 1) + (j - 1) * lda) =
        s.A.get ((i - 1) + (j - 1) * lda)
  | 0, k, s, _ => rfl
  | fuel + 1, k, s, hk1 => by
    rw [lowerLoop_succ]
    split_ifs with hex
    · rfl
    · have hkn : k ≤ n := by
        rcases not_or.mp hex with ⟨-, h2⟩
        omega
      rw [lowerLoop_A_frame alpha n nb lda ldw i j hnl hi hij hjn fuel
        (k + (lowerIter alpha n lda ldw k s).2)
        (lowerIter alpha n lda ldw k s).1
        (by rcases lowerIter_kstep alpha n lda ldw k s with h | h <;> omega)]
      exact lowerIter_A_frame alpha n lda ldw k s i j hnl hi hij hjn hk1 hkn
  termination_by fuel => fuel

/-- The upper-mode trailing-panel update writes only rows `≤ kf` at columns
`≥` their row: entries strictly below the diagonal of the `n`×`n` view are
unchanged. -/
theorem upperUpdLoop_get_below (n nb lda ldw kf kwf : ℤ) (wf : Buf F)
    (i j : ℤ) (hnl : n ≤ lda) (hj : 1 ≤ j) (hji : j < i) (hin : i ≤ n)
    (hkfn : kf ≤ n) :
    ∀ (fuel : ℕ) (j0 : ℤ) (Ab : Buf F),
      (upperUpdLoop n nb lda ldw kf kwf wf fuel j0 Ab).get
          ((i - 1) + (j - 1) * lda) =
        Ab.get ((i - 1) + (j - 1) * lda)
  | 0, j0, Ab => rfl
  | fuel + 1, j0, Ab => by
    rw [upperUpdLoop_succ]
    split_ifs with hge
    · rw [upperUpdLoop_get_below n nb lda ldw kf kwf wf i j hnl hj hji hin
        hkfn fuel (j0 - nb) _]
      refine (Rgemm_get_ne _ _ _ _ _ _ _ _ _ _ _ _ _ _ _ ?_).trans ?_
      · intro r c hr0 hrm hc0 hcn2
        have hb := below_ne_flat lda n i j (r + 1) (j0 + c) hnl hj hji hin
          (by omega) (by omega) (by omega)
        have he : (r + 1 - 1) + (j0 + c - 1) * lda =
            (j0 - 1) * lda + r + c * lda := by ring
        exact he ▸ hb
      · refine foldl_get_of_not_written _ _ _ _ ?_
        intro b t ht
        have htb : (t : ℤ) < min nb (kf - j0 + 1) := by
          have := List.mem_range.mp ht
          omega
        refine Rgemv_get_ne _ _ _ _ _ _ _ _ _ _ _ _ _ _ ?_
        intro u hu0 hum
        have hb := below_ne_flat lda n i j (j0 + u) (j0 + (t : ℤ)) hnl hj hji
          hin (by omega) (by omega) (by omega)
        have he : (j0 + u - 1) + (j0 + (t : ℤ) - 1) * lda =
            (j0 - 1) + (j0 + (t : ℤ) - 1) * lda + u * 1 := by ring
        exact he ▸ hb
    · rfl
  termination_by fuel => fuel

/-- The lower-mode trailing-panel update writes only rows `≥` their column:
entries strictly above the diagonal of the `n`×`n` view are unchanged. -/
theorem lowerUpdLoop_get_above (n nb lda ldw kf : ℤ) (wf : Buf F)
    (i j : ℤ) (hnl : n ≤ lda) (hi : 1 ≤ i) (hij : i < j) (hjn : j ≤ n) :
    ∀ (fuel : ℕ) (j0 : ℤ) (Ab : Buf F), 1 ≤ j0 ∨ nb ≤ 0 →
      (lowerUpdLoop n nb lda ldw kf wf fuel j0 Ab).get
          ((i - 1) + (j - 1) * lda) =
        Ab.get ((i - 1) + (j - 1) * lda)
  | 0, j0, Ab, _ => rfl
  | fuel + 1, j0, Ab, hj0 => by
    rw [lowerUpdLoop_succ]
    split_ifs with hle hgemm
    · rw [lowerUpdLoop_get_above n nb lda ldw kf wf i j hnl hi hij hjn fuel
        (j0 + nb) _ (by omega)]
      refine (Rgemm_get_ne _ _ _ _ _ _ _ _ _ _ _ _ _ _ _ ?_).trans ?_
      · intro r c hr0 hrm hc0 hcn2
        have hj01 : 1 ≤ j0 := by omega
        have hb := above_ne_flat lda n i j (j0 + min nb (n - j0 + 1) + r)
          (j0 + c) hnl hi hij hjn (by omega) (by omega) (by omega)
        have he : (j0 + min nb (n - j0 + 1) + r - 1) + (j0 + c - 1) * lda =
            (j0 + min nb (n - j0 + 1) - 1) + (j0 - 1) * lda + r + c * lda := by
          ring
        exact he ▸ hb
      · refine foldl_get_of_not_written _ _ _ _ ?_
        intro b t ht
        have htb : (t : ℤ) < min nb (n - j0 + 1) := by
          have := List.mem_range.mp ht
          omega
        have hj01 : 1 ≤ j0 := by omega
        refine Rgemv_get_ne _ _ _ _ _ _ _ _ _ _ _ _ _ _ ?_
        intro u hu0 hum
        have hb := above_ne_flat lda n i j (j0 + (t : ℤ) + u) (j0 + (t : ℤ))
          hnl hi hij hjn (by omega) (by omega) (by omega)
        have he : (j0 + (t : ℤ) + u - 1) + (j0 + (t : ℤ) - 1) * lda =
            (j0 + (t : ℤ) - 1) + (j0 + (t : ℤ) - 1) * lda + u * 1 := by ring
        exact he ▸ hb
    · rw [lowerUpdLoop_get_above n nb lda ldw kf wf i j hnl hi hij hjn fuel
        (j0 + nb) _ (by omega)]
      refine foldl_get_of_not_written _ _ _ _ ?_
      intro b t ht
      have htb : (t : ℤ) < min nb (n - j0 + 1) := by
        have := List.mem_range.mp ht
        omega
      have hj01 : 1 ≤ j0 := by omega
      refine Rgemv_get_ne _ _ _ _ _ _ _ _ _ _ _ _ _ _ ?_
      intro u hu0 hum
      have hb := above_ne_flat lda n i j (j0 + (t : ℤ) + u) (j0 + (t : ℤ))
        hnl hi hij hjn (by omega) (by omega) (by omega)
      have he : (j0 + (t : ℤ) + u - 1) + (j0 + (t : ℤ) - 1) * lda =
          (j0 + (t : ℤ) - 1) + (j0 + (t : ℤ) - 1) * lda + u * 1 := by ring
      exact he ▸ hb
    · rfl
  termination_by fuel => fuel

/-- After the upper-mode main loop, every `ipiv` entry at a 0-based
position `x` in the processed range `[kf, n-1]` holds a nonzero value of
magnitude at most `x + 1` (its own column index). -/
theorem upperLoop_ipiv_bounds (alpha : F) (n nb lda ldw : ℤ) :
    ∀ (fuel : ℕ) (k : ℤ) (s : LasyfState F), k ≤ n →
      (∀ x : ℤ, k ≤ x → x ≤ n - 1 →
        1 ≤ |s.ipiv.get x| ∧ |s.ipiv.get x| ≤ x + 1) →
      ∀ x : ℤ, (upperLoop alpha n nb lda ldw fuel k s).2 ≤ x → x ≤ n - 1 →
        1 ≤ |(upperLoop alpha n nb lda ldw fuel k s).1.ipiv.get x| ∧
          |(upperLoop alpha n nb lda ldw fuel k s).1.ipiv.get x| ≤ x + 1
  | 0, k, s, _, hinit => hinit
  | fuel + 1, k, s, hkn, hinit => by
    rw [upperLoop_succ]
    split_ifs with hex
    · exact hinit
    · have hk1 : 1 ≤ k := by
        rcases not_or.mp hex with ⟨-, h2⟩
        omega
      refine upperLoop_ipiv_bounds alpha n nb lda ldw fuel
        (k - (upperIter alpha n nb lda ldw k s).2)
        (upperIter alpha n nb lda ldw k s).1
        (by rcases upperIter_kstep alpha n nb lda ldw k s with h | h <;> omega)
        ?_
      intro y hy1 hy2
      by_cases hsing : max
          (upperAbsakk n nb ldw k (upperStageW n nb lda ldw k s.A s.w))
          (upperColmax n nb ldw k (upperStageW n nb lda ldw k s.A s.w)) = 0
      · rw [upperIter_singular alpha n nb lda ldw k s hsing] at hy1 ⊢
        simp only [fst_pair, snd_pair] at hy1 ⊢
        by_cases hy : y = k - 1
        · rw [store_get, if_pos hy]
          rw [abs_of_nonneg (by omega : (0 : ℤ) ≤ k)]
          omega
        · rw [store_get, if_neg hy]
          exact hinit y (by omega) hy2
      · obtain ⟨hp1, hpk, hp2⟩ := upperPivot_kp_bounds alpha n nb lda ldw k
          s.A (upperStageW n nb lda ldw k s.A s.w) hk1
        simp only [upperIter, if_neg hsing, fst_pair, snd_pair] at hy1 ⊢
        rcases upperPivot_kstep alpha n nb lda ldw k s.A
            (upperStageW n nb lda ldw k s.A s.w) with h | h
        · rw [h] at hy1
          rw [if_pos h]
          by_cases hy : y = k - 1
          · rw [store_get, if_pos hy]
            rw [abs_of_nonneg (by omega : (0 : ℤ) ≤
              (upperPivot alpha n nb lda ldw k s.A
                (upperStageW n nb lda ldw k s.A s.w)).1)]
            omega
          · rw [store_get, if_neg hy]
            exact hinit y (by omega) hy2
        · have hp2k := hp2 h
          rw [h] at hy1
          rw [if_neg (by omega : ¬ (upperPivot alpha n nb lda ldw k s.A
            (upperStageW n nb lda ldw k s.A s.w)).2.1 = 1)]
          have habs : |-(upperPivot alpha n nb lda ldw k s.A
              (upperStageW n nb lda ldw k s.A s.w)).1| =
              (upperPivot alpha n nb lda ldw k s.A
                (upperStageW n nb lda ldw k s.A s.w)).1 := by
            rw [abs_neg, abs_of_nonneg (by omega)]
          by_cases hy : y = k - 2
          · rw [store_get, if_pos hy, habs]
            omega
          · rw [store_get, if_neg hy]
            by_cases hy3 : y = k - 1
            · rw [store_get, if_pos hy3, habs]
              omega
            · rw [store_get, if_neg hy3]
              exact hinit y (by omega) hy2
  termination_by fuel => fuel

/-- After the lower-mode main loop, every `ipiv` entry at a 0-based
position `x` in the processed range `[0, kf-2]` holds a value of magnitude
at least `x + 1` (its own column index) and at most `n`. -/
theorem lowerLoop_ipiv_bounds (alpha : F) (n nb lda ldw : ℤ) :
    ∀ (fuel : ℕ) (k : ℤ) (s : LasyfState F),
      (∀ x : ℤ, 0 ≤ x → x ≤ k - 2 →
        x + 1 ≤ |s.ipiv.get x| ∧ |s.ipiv.get x| ≤ n) →
      ∀ x : ℤ, 0 ≤ x → x ≤ (lowerLoop alpha n nb lda ldw fuel k s).2 - 2 →
        x + 1 ≤ |(lowerLoop alpha n nb lda ldw fuel k s).1.ipiv.get x| ∧
          |(lowerLoop alpha n nb lda ldw fuel k s).1.ipiv.get x| ≤ n
  | 0, k, s, hinit => hinit
  | fuel + 1, k, s, hinit => by
    rw [lowerLoop_succ]
    split_ifs with hex
    · exact hinit
    · have hkn : k ≤ n := by
        rcases not_or.mp hex with ⟨-, h2⟩
        omega
      refine lowerLoop_ipiv_bounds alpha n nb lda ldw fuel
        (k + (lowerIter alpha n lda ldw k s).2)
        (lowerIter alpha n lda ldw k s).1 ?_
      intro y hy0 hy2
      by_cases hsing : max
          (lowerAbsakk ldw k (lowerStageW n lda ldw k s.A s.w))
          (lowerColmax n ldw k (lowerStageW n lda ldw k s.A s.w)) = 0
      · rw [lowerIter_singular alpha n lda ldw k s hsing] at hy2 ⊢
        simp only [fst_pair, snd_pair] at hy2 ⊢
        by_cases hy : y = k - 1
        · rw [store_get, if_pos hy]
          rw [abs_of_nonneg (by omega : (0 : ℤ) ≤ k)]
          omega
        · rw [store_get, if_neg hy]
          exact hinit y hy0 (by omega)
      · obtain ⟨hpk, hpn, hp2⟩ := lowerPivot_kp_bounds alpha n lda ldw k
          s.A (lowerStageW n lda ldw k s.A s.w) hkn
        simp only [lowerIter, if_neg hsing, fst_pair, snd_pair] at hy2 ⊢
        rcases lowerPivot_kstep alpha n lda ldw k s.A
            (lowerStageW n lda ldw k s.A s.w) with h | h
        · rw [h] at hy2
          rw [if_pos h]
          by_cases hy : y = k - 1
          · rw [store_get, if_pos hy]
            rw [abs_of_nonneg (by omega : (0 : ℤ) ≤
              (lowerPivot alpha n lda ldw k s.A
                (lowerStageW n lda ldw k s.A s.w)).1)]
            omega
          · rw [store_get, if_neg hy]
            exact hinit y hy0 (by omega)
        · have hp2k := hp2 h
          rw [h] at hy2
          rw [if_neg (by omega : ¬ (lowerPivot alpha n lda ldw k s.A
            (lowerStageW n lda ldw k s.A s.w)).2.1 = 1)]
          have habs : |-(lowerPivot alpha n lda ldw k s.A
              (lowerStageW n lda ldw k s.A s.w)).1| =
              (lowerPivot alpha n lda ldw k s.A
                (lowerStageW n lda ldw k s.A s.w)).1 := by
            rw [abs_neg, abs_of_nonneg (by omega)]
          by_cases hy : y = k
          · rw [store_get, if_pos hy, habs]
            omega
          · rw [store_get, if_neg hy]
            by_cases hy3 : y = k - 1
            · rw [store_get, if_pos hy3, habs]
              omega
            · rw [store_get, if_neg hy3]
              exact hinit y hy0 (by omega)
  termination_by fuel => fuel

/-- The upper-mode un-interchange loop swaps rows whose indices are bounded
by their `ipiv` position (as the main loop guarantees), at columns strictly
beyond them: entries strictly below the diagonal of the `n`×`n` view are
unchanged. -/
theorem upperUndoLoop_get_below (n lda : ℤ) (piv : Buf ℤ) (i j : ℤ)
    (hnl : n ≤ lda) (hj : 1 ≤ j) (hji : j < i) (hin : i ≤ n) :
    ∀ (fuel : ℕ) (j0 : ℤ) (Ab : Buf F),
      (∀ x : ℤ, j0 - 1 ≤ x → x ≤ n - 1 →
        1 ≤ |piv.get x| ∧ |piv.get x| ≤ x + 1) →
      (upperUndoLoop n lda piv fuel j0 Ab).get ((i - 1) + (j - 1) * lda) =
        Ab.get ((i - 1) + (j - 1) * lda)
  | 0, j0, Ab, _ => rfl
  | fuel + 1, j0, Ab, hpiv => by
    rw [upperUndoLoop_succ]
    by_cases hneg : piv.get (j0 - 1) < 0 <;>
      [simp only [if_pos hneg]; simp only [if_neg hneg]]
    · have hA2 : (if -piv.get (j0 - 1) ≠ j0 ∧ j0 + 2 ≤ n then
          Rswap (n - (j0 + 2) + 1) Ab
            ((-piv.get (j0 - 1) - 1) + ((j0 + 2) - 1) * lda) lda
            ((j0 - 1) + ((j0 + 2) - 1) * lda) lda
        else Ab).get ((i - 1) + (j - 1) * lda) =
          Ab.get ((i - 1) + (j - 1) * lda) := by
        split_ifs with hw
        · obtain ⟨hw1, hw2⟩ := hw
          have hc := hpiv (j0 - 1) (by omega) (by omega)
          rw [abs_of_neg hneg] at hc
          refine Rswap_get_ne _ _ _ _ _ _ _ ?_
          intro t ht0 htn
          constructor
          · have hb := below_ne_flat lda n i j (-piv.get (j0 - 1))
              (j0 + 2 + t) hnl hj hji hin (by omega) (by omega) (by omega)
            have he : (-piv.get (j0 - 1) - 1) + (j0 + 2 + t - 1) * lda =
                (-piv.get (j0 - 1) - 1) + ((j0 + 2) - 1) * lda + t * lda := by
              ring
            exact he ▸ hb
          · have hb := below_ne_flat lda n i j j0 (j0 + 2 + t) hnl hj hji hin
              (by omega) (by omega) (by omega)
            have he : (j0 - 1) + (j0 + 2 + t - 1) * lda =
                (j0 - 1) + ((j0 + 2) - 1) * lda + t * lda := by ring
            exact he ▸ hb
        · rfl
      by_cases hstop : j0 + 2 > n
      · rw [if_pos hstop]
        exact hA2
      · rw [if_neg hstop, upperUndoLoop_get_below n lda piv i j hnl hj hji hin
          fuel (j0 + 2) _ (fun x hx1 hx2 => hpiv x (by omega) hx2)]
        exact hA2
    · have hA2 : (if piv.get (j0 - 1) ≠ j0 ∧ j0 + 1 ≤ n then
          Rswap (n - (j0 + 1) + 1) Ab
            ((piv.get (j0 - 1) - 1) + ((j0 + 1) - 1) * lda) lda
            ((j0 - 1) + ((j0 + 1) - 1) * lda) lda
        else Ab).get ((i - 1) + (j - 1) * lda) =
          Ab.get ((i - 1) + (j - 1) * lda) := by
        split_ifs with hw
        · obtain ⟨hw1, hw2⟩ := hw
          have hc := hpiv (j0 - 1) (by omega) (by omega)
          rw [abs_of_nonneg (by omega : (0 : ℤ) ≤ piv.get (j0 - 1))] at hc
          refine Rswap_get_ne _ _ _ _ _ _ _ ?_
          intro t ht0 htn
          constructor
          · have hb := below_ne_flat lda n i j (piv.get (j0 - 1))
              (j0 + 1 + t) hnl hj hji hin (by omega) (by omega) (by omega)
            have he : (piv.get (j0 - 1) - 1) + (j0 + 1 + t - 1) * lda =
                (piv.get (j0 - 1) - 1) + ((j0 + 1) - 1) * lda + t * lda := by
              ring
            exact he ▸ hb
          · have hb := below_ne_flat lda n i j j0 (j0 + 1 + t) hnl hj hji hin
              (by omega) (by omega) (by omega)
            have he : (j0 - 1) + (j0 + 1 + t - 1) * lda =
                (j0 - 1) + ((j0 + 1) - 1) * lda + t * lda := by ring
            exact he ▸ hb
        · rfl
      by_cases hstop : j0 + 1 > n
      · rw [if_pos hstop]
        exact hA2
      · rw [if_neg hstop, upperUndoLoop_get_below n lda piv i j hnl hj hji hin
          fuel (j0 + 1) _ (fun x hx1 hx2 => hpiv x (by omega) hx2)]
        exact hA2
  termination_by fuel => fuel

/-- The lower-mode un-interchange loop swaps rows whose indices are at least
their `ipiv` position (as the main loop guarantees), at columns strictly
before them: entries strictly above the diagonal of the `n`×`n` view are
unchanged. -/
theorem lowerUndoLoop_get_above (lda n : ℤ) (piv : Buf ℤ) (i j : ℤ)
    (hnl : n ≤ lda) (hi : 1 ≤ i) (hij : i < j) (hjn : j ≤ n) :
    ∀ (fuel : ℕ) (j0 : ℤ) (Ab : Buf F), j0 ≤ n →
      (∀ x : ℤ, 0 ≤ x → x ≤ j0 - 1 →
        x + 1 ≤ |piv.get x| ∧ |piv.get x| ≤ n) →
      (lowerUndoLoop lda piv fuel j0 Ab).get ((i - 1) + (j - 1) * lda) =
        Ab.get ((i - 1) + (j - 1) * lda)
  | 0, j0, Ab, _, _ => rfl
  | fuel + 1, j0, Ab, hj0n, hpiv => by
    rw [lowerUndoLoop_succ]
    by_cases hneg : piv.get (j0 - 1) < 0 <;>
      [simp only [if_pos hneg]; simp only [if_neg hneg]]
    · have hA2 : (if -piv.get (j0 - 1) ≠ j0 ∧ j0 - 2 ≥ 1 then
          Rswap (j0 - 2) Ab (-piv.get (j0 - 1) - 1) lda (j0 - 1) lda
        else Ab).get ((i - 1) + (j - 1) * lda) =
          Ab.get ((i - 1) + (j - 1) * lda) := by
        split_ifs with hw
        · obtain ⟨hw1, hw2⟩ := hw
          have hc := hpiv (j0 - 1) (by omega) (by omega)
          rw [abs_of_neg hneg] at hc
          refine Rswap_get_ne _ _ _ _ _ _ _ ?_
          intro t ht0 htn
          constructor
          · have hb := above_ne_flat lda n i j (-piv.get (j0 - 1)) (t + 1)
              hnl hi hij hjn (by omega) (by omega) (by omega)
            have he : (-piv.get (j0 - 1) - 1) + (t + 1 - 1) * lda =
                (-piv.get (j0 - 1) - 1) + t * lda := by ring
            exact he ▸ hb
          · have hb := above_ne_flat lda n i j j0 (t + 1) hnl hi hij hjn
              (by omega) (by omega) (by omega)
            have he : (j0 - 1) + (t + 1 - 1) * lda = (j0 - 1) + t * lda := by
              ring
            exact he ▸ hb
        · rfl
      by_cases hstop : j0 - 2 < 1
      · rw [if_pos hstop]
        exact hA2
      · rw [if_neg hstop, lowerUndoLoop_get_above lda n piv i j hnl hi hij hjn
          fuel (j0 - 2) _ (by omega) (fun x hx1 hx2 => hpiv x hx1 (by omega))]
        exact hA2
    · have hA2 : (if piv.get (j0 - 1) ≠ j0 ∧ j0 - 1 ≥ 1 then
          Rswap (j0 - 1) Ab (piv.get (j0 - 1) - 1) lda (j0 - 1) lda
        else Ab).get ((i - 1) + (j - 1) * lda) =
          Ab.get ((i - 1) + (j - 1) * lda) := by
        split_ifs with hw
        · obtain ⟨hw1, hw2⟩ := hw
          have hc := hpiv (j0 - 1) (by omega) (by omega)
          rw [abs_of_nonneg (by omega : (0 : ℤ) ≤ piv.get (j0 - 1))] at hc
          refine Rswap_get_ne _ _ _ _ _ _ _ ?_
          intro t ht0 htn
          constructor
          · have hb := above_ne_flat lda n i j (piv.get (j0 - 1)) (t + 1)
              hnl hi hij hjn (by omega) (by omega) (by omega)
            have he : (piv.get (j0 - 1) - 1) + (t + 1 - 1) * lda =
                (piv.get (j0 - 1) - 1) + t * lda := by ring
            exact he ▸ hb
          · have hb := above_ne_flat lda n i j j0 (t + 1) hnl hi hij hjn
              (by omega) (by omega) (by omega)
            have he : (j0 - 1) + (t + 1 - 1) * lda = (j0 - 1) + t * lda := by
              ring
            exact he ▸ hb
        · rfl
      by_cases hstop : j0 - 1 < 1
      · rw [if_pos hstop]
        exact hA2
      · rw [if_neg hstop, lowerUndoLoop_get_above lda n piv i j hnl hi hij hjn
          fuel (j0 - 1) _ (by omega) (fun x hx1 hx2 => hpiv x hx1 (by omega))]
        exact hA2
  termination_by fuel => fuel

/-- Claim C9: For every call of `Rlasyf` in upper-triangle mode, no element of
`A` strictly below the main diagonal of the `n`×`n` view is ever written —
every write of the interchange, commit, panel-update and un-interchange
phases targets a row index at most its column index — and mirrored, in
lower-triangle mode no element strictly above the main diagonal is ever
written: the opposite triangle is unchanged by the call (`n ≤ lda`). -/
theorem c9_opposite_triangle_unchanged (alpha : F) (n nb lda ldw : ℤ)
    (A : Buf F) (ipiv : Buf ℤ) (w : Buf F) (i j : ℤ) (hnl : n ≤ lda) :
    (1 ≤ j → j < i → i ≤ n →
      (Rlasyf alpha true n nb A lda ipiv w ldw).A.get
          ((i - 1) + (j - 1) * lda) =
        A.get ((i - 1) + (j - 1) * lda)) ∧
    (1 ≤ i → i < j → j ≤ n →
      (Rlasyf alpha false n nb A lda ipiv w ldw).A.get
          ((i - 1) + (j - 1) * lda) =
        A.get ((i - 1) + (j - 1) * lda)) := by
  constructor
  · intro hj hji hin
    have hres : (Rlasyf alpha true n nb A lda ipiv w ldw).A =
        upperUndoLoop n lda (upperLoop alpha n nb lda ldw (lasyfFuel n) n ⟨A, w, ipiv, 0⟩).1.ipiv (lasyfFuel n) ((upperLoop alpha n nb lda ldw (lasyfFuel n) n ⟨A, w, ipiv, 0⟩).2 + 1)
          (upperUpdLoop n nb lda ldw (upperLoop alpha n nb lda ldw (lasyfFuel n) n ⟨A, w, ipiv, 0⟩).2 (nb + (upperLoop alpha n nb lda ldw (lasyfFuel n) n ⟨A, w, ipiv, 0⟩).2 - n) (upperLoop alpha n nb lda ldw (lasyfFuel n) n ⟨A, w, ipiv, 0⟩).1.w
            (lasyfFuel n) (Int.tdiv ((upperLoop alpha n nb lda ldw (lasyfFuel n) n ⟨A, w, ipiv, 0⟩).2 - 1) nb * nb + 1) (upperLoop alpha n nb lda ldw (lasyfFuel n) n ⟨A, w, ipiv, 0⟩).1.A) := rfl
    rw [hres]
    rw [upperUndoLoop_get_below n lda _ i j hnl hj hji hin (lasyfFuel n) _ _
      (fun x hx1 hx2 => upperLoop_ipiv_bounds alpha n nb lda ldw (lasyfFuel n)
        n ⟨A, w, ipiv, 0⟩ (le_refl n)
        (fun y hy1 hy2 => absurd (hy1.trans hy2) (by omega)) x (by omega) hx2)]
    rw [upperUpdLoop_get_below n nb lda ldw _ _ _ i j hnl hj hji hin
      (upperLoop_k_le alpha n nb lda ldw (lasyfFuel n) n ⟨A, w, ipiv, 0⟩)
      (lasyfFuel n) _ _]
    exact upperLoop_A_frame alpha n nb lda ldw i j hnl hj hji hin
      (lasyfFuel n) n ⟨A, w, ipiv, 0⟩ (le_refl n)
  · intro hi hij hjn
    have hres : (Rlasyf alpha false n nb A lda ipiv w ldw).A =
        lowerUndoLoop lda (lowerLoop alpha n nb lda ldw (lasyfFuel n) 1 ⟨A, w, ipiv, 0⟩).1.ipiv (lasyfFuel n) ((lowerLoop alpha n nb lda ldw (lasyfFuel n) 1 ⟨A, w, ipiv, 0⟩).2 - 1)
          (lowerUpdLoop n nb lda ldw (lowerLoop alpha n nb lda ldw (lasyfFuel n) 1 ⟨A, w, ipiv, 0⟩).2 (lowerLoop alpha n nb lda ldw (lasyfFuel n) 1 ⟨A, w, ipiv, 0⟩).1.w (lasyfFuel n) (lowerLoop alpha n nb lda ldw (lasyfFuel n) 1 ⟨A, w, ipiv, 0⟩).2
            (lowerLoop alpha n nb lda ldw (lasyfFuel n) 1 ⟨A, w, ipiv, 0⟩).1.A) := rfl
    rw [hres]
    have hkf1 : 1 ≤ (lowerLoop alpha n nb lda ldw (lasyfFuel n) 1 ⟨A, w, ipiv, 0⟩).2 :=
      lowerLoop_k_ge alpha n nb lda ldw (lasyfFuel n) 1 ⟨A, w, ipiv, 0⟩
    have hkfn : (lowerLoop alpha n nb lda ldw (lasyfFuel n) 1 ⟨A, w, ipiv, 0⟩).2 ≤ n + 1 :=
      lowerLoop_k_le_succ alpha n nb lda ldw (lasyfFuel n) 1 ⟨A, w, ipiv, 0⟩
        (by omega)
    rw [lowerUndoLoop_get_above lda n _ i j hnl hi hij hjn (lasyfFuel n) _ _
      (by omega)
      (fun x hx1 hx2 => lowerLoop_ipiv_bounds alpha n nb lda ldw (lasyfFuel n)
        1 ⟨A, w, ipiv, 0⟩
        (fun y hy1 hy2 => absurd (hy1.trans hy2) (by omega)) x hx1
        (by omega))]
    rw [lowerUpdLoop_get_above n nb lda ldw _ _ i j hnl hi hij hjn
      (lasyfFuel n) _ _ (Or.inl hkf1)]
    exact lowerLoop_A_frame alpha n nb lda ldw i j hnl hi hij hjn
      (lasyfFuel n) 1 ⟨A, w, ipiv, 0⟩ (by norm_num)

/-- Witness for C9: on the 2×2 matrix `[[0,1],[1,0]]` (`n = lda = 2`) both
the upper call's below-diagonal entry `(2,1)` and the lower call's
above-diagonal entry `(1,2)` are unchanged. -/
theorem c9_opposite_triangle_unchanged_witness :
    (Rlasyf (2 : ℚ) true 2 2 exSwapQ 2 zeroPivQ zeroBufQ 2).A.get
        ((2 - 1) + (1 - 1) * 2) = exSwapQ.get ((2 - 1) + (1 - 1) * 2) ∧
    (Rlasyf (2 : ℚ) false 2 2 exSwapQ 2 zeroPivQ zeroBufQ 2).A.get
        ((1 - 1) + (2 - 1) * 2) = exSwapQ.get ((1 - 1) + (2 - 1) * 2) := by
  constructor
  · exact (c9_opposite_triangle_unchanged (2 : ℚ) 2 2 2 2 exSwapQ zeroPivQ
      zeroBufQ 2 1 (by decide)).1 (by decide) (by decide) (by decide)
  · exact (c9_opposite_triangle_unchanged (2 : ℚ) 2 2 2 2 exSwapQ zeroPivQ
      zeroBufQ 1 2 (by decide)).2 (by decide) (by decide) (by decide)
end MPACK
